import Mathlib

/-!
# utf8chk: a shallow embedding of the validator in `utf8chk.h`

The C function `utf8chk(string, length, flags, &error_at, &error_len)` is
embedded as a pure function.  Bytes are `Fin 256` (`unsigned char`), the
pointer `p` is the index `p - string`, `size_t` and `unsigned` values are
natural numbers, and the reported position `error_at - string` is an integer
so that the back-pointing positions `p - n_prev` and `p - n` are computed
without truncation.  The length argument is a natural number and the sentinel
`UTF8CHK_CSTRING` is `SIZE_MAX` of a 64-bit `size_t`.  A read outside the
buffer ends the run with `Fault.out_of_bounds`.

The file has three parts: the embedding of the source, the notions used to
state the properties, and the lemmas and theorems.
-/

namespace Utf8chk

/-- One `unsigned char`. -/
abbrev Byte := Fin 256

/-- The enumeration `utf8chk_error` of `utf8chk.h`. -/
inductive utf8chk_error where
  | UTF8CHK_ERR_UNEXPECTED_CONT
  | UTF8CHK_ERR_INVALID_START_BYTE
  | UTF8CHK_ERR_RANGE
  | UTF8CHK_ERR_OVERLONG
  | UTF8CHK_ERR_NONCHARACTER
  | UTF8CHK_ERR_NULL_BYTE
  | UTF8CHK_ERR_SURROGATE
  | UTF8CHK_ERR_SURROGATE_LOW
  | UTF8CHK_ERR_SURROGATE_HIGH
  | UTF8CHK_ERR_EXPECTED_CONT
  | UTF8CHK_ERR_EXPECTED_CONT2
  | UTF8CHK_ERR_EXPECTED_CONT3
  | UTF8CHK_ERR_TRUNC
  | UTF8CHK_ERR_TRUNC2
  | UTF8CHK_ERR_TRUNC3
  | UTF8CHK_ERR_SURROGATE_TRUNC
  | UTF8CHK_ERR_SURROGATE_TRUNC2
  | UTF8CHK_ERR_SURROGATE_TRUNC3
  | UTF8CHK_OK
  deriving DecidableEq, Repr

open utf8chk_error

/-- The numeric value of each enumerator of `utf8chk_error`. -/
def utf8chk_error.code : utf8chk_error → Nat
  | UTF8CHK_ERR_UNEXPECTED_CONT => 1
  | UTF8CHK_ERR_INVALID_START_BYTE => 2
  | UTF8CHK_ERR_RANGE => 3
  | UTF8CHK_ERR_OVERLONG => 8
  | UTF8CHK_ERR_NONCHARACTER => 9
  | UTF8CHK_ERR_NULL_BYTE => 10
  | UTF8CHK_ERR_SURROGATE => 12
  | UTF8CHK_ERR_SURROGATE_LOW => 13
  | UTF8CHK_ERR_SURROGATE_HIGH => 14
  | UTF8CHK_ERR_EXPECTED_CONT => 16
  | UTF8CHK_ERR_EXPECTED_CONT2 => 17
  | UTF8CHK_ERR_EXPECTED_CONT3 => 18
  | UTF8CHK_ERR_TRUNC => 32
  | UTF8CHK_ERR_TRUNC2 => 33
  | UTF8CHK_ERR_TRUNC3 => 34
  | UTF8CHK_ERR_SURROGATE_TRUNC => 48
  | UTF8CHK_ERR_SURROGATE_TRUNC2 => 49
  | UTF8CHK_ERR_SURROGATE_TRUNC3 => 50
  | UTF8CHK_OK => 0

/-! ## The flags of `utf8chk_flag` -/

def UTF8CHK_BAN_OVERLONG : Nat := 1
def UTF8CHK_BAN_SURROGATES : Nat := 2
def UTF8CHK_BAN_OVERLONG_EXCEPT_NULL : Nat := 4
def UTF8CHK_CHECK_SURROGATES : Nat := 8
def UTF8CHK_BAN_NONCHARACTERS : Nat := 16
def UTF8CHK_BAN_NULL_BYTE : Nat := 32
def UTF8CHK_LAX : Nat := 0
def UTF8CHK_STRICT : Nat := 32767

def UTF8CHK_UTF8 : Nat := UTF8CHK_BAN_OVERLONG ||| UTF8CHK_BAN_SURROGATES
def UTF8CHK_MUTF8 : Nat := UTF8CHK_BAN_OVERLONG_EXCEPT_NULL ||| UTF8CHK_CHECK_SURROGATES
def UTF8CHK_CESU8 : Nat := UTF8CHK_BAN_OVERLONG ||| UTF8CHK_CHECK_SURROGATES
def UTF8CHK_WTF8 : Nat := UTF8CHK_BAN_OVERLONG

/-- The largest `size_t` (a 64-bit `size_t`). -/
def SIZE_MAX : Nat := 2 ^ 64 - 1

/-- The macro `UTF8CHK_CSTRING`, that is `(size_t)(-1)`. -/
def UTF8CHK_CSTRING : Nat := SIZE_MAX

/-- The constant `UNICODE_MAX` of `utf8chk`. -/
def UNICODE_MAX : Nat := 0x10FFFF

/-- What `utf8chk` hands back: the returned code, `error_at - string` and
`*error_len`. -/
structure Result where
  err : utf8chk_error
  error_at : Int
  error_len : Nat
  deriving DecidableEq, Repr

/-- Ways a run can end without a result: a read outside the buffer
(undefined behaviour in C), or the fuel of the loop driver used up. -/
inductive Fault where
  | out_of_bounds
  | out_of_fuel
  deriving DecidableEq, Repr

/-- The local variables of `utf8chk` that live across loop iterations; `p` is
the index `p - string`. -/
structure State where
  p : Nat
  length : Nat
  expect_low_surrogate : Bool
  u_cache : Nat
  n : Nat
  n_prev : Nat
  deriving DecidableEq, Repr

/-- How one run of the loop body ends. -/
inductive Step where
  | ret (r : Result)
  | brk
  | next (st : State)
  | fault
  deriving DecidableEq, Repr

/-- The macro `UTF8CHK_RETURN_ERROR_N(err, sel)`: `err` for `sel = 1` and by
default, `err##2` for 2, `err##3` for 3. -/
def UTF8CHK_RETURN_ERROR_N (err err2 err3 : utf8chk_error) (sel : Nat) : utf8chk_error :=
  match sel with
  | 2 => err2
  | 3 => err3
  | _ => err

/-- The label `no_output`: `p += n, length -= n; n_prev = n;`. -/
def no_output (st : State) (n : Nat) : State :=
  { st with p := st.p + n, length := st.length - n, n := n, n_prev := n }

/-- The noncharacter check (`flags & UTF8CHK_BAN_NONCHARACTERS`) followed by
`skip_checks` and `no_output`. -/
def noncharacter_check (flags : Nat) (st : State) (n u : Nat) : Step :=
  if flags &&& UTF8CHK_BAN_NONCHARACTERS ≠ 0 then
    if u &&& 0xFFFE = 0xFFFE then
      .ret ⟨UTF8CHK_ERR_NONCHARACTER, st.p, n⟩
    else if 0xFDD0 ≤ u ∧ u ≤ 0xFDEF then
      .ret ⟨UTF8CHK_ERR_NONCHARACTER, st.p, n⟩
    else .next (no_output st n)
  else .next (no_output st n)

/-- The checks on a decoded sequence: range, overlong, surrogates, then the
noncharacter check.  `st.length` is the remaining length at the start of the
sequence, as in the source. -/
def sequence_checks (flags : Nat) (st : State) (n u u_min : Nat) : Step :=
  if u > UNICODE_MAX then
    .ret ⟨UTF8CHK_ERR_RANGE, st.p, n⟩
  else if (flags &&& (UTF8CHK_BAN_OVERLONG ||| UTF8CHK_BAN_OVERLONG_EXCEPT_NULL) ≠ 0 ∧ u < u_min)
      ∧ (flags &&& UTF8CHK_BAN_OVERLONG ≠ 0 ∨ u ≠ 0 ∨ st.length ≠ 2) then
    .ret ⟨UTF8CHK_ERR_OVERLONG, st.p, n⟩
  else if 0xD800 ≤ u ∧ u ≤ 0xDFFF then
    let is_low := u &&& 0x400
    if flags &&& UTF8CHK_BAN_SURROGATES ≠ 0 then
      .ret ⟨UTF8CHK_ERR_SURROGATE, st.p, n⟩
    else if flags &&& UTF8CHK_CHECK_SURROGATES ≠ 0 then
      if is_low ≠ 0 ∧ st.expect_low_surrogate = false then
        .ret ⟨UTF8CHK_ERR_SURROGATE_LOW, st.p, n⟩
      else if is_low = 0 ∧ st.expect_low_surrogate = true then
        .ret ⟨UTF8CHK_ERR_SURROGATE_HIGH, st.p, n⟩
      else if is_low = 0 then
        .next (no_output { st with expect_low_surrogate := true,
                                   u_cache := 0x10000 + ((u &&& 0x3FF) <<< 10) } n)
      else
        noncharacter_check flags { st with expect_low_surrogate := false } n
          (st.u_cache ||| (u &&& 0x3FF))
    else noncharacter_check flags st n u
  else noncharacter_check flags { st with expect_low_surrogate := false } n u

/-- The loop `for (i = 1; i < n; ++i)` reading the continuation bytes; `k` is
the number of iterations left, `n - i`.  It ends the run on a byte that is
not `10xxxxxx`, and otherwise yields the decoded `u`. -/
def read_continuation (string : List Byte) (null_terminated : Bool) (st : State) (n : Nat) :
    Nat → Nat → Nat → Except Step Nat
  | 0, _, u => .ok u
  | k + 1, i, u =>
    match string[st.p + i]? with
    | none => .error .fault
    | some b =>
      let c := b.val
      if c &&& 0xC0 ≠ 0x80 then
        if c = 0 ∧ null_terminated = true then
          if st.expect_low_surrogate = true then
            .error (.ret ⟨UTF8CHK_RETURN_ERROR_N UTF8CHK_ERR_SURROGATE_TRUNC
              UTF8CHK_ERR_SURROGATE_TRUNC2 UTF8CHK_ERR_SURROGATE_TRUNC3 (n - i),
              (st.p : Int) - st.n_prev, st.n_prev⟩)
          else
            .error (.ret ⟨UTF8CHK_RETURN_ERROR_N UTF8CHK_ERR_TRUNC UTF8CHK_ERR_TRUNC2
              UTF8CHK_ERR_TRUNC3 (n - i), st.p, i⟩)
        else
          .error (.ret ⟨UTF8CHK_RETURN_ERROR_N UTF8CHK_ERR_EXPECTED_CONT
            UTF8CHK_ERR_EXPECTED_CONT2 UTF8CHK_ERR_EXPECTED_CONT3 (n - i), st.p, i⟩)
      else read_continuation string null_terminated st n k (i + 1) ((u <<< 6) ||| (c &&& 0x3F))

/-- A multi-byte sequence once its start byte has been classified: the
truncation test `length < n`, the continuation bytes, the checks.  The cast
`(unsigned)length` is `% 2 ^ 32`. -/
def multibyte (string : List Byte) (flags : Nat) (null_terminated : Bool) (st : State)
    (n u u_min : Nat) : Step :=
  if st.length < n then
    if st.expect_low_surrogate = true then
      .ret ⟨UTF8CHK_RETURN_ERROR_N UTF8CHK_ERR_SURROGATE_TRUNC UTF8CHK_ERR_SURROGATE_TRUNC2
        UTF8CHK_ERR_SURROGATE_TRUNC3 (n - st.length % 2 ^ 32), (st.p : Int) - st.n_prev, st.n_prev⟩
    else
      .ret ⟨UTF8CHK_RETURN_ERROR_N UTF8CHK_ERR_TRUNC UTF8CHK_ERR_TRUNC2 UTF8CHK_ERR_TRUNC3
        (n - st.length % 2 ^ 32), st.p, st.length⟩
  else
    match read_continuation string null_terminated st n (n - 1) 1 u with
    | .error s => s
    | .ok u => sequence_checks flags st n u u_min

/-- The body of `while (length)`. -/
def loop_body (string : List Byte) (flags : Nat) (null_terminated : Bool) (st : State) : Step :=
  match string[st.p]? with
  | none => .fault
  | some b =>
    let c := b.val
    if c = 0 ∧ null_terminated = true then .brk
    else if c = 0 ∧ flags &&& UTF8CHK_BAN_NULL_BYTE ≠ 0 then
      .ret ⟨UTF8CHK_ERR_NULL_BYTE, st.p, 1⟩
    else if c < 0x80 then .next (no_output st 1)
    else if c < 0xC0 then .ret ⟨UTF8CHK_ERR_UNEXPECTED_CONT, st.p, 1⟩
    else if c < 0xE0 then multibyte string flags null_terminated st 2 (c &&& 0x1F) 0x0080
    else if c < 0xF0 then multibyte string flags null_terminated st 3 (c &&& 0x0F) 0x0800
    else if c < 0xF8 then multibyte string flags null_terminated st 4 (c &&& 0x07) 0x10000
    else .ret ⟨UTF8CHK_ERR_INVALID_START_BYTE, st.p, 1⟩

/-- The code after the loop: the pending high surrogate, or `UTF8CHK_OK`. -/
def after_loop (flags : Nat) (st : State) : Result :=
  if flags &&& UTF8CHK_CHECK_SURROGATES ≠ 0 ∧ st.expect_low_surrogate = true then
    ⟨UTF8CHK_ERR_SURROGATE_TRUNC, (st.p : Int) - st.n, st.n⟩
  else ⟨UTF8CHK_OK, st.p, 0⟩

/-- The loop `while (length)`, driven by fuel. -/
def utf8chk_loop (string : List Byte) (flags : Nat) (null_terminated : Bool) :
    Nat → State → Except Fault Result
  | 0, st => if st.length = 0 then .ok (after_loop flags st) else .error .out_of_fuel
  | fuel + 1, st =>
    if st.length = 0 then .ok (after_loop flags st)
    else
      match loop_body string flags null_terminated st with
      | .ret r => .ok r
      | .brk => .ok (after_loop flags st)
      | .next st1 => utf8chk_loop string flags null_terminated fuel st1
      | .fault => .error .out_of_bounds

/-- The function `utf8chk`.  Every iteration that does not return takes at
least one byte off `length`, so `length` is fuel enough. -/
def utf8chk (string : List Byte) (length flags : Nat) : Except Fault Result :=
  utf8chk_loop string flags (decide (length = UTF8CHK_CSTRING)) length
    { p := 0, length := length, expect_low_surrogate := false, u_cache := 0, n := 0, n_prev := 0 }

/-! ## Notions used to state the properties -/

/-- Whether a code is one of `UTF8CHK_ERR_SURROGATE_TRUNC`, `..._TRUNC2`,
`..._TRUNC3`. -/
def is_surrogate_trunc : utf8chk_error → Bool
  | UTF8CHK_ERR_SURROGATE_TRUNC => true
  | UTF8CHK_ERR_SURROGATE_TRUNC2 => true
  | UTF8CHK_ERR_SURROGATE_TRUNC3 => true
  | _ => false

/-- The length and the value of the sequence that starts at index `off`, read
the way the loop body reads it: the start byte gives the length and the first
bits, `read_continuation` folds the continuation bytes.  `none` when the bytes
at `off` are not a structurally complete sequence. -/
def decode_seq (string : List Byte) (off : Nat) : Option (Nat × Nat) :=
  let st : State :=
    { p := off, length := 0, expect_low_surrogate := false, u_cache := 0, n := 0, n_prev := 0 }
  match string[off]? with
  | none => none
  | some b =>
    let c := b.val
    if c < 0x80 then some (1, c)
    else if c < 0xC0 then none
    else if c < 0xE0 then
      match read_continuation string false st 2 1 1 (c &&& 0x1F) with
      | .ok u => some (2, u)
      | .error _ => none
    else if c < 0xF0 then
      match read_continuation string false st 3 2 1 (c &&& 0x0F) with
      | .ok u => some (3, u)
      | .error _ => none
    else if c < 0xF8 then
      match read_continuation string false st 4 3 1 (c &&& 0x07) with
      | .ok u => some (4, u)
      | .error _ => none
    else none

/-- A complete sequence of `len` bytes at index `off` that decodes to a high
surrogate (U+D800..U+DBFF). -/
def high_surrogate_at (string : List Byte) (off len : Nat) : Prop :=
  ∃ u, decode_seq string off = some (len, u) ∧ 0xD800 ≤ u ∧ u ≤ 0xDBFF

/-- What a returned error looks like from the state at the loop head. -/
def RetShape (st : State) (r : Result) : Prop :=
  r.err ≠ UTF8CHK_OK ∧
  ((is_surrogate_trunc r.err = false ∧ r.error_at = (st.p : Int) ∧ 1 ≤ r.error_len ∧
      r.error_len ≤ st.length) ∨
   (is_surrogate_trunc r.err = true ∧ st.expect_low_surrogate = true ∧
      r.error_at = (st.p : Int) - st.n_prev ∧ r.error_len = st.n_prev))

/-- What the state after a completed sequence of `n` bytes looks like. -/
def Advanced (st st1 : State) (n : Nat) : Prop :=
  st1.p = st.p + n ∧ st1.length = st.length - n ∧ st1.n = n ∧ st1.n_prev = n

/-- What a completed iteration looks like: `n` bytes were read at `st.p`, none
of them the terminator in sentinel mode, and `expect_low_surrogate` is set
afterwards only if it stayed set (after a 1-byte sequence, or with
`UTF8CHK_CHECK_SURROGATES` clear) or the sequence decodes to a high
surrogate. -/
def NextShape (string : List Byte) (flags : Nat) (nt : Bool) (st st1 : State) : Prop :=
  ∃ n, 1 ≤ n ∧ n ≤ 4 ∧ n ≤ st.length ∧ Advanced st st1 n ∧
    (∀ j, j < n → ∃ b : Byte, string[st.p + j]? = some b ∧ (nt = true → b.val ≠ 0)) ∧
    (st1.expect_low_surrogate = true →
      (st.expect_low_surrogate = true ∧ (n = 1 ∨ flags &&& UTF8CHK_CHECK_SURROGATES = 0)) ∨
      (flags &&& UTF8CHK_CHECK_SURROGATES ≠ 0 ∧ flags &&& UTF8CHK_BAN_SURROGATES = 0 ∧
        high_surrogate_at string st.p n ∧
        (n = 3 ∨ (n = 4 ∧
          flags &&& (UTF8CHK_BAN_OVERLONG ||| UTF8CHK_BAN_OVERLONG_EXCEPT_NULL) = 0))))

/-- The three ways the loop body classifies the start byte `c` of a multi-byte
sequence: its length, first bits and least code point. -/
def StartByte (c n u u_min : Nat) : Prop :=
  (n = 2 ∧ 0xC0 ≤ c ∧ c < 0xE0 ∧ u = c &&& 0x1F ∧ u_min = 0x0080) ∨
  (n = 3 ∧ 0xE0 ≤ c ∧ c < 0xF0 ∧ u = c &&& 0x0F ∧ u_min = 0x0800) ∨
  (n = 4 ∧ 0xF0 ≤ c ∧ c < 0xF8 ∧ u = c &&& 0x07 ∧ u_min = 0x10000)

/-- Specification side of claim C1: a Unicode scalar value, that is a code
point in U+0000..U+D7FF or U+E000..U+10FFFF. -/
def is_scalar_value (u : Nat) : Prop :=
  u ≤ 0xD7FF ∨ (0xE000 ≤ u ∧ u ≤ 0x10FFFF)

/-- Specification side of claim C1: the shortest-form UTF-8 encoding of a code
point, 1 to 4 bytes (Unicode Standard, table 3-6), written with division and
remainder instead of shifts and masks. -/
def utf8_encode (u : Nat) : List Nat :=
  if u < 0x80 then [u]
  else if u < 0x800 then [0xC0 + u / 64, 0x80 + u % 64]
  else if u < 0x10000 then [0xE0 + u / 4096, 0x80 + u / 64 % 64, 0x80 + u % 64]
  else [0xF0 + u / 262144, 0x80 + u / 4096 % 64, 0x80 + u / 64 % 64, 0x80 + u % 64]

/-- Specification side of claim C1: well-formed standard UTF-8, a
concatenation of the shortest-form encodings of Unicode scalar values. -/
def well_formed_utf8 (bytes : List Nat) : Prop :=
  ∃ us : List Nat, (∀ u ∈ us, is_scalar_value u) ∧ bytes = (us.map utf8_encode).flatten

/-- The values of the `len` bytes of the buffer from index `p` on. -/
def bytes_from (string : List Byte) (p len : Nat) : List Nat :=
  ((string.drop p).take len).map Fin.val

/-- The loop-head states a run passes through: `Reaches string flags nt st0 st`
holds when the iterations started in `st0` come to the loop head in `st`
without having returned. -/
inductive Reaches (string : List Byte) (flags : Nat) (nt : Bool) : State → State → Prop
  | refl (st : State) : Reaches string flags nt st st
  | step (st0 st1 st : State) : st0.length ≠ 0 →
      loop_body string flags nt st0 = .next st1 → Reaches string flags nt st1 st →
      Reaches string flags nt st0 st

/-- The scan of `utf8chk string length flags` comes to the loop head in state
`st`: the cursor is `st.p` and the variables are as in `st`. -/
def scan_reaches (string : List Byte) (length flags : Nat) (st : State) : Prop :=
  Reaches string flags (decide (length = UTF8CHK_CSTRING))
    { p := 0, length := length, expect_low_surrogate := false, u_cache := 0, n := 0, n_prev := 0 }
    st

/-- The surrogate-pair state at the loop head: `expect_low_surrogate` is set
only under `UTF8CHK_CHECK_SURROGATES`, and then the sequence just consumed is
a 1-byte sequence or decodes to a high surrogate. -/
def SurrogateInv (string : List Byte) (flags : Nat) (st : State) : Prop :=
  st.n_prev ≤ st.p ∧ (st.p = 0 → st.expect_low_surrogate = false) ∧
  (st.expect_low_surrogate = true → flags &&& UTF8CHK_CHECK_SURROGATES ≠ 0 ∧
    (st.n_prev = 1 ∨ high_surrogate_at string (st.p - st.n_prev) st.n_prev))

/-- The sequence length the loop body takes from a start byte `c`: 1 below
0x80, 2 for 0xC0..0xDF, 3 for 0xE0..0xEF, 4 for 0xF0..0xF7, and 0 where it
returns an error instead (0x80..0xBF and 0xF8..0xFF). -/
def signalled_length (c : Nat) : Nat :=
  if c < 0x80 then 1
  else if c < 0xC0 then 0
  else if c < 0xE0 then 2
  else if c < 0xF0 then 3
  else if c < 0xF8 then 4
  else 0

/-- Whether a code is one of `UTF8CHK_ERR_TRUNC`, `..._TRUNC2`, `..._TRUNC3`. -/
def is_trunc : utf8chk_error → Bool
  | UTF8CHK_ERR_TRUNC => true
  | UTF8CHK_ERR_TRUNC2 => true
  | UTF8CHK_ERR_TRUNC3 => true
  | _ => false

/-- Whether a code is one of `UTF8CHK_ERR_EXPECTED_CONT`, `..._CONT2`,
`..._CONT3`. -/
def is_expected_cont : utf8chk_error → Bool
  | UTF8CHK_ERR_EXPECTED_CONT => true
  | UTF8CHK_ERR_EXPECTED_CONT2 => true
  | UTF8CHK_ERR_EXPECTED_CONT3 => true
  | _ => false

/-- Specification side of claim C16: the UTF-16 decoding of a surrogate pair,
high surrogate `H` in U+D800..U+DBFF and low surrogate `L` in
U+DC00..U+DFFF. -/
def utf16_decode (H L : Nat) : Nat :=
  0x10000 + ((H - 0xD800) <<< 10) + (L - 0xDC00)

/-- Specification side of claim C14: a continuation byte, 0x80..0xBF. -/
def is_continuation_byte (c : Nat) : Prop :=
  0x80 ≤ c ∧ c ≤ 0xBF

/-- Specification side of claim C14: the code point a sequence of 1 to 4 bytes
carries, from the payload bits of its start byte and continuation bytes. -/
def lax_code_point : List Nat → Nat
  | [b0] => b0
  | [b0, b1] => (b0 - 0xC0) * 64 + (b1 - 0x80)
  | [b0, b1, b2] => (b0 - 0xE0) * 4096 + (b1 - 0x80) * 64 + (b2 - 0x80)
  | [b0, b1, b2, b3] =>
    (b0 - 0xF0) * 262144 + (b1 - 0x80) * 4096 + (b2 - 0x80) * 64 + (b3 - 0x80)
  | _ => 0

/-- Specification side of claim C14: a start byte in 0x00..0xF7 followed by
exactly the number of continuation bytes it signals (none below 0x80, one for
0xC0..0xDF, two for 0xE0..0xEF, three for 0xF0..0xF7). -/
def lax_shape (s : List Nat) : Prop :=
  (∃ b0, s = [b0] ∧ b0 < 0x80) ∨
  (∃ b0 b1, s = [b0, b1] ∧ 0xC0 ≤ b0 ∧ b0 ≤ 0xDF ∧ is_continuation_byte b1) ∨
  (∃ b0 b1 b2, s = [b0, b1, b2] ∧ 0xE0 ≤ b0 ∧ b0 ≤ 0xEF ∧ is_continuation_byte b1 ∧
    is_continuation_byte b2) ∨
  (∃ b0 b1 b2 b3, s = [b0, b1, b2, b3] ∧ 0xF0 ≤ b0 ∧ b0 ≤ 0xF7 ∧ is_continuation_byte b1 ∧
    is_continuation_byte b2 ∧ is_continuation_byte b3)

/-- Specification side of claim C14: a sequence of that shape whose code point
is at most U+10FFFF. -/
def lax_sequence (s : List Nat) : Prop :=
  lax_shape s ∧ lax_code_point s ≤ 0x10FFFF

/-- Specification side of claim C15: the 66 Unicode noncharacters,
U+FDD0..U+FDEF and U+nFFFE, U+nFFFF for n = 0..16. -/
def is_noncharacter (u : Nat) : Prop :=
  (0xFDD0 ≤ u ∧ u ≤ 0xFDEF) ∨
  ∃ n, n ≤ 16 ∧ (u = n * 0x10000 + 0xFFFE ∨ u = n * 0x10000 + 0xFFFF)

/-- Whether a code is one of the surrogate errors: `UTF8CHK_ERR_SURROGATE`,
`UTF8CHK_ERR_SURROGATE_LOW`, `UTF8CHK_ERR_SURROGATE_HIGH` and
`UTF8CHK_ERR_SURROGATE_TRUNC*`. -/
def is_surrogate_error : utf8chk_error → Bool
  | UTF8CHK_ERR_SURROGATE => true
  | UTF8CHK_ERR_SURROGATE_LOW => true
  | UTF8CHK_ERR_SURROGATE_HIGH => true
  | UTF8CHK_ERR_SURROGATE_TRUNC => true
  | UTF8CHK_ERR_SURROGATE_TRUNC2 => true
  | UTF8CHK_ERR_SURROGATE_TRUNC3 => true
  | _ => false

/-- What each flag-gated error kind needs of the flags. -/
def FlagGated (flags : Nat) (e : utf8chk_error) : Prop :=
  (e = UTF8CHK_ERR_OVERLONG →
    flags &&& UTF8CHK_BAN_OVERLONG ≠ 0 ∨ flags &&& UTF8CHK_BAN_OVERLONG_EXCEPT_NULL ≠ 0) ∧
  (e = UTF8CHK_ERR_NONCHARACTER → flags &&& UTF8CHK_BAN_NONCHARACTERS ≠ 0) ∧
  (e = UTF8CHK_ERR_NULL_BYTE → flags &&& UTF8CHK_BAN_NULL_BYTE ≠ 0) ∧
  (e = UTF8CHK_ERR_SURROGATE → flags &&& UTF8CHK_BAN_SURROGATES ≠ 0) ∧
  (e = UTF8CHK_ERR_SURROGATE_LOW ∨ e = UTF8CHK_ERR_SURROGATE_HIGH ∨
      is_surrogate_trunc e = true →
    flags &&& UTF8CHK_CHECK_SURROGATES ≠ 0 ∧ flags &&& UTF8CHK_BAN_SURROGATES = 0)

/-- The states of two runs over the same buffer, the second under the flags
`G`: the cursor and the remaining length are the same, and so are
`expect_low_surrogate` and `u_cache` when `G` has
`UTF8CHK_CHECK_SURROGATES`. -/
def FlagSim (G : Nat) (st st1 : State) : Prop :=
  st1.p = st.p ∧ st1.length = st.length ∧
  (G &&& UTF8CHK_CHECK_SURROGATES ≠ 0 →
    st1.expect_low_surrogate = st.expect_low_surrogate ∧ st1.u_cache = st.u_cache)

/-! ## Bit-level facts -/

set_option maxRecDepth 100000 in
theorem and_C0_eq_80_iff (c : Byte) : c.val &&& 0xC0 = 0x80 ↔ 0x80 ≤ c.val ∧ c.val < 0xC0 := by
  revert c; decide

theorem and_1F (c : Nat) : c &&& 0x1F = c % 32 := Nat.and_pow_two_sub_one_eq_mod c 5
theorem and_0F (c : Nat) : c &&& 0x0F = c % 16 := Nat.and_pow_two_sub_one_eq_mod c 4
theorem and_07 (c : Nat) : c &&& 0x07 = c % 8 := Nat.and_pow_two_sub_one_eq_mod c 3
theorem and_3F (c : Nat) : c &&& 0x3F = c % 64 := Nat.and_pow_two_sub_one_eq_mod c 6
theorem and_3FF (c : Nat) : c &&& 0x3FF = c % 1024 := Nat.and_pow_two_sub_one_eq_mod c 10

theorem shl6_or (a b : Nat) (hb : b < 64) : (a <<< 6) ||| b = a * 64 + b := by
  rw [Nat.shiftLeft_eq]
  have h := @Nat.mul_add_lt_is_or 6 b (by simpa using hb) a
  rw [Nat.mul_comm] at h
  exact h.symm

theorem and_400_eq_zero_iff (u : Nat) : u &&& 0x400 = 0 ↔ u / 1024 % 2 = 0 := by
  have e : (0x400 : Nat) = 2 ^ 10 := by norm_num
  rw [e]
  constructor
  · intro h
    have h1 : (u &&& 2 ^ 10).testBit 10 = false := by rw [h]; simp
    rw [Nat.testBit_and, Nat.testBit_two_pow_self, Bool.and_true, Nat.testBit_to_div_mod] at h1
    have : ¬ (u / 2 ^ 10 % 2 = 1) := by simpa using h1
    omega
  · intro h
    apply Nat.eq_of_testBit_eq
    intro i
    rw [Nat.testBit_and, Nat.testBit_two_pow, Nat.zero_testBit]
    by_cases hi : 10 = i
    · subst hi
      rw [Nat.testBit_to_div_mod]
      have h2 : decide (u / 2 ^ 10 % 2 = 1) = false := by
        apply decide_eq_false; omega
      rw [h2]; rfl
    · simp [hi]

/-! ## One step of the loop -/

theorem return_error_n_surrogate_trunc (sel : Nat) :
    is_surrogate_trunc (UTF8CHK_RETURN_ERROR_N UTF8CHK_ERR_SURROGATE_TRUNC
      UTF8CHK_ERR_SURROGATE_TRUNC2 UTF8CHK_ERR_SURROGATE_TRUNC3 sel) = true := by
  unfold UTF8CHK_RETURN_ERROR_N; split <;> rfl

theorem return_error_n_trunc (sel : Nat) :
    is_surrogate_trunc (UTF8CHK_RETURN_ERROR_N UTF8CHK_ERR_TRUNC
      UTF8CHK_ERR_TRUNC2 UTF8CHK_ERR_TRUNC3 sel) = false ∧
    UTF8CHK_RETURN_ERROR_N UTF8CHK_ERR_TRUNC UTF8CHK_ERR_TRUNC2 UTF8CHK_ERR_TRUNC3 sel
      ≠ UTF8CHK_OK := by
  unfold UTF8CHK_RETURN_ERROR_N; split <;> exact ⟨rfl, by decide⟩

theorem return_error_n_expected_cont (sel : Nat) :
    is_surrogate_trunc (UTF8CHK_RETURN_ERROR_N UTF8CHK_ERR_EXPECTED_CONT
      UTF8CHK_ERR_EXPECTED_CONT2 UTF8CHK_ERR_EXPECTED_CONT3 sel) = false ∧
    UTF8CHK_RETURN_ERROR_N UTF8CHK_ERR_EXPECTED_CONT UTF8CHK_ERR_EXPECTED_CONT2
      UTF8CHK_ERR_EXPECTED_CONT3 sel ≠ UTF8CHK_OK := by
  unfold UTF8CHK_RETURN_ERROR_N; split <;> exact ⟨rfl, by decide⟩

theorem surrogate_trunc_ne_ok {e : utf8chk_error} (h : is_surrogate_trunc e = true) :
    e ≠ UTF8CHK_OK := by
  intro h1; subst h1; exact absurd h (by decide)

theorem read_continuation_succ (string : List Byte) (nt : Bool) (st : State) (n k i u : Nat)
    (b : Byte) (hget : string[st.p + i]? = some b) :
    read_continuation string nt st n (k + 1) i u =
      if b.val &&& 0xC0 ≠ 0x80 then
        if b.val = 0 ∧ nt = true then
          if st.expect_low_surrogate = true then
            .error (.ret ⟨UTF8CHK_RETURN_ERROR_N UTF8CHK_ERR_SURROGATE_TRUNC
              UTF8CHK_ERR_SURROGATE_TRUNC2 UTF8CHK_ERR_SURROGATE_TRUNC3 (n - i),
              (st.p : Int) - st.n_prev, st.n_prev⟩)
          else
            .error (.ret ⟨UTF8CHK_RETURN_ERROR_N UTF8CHK_ERR_TRUNC UTF8CHK_ERR_TRUNC2
              UTF8CHK_ERR_TRUNC3 (n - i), st.p, i⟩)
        else
          .error (.ret ⟨UTF8CHK_RETURN_ERROR_N UTF8CHK_ERR_EXPECTED_CONT
            UTF8CHK_ERR_EXPECTED_CONT2 UTF8CHK_ERR_EXPECTED_CONT3 (n - i), st.p, i⟩)
      else read_continuation string nt st n k (i + 1) ((u <<< 6) ||| (b.val &&& 0x3F)) := by
  simp only [read_continuation, hget]

theorem read_continuation_none (string : List Byte) (nt : Bool) (st : State) (n k i u : Nat)
    (hget : string[st.p + i]? = none) :
    read_continuation string nt st n (k + 1) i u = .error .fault := by
  simp only [read_continuation, hget]

theorem read_continuation_ret (string : List Byte) (nt : Bool) (st : State) (n : Nat)
    (hn : n ≤ st.length) :
    ∀ (k i u : Nat) (r : Result), 1 ≤ i → i + k = n →
      read_continuation string nt st n k i u = .error (.ret r) → RetShape st r := by
  intro k
  induction k with
  | zero => intro i u r _ _ h; simp [read_continuation] at h
  | succ k ih =>
    intro i u r hi hik h
    rcases hget : string[st.p + i]? with _ | b
    · rw [read_continuation_none _ _ _ _ _ _ _ hget] at h
      simp at h
    · rw [read_continuation_succ _ _ _ _ _ _ _ b hget] at h
      by_cases hc : b.val &&& 0xC0 ≠ 0x80
      · rw [if_pos hc] at h
        by_cases hz : b.val = 0 ∧ nt = true
        · rw [if_pos hz] at h
          by_cases he : st.expect_low_surrogate = true
          · rw [if_pos he] at h
            simp only [Except.error.injEq, Step.ret.injEq] at h
            subst h
            exact ⟨surrogate_trunc_ne_ok (return_error_n_surrogate_trunc _),
              Or.inr ⟨return_error_n_surrogate_trunc _, he, rfl, rfl⟩⟩
          · rw [if_neg he] at h
            simp only [Except.error.injEq, Step.ret.injEq] at h
            subst h
            exact ⟨(return_error_n_trunc _).2,
              Or.inl ⟨(return_error_n_trunc _).1, rfl, hi, by show i ≤ st.length; omega⟩⟩
        · rw [if_neg hz] at h
          simp only [Except.error.injEq, Step.ret.injEq] at h
          subst h
          exact ⟨(return_error_n_expected_cont _).2,
            Or.inl ⟨(return_error_n_expected_cont _).1, rfl, hi, by show i ≤ st.length; omega⟩⟩
      · rw [if_neg hc] at h
        exact ih (i + 1) _ r (by omega) (by omega) h

theorem read_continuation_not_brk (string : List Byte) (nt : Bool) (st : State) (n : Nat) :
    ∀ (k i u : Nat), read_continuation string nt st n k i u ≠ .error .brk ∧
      ∀ st1, read_continuation string nt st n k i u ≠ .error (.next st1) := by
  intro k
  induction k with
  | zero => intro i u; simp [read_continuation]
  | succ k ih =>
    intro i u
    rcases hget : string[st.p + i]? with _ | b
    · rw [read_continuation_none _ _ _ _ _ _ _ hget]
      simp
    · rw [read_continuation_succ _ _ _ _ _ _ _ b hget]
      by_cases hc : b.val &&& 0xC0 ≠ 0x80
      · rw [if_pos hc]
        split_ifs <;> simp
      · rw [if_neg hc]
        exact ih (i + 1) _

theorem read_continuation_ok_bytes (string : List Byte) (nt : Bool) (st : State) (n : Nat) :
    ∀ (k i u v : Nat), read_continuation string nt st n k i u = .ok v →
      ∀ j, i ≤ j → j < i + k → ∃ b : Byte, string[st.p + j]? = some b ∧ b.val &&& 0xC0 = 0x80 := by
  intro k
  induction k with
  | zero => intro i u v _ j h1 h2; omega
  | succ k ih =>
    intro i u v h j h1 h2
    rcases hget : string[st.p + i]? with _ | b
    · rw [read_continuation_none _ _ _ _ _ _ _ hget] at h
      simp at h
    · rw [read_continuation_succ _ _ _ _ _ _ _ b hget] at h
      by_cases hc : b.val &&& 0xC0 ≠ 0x80
      · rw [if_pos hc] at h
        split_ifs at h
      · rw [if_neg hc] at h
        by_cases hj : j = i
        · subst hj
          exact ⟨b, hget, not_not.mp hc⟩
        · exact ih (i + 1) _ v h j (by omega) (by omega)

theorem read_continuation_ok_indep (string : List Byte) (nt nt1 : Bool) (st st1 : State)
    (n n1 : Nat) (hp : st1.p = st.p) :
    ∀ (k i u v : Nat), read_continuation string nt st n k i u = .ok v →
      read_continuation string nt1 st1 n1 k i u = .ok v := by
  intro k
  induction k with
  | zero => intro i u v h; simpa [read_continuation] using h
  | succ k ih =>
    intro i u v h
    rcases hget : string[st.p + i]? with _ | b
    · rw [read_continuation_none _ _ _ _ _ _ _ hget] at h
      simp at h
    · rw [read_continuation_succ _ _ _ _ _ _ _ b hget] at h
      rw [read_continuation_succ _ _ _ _ _ _ _ b (by rw [hp]; exact hget)]
      by_cases hc : b.val &&& 0xC0 ≠ 0x80
      · rw [if_pos hc] at h
        split_ifs at h
      · rw [if_neg hc] at h
        rw [if_neg hc]
        exact ih (i + 1) _ v h

theorem noncharacter_check_ret (flags : Nat) (st : State) (n u : Nat) (r : Result)
    (h : noncharacter_check flags st n u = .ret r) :
    r.err = UTF8CHK_ERR_NONCHARACTER ∧ r.error_at = (st.p : Int) ∧ r.error_len = n := by
  unfold noncharacter_check at h
  split_ifs at h <;> simp only [Step.ret.injEq, reduceCtorEq] at h <;> subst h <;> exact ⟨rfl, rfl, rfl⟩

theorem noncharacter_check_next (flags : Nat) (st : State) (n u : Nat) (st1 : State)
    (h : noncharacter_check flags st n u = .next st1) : st1 = no_output st n := by
  unfold noncharacter_check at h
  split_ifs at h <;> simp only [Step.next.injEq, reduceCtorEq] at h <;> exact h.symm

theorem noncharacter_check_cases (flags : Nat) (st : State) (n u : Nat) :
    (∃ r, noncharacter_check flags st n u = .ret r) ∨
      noncharacter_check flags st n u = .next (no_output st n) := by
  unfold noncharacter_check
  split_ifs <;> simp

/-- The body of `sequence_checks` with `is_low` written out. -/
theorem sequence_checks_eq (flags : Nat) (st : State) (n u u_min : Nat) :
    sequence_checks flags st n u u_min =
      if u > UNICODE_MAX then
        .ret ⟨UTF8CHK_ERR_RANGE, st.p, n⟩
      else if (flags &&& (UTF8CHK_BAN_OVERLONG ||| UTF8CHK_BAN_OVERLONG_EXCEPT_NULL) ≠ 0 ∧ u < u_min)
          ∧ (flags &&& UTF8CHK_BAN_OVERLONG ≠ 0 ∨ u ≠ 0 ∨ st.length ≠ 2) then
        .ret ⟨UTF8CHK_ERR_OVERLONG, st.p, n⟩
      else if 0xD800 ≤ u ∧ u ≤ 0xDFFF then
        if flags &&& UTF8CHK_BAN_SURROGATES ≠ 0 then
          .ret ⟨UTF8CHK_ERR_SURROGATE, st.p, n⟩
        else if flags &&& UTF8CHK_CHECK_SURROGATES ≠ 0 then
          if u &&& 0x400 ≠ 0 ∧ st.expect_low_surrogate = false then
            .ret ⟨UTF8CHK_ERR_SURROGATE_LOW, st.p, n⟩
          else if u &&& 0x400 = 0 ∧ st.expect_low_surrogate = true then
            .ret ⟨UTF8CHK_ERR_SURROGATE_HIGH, st.p, n⟩
          else if u &&& 0x400 = 0 then
            .next (no_output { st with expect_low_surrogate := true,
                                       u_cache := 0x10000 + ((u &&& 0x3FF) <<< 10) } n)
          else
            noncharacter_check flags { st with expect_low_surrogate := false } n
              (st.u_cache ||| (u &&& 0x3FF))
        else noncharacter_check flags st n u
      else noncharacter_check flags { st with expect_low_surrogate := false } n u := rfl

theorem sequence_checks_ret (flags : Nat) (st : State) (n u u_min : Nat) (r : Result)
    (h : sequence_checks flags st n u u_min = .ret r) :
    r.err ≠ UTF8CHK_OK ∧ is_surrogate_trunc r.err = false ∧ r.error_at = (st.p : Int) ∧
      r.error_len = n := by
  rw [sequence_checks_eq] at h
  split_ifs at h
  all_goals first
    | (simp only [Step.ret.injEq, reduceCtorEq] at h; subst h
       exact ⟨by simp, rfl, rfl, rfl⟩)
    | (obtain ⟨h1, h2, h3⟩ := noncharacter_check_ret _ _ _ _ _ h
       exact ⟨by rw [h1]; decide, by rw [h1]; rfl, h2, h3⟩)

theorem sequence_checks_no_brk (flags : Nat) (st : State) (n u u_min : Nat) :
    sequence_checks flags st n u u_min ≠ .brk ∧ sequence_checks flags st n u u_min ≠ .fault := by
  have hn : ∀ st1 u1, noncharacter_check flags st1 n u1 ≠ .brk ∧
      noncharacter_check flags st1 n u1 ≠ .fault := by
    intro st1 u1
    unfold noncharacter_check
    split_ifs <;> simp
  rw [sequence_checks_eq]
  split_ifs
  all_goals first
    | exact hn _ _
    | simp

/-- The state after a sequence that passed `sequence_checks`. -/
theorem sequence_checks_next (flags : Nat) (st : State) (n u u_min : Nat) (st1 : State)
    (h : sequence_checks flags st n u u_min = .next st1) :
    Advanced st st1 n ∧ u ≤ UNICODE_MAX ∧
    (st1.expect_low_surrogate = true →
      (st.expect_low_surrogate = true ∧ flags &&& UTF8CHK_CHECK_SURROGATES = 0) ∨
      (flags &&& UTF8CHK_CHECK_SURROGATES ≠ 0 ∧ flags &&& UTF8CHK_BAN_SURROGATES = 0 ∧
        0xD800 ≤ u ∧ u ≤ 0xDBFF ∧
        (flags &&& (UTF8CHK_BAN_OVERLONG ||| UTF8CHK_BAN_OVERLONG_EXCEPT_NULL) ≠ 0 → u_min ≤ u))) := by
  rw [sequence_checks_eq] at h
  by_cases h1 : u > UNICODE_MAX
  · rw [if_pos h1] at h; simp at h
  rw [if_neg h1] at h
  by_cases h2 : (flags &&& (UTF8CHK_BAN_OVERLONG ||| UTF8CHK_BAN_OVERLONG_EXCEPT_NULL) ≠ 0 ∧ u < u_min)
      ∧ (flags &&& UTF8CHK_BAN_OVERLONG ≠ 0 ∨ u ≠ 0 ∨ st.length ≠ 2)
  · rw [if_pos h2] at h; simp at h
  rw [if_neg h2] at h
  refine ⟨?_, by omega, ?_⟩
  · -- geometry
    split_ifs at h
    all_goals first
      | (have hx := noncharacter_check_next _ _ _ _ _ h; subst hx
         exact ⟨rfl, rfl, rfl, rfl⟩)
      | (simp only [Step.next.injEq, reduceCtorEq] at h; subst h
         exact ⟨rfl, rfl, rfl, rfl⟩)
  · intro he
    by_cases h3 : 0xD800 ≤ u ∧ u ≤ 0xDFFF
    · rw [if_pos h3] at h
      by_cases h4 : flags &&& UTF8CHK_BAN_SURROGATES ≠ 0
      · rw [if_pos h4] at h; simp at h
      rw [if_neg h4] at h
      by_cases h5 : flags &&& UTF8CHK_CHECK_SURROGATES ≠ 0
      · rw [if_pos h5] at h
        by_cases h6 : u &&& 0x400 ≠ 0 ∧ st.expect_low_surrogate = false
        · rw [if_pos h6] at h; simp at h
        rw [if_neg h6] at h
        by_cases h7 : u &&& 0x400 = 0 ∧ st.expect_low_surrogate = true
        · rw [if_pos h7] at h; simp at h
        rw [if_neg h7] at h
        by_cases h8 : u &&& 0x400 = 0
        · right
          have hlow := (and_400_eq_zero_iff u).mp h8
          refine ⟨h5, not_not.mp h4, h3.1, by omega, ?_⟩
          intro hov
          by_contra hlt
          exact h2 ⟨⟨hov, by omega⟩, Or.inr (Or.inl (by omega))⟩
        · rw [if_neg h8] at h
          have := noncharacter_check_next _ _ _ _ _ h
          subst this
          simp [no_output] at he
      · rw [if_neg h5] at h
        have := noncharacter_check_next _ _ _ _ _ h
        subst this
        left
        exact ⟨by simpa [no_output] using he, not_not.mp h5⟩
    · rw [if_neg h3] at h
      have := noncharacter_check_next _ _ _ _ _ h
      subst this
      simp [no_output] at he

theorem read_continuation_one_lt (string : List Byte) (nt : Bool) (st : State) (n i u v : Nat)
    (h : read_continuation string nt st n 1 i u = .ok v) : v < (u + 1) * 64 := by
  rcases hget : string[st.p + i]? with _ | b
  · rw [read_continuation_none _ _ _ _ _ _ _ hget] at h
    simp at h
  · rw [read_continuation_succ _ _ _ _ _ _ _ b hget] at h
    by_cases hc : b.val &&& 0xC0 ≠ 0x80
    · rw [if_pos hc] at h
      split_ifs at h
    · rw [if_neg hc] at h
      simp only [read_continuation, Except.ok.injEq] at h
      rw [and_3F, shl6_or _ _ (Nat.mod_lt _ (by norm_num))] at h
      omega

theorem multibyte_eq (string : List Byte) (flags : Nat) (nt : Bool) (st : State)
    (n u u_min : Nat) (hn : n ≤ st.length) :
    multibyte string flags nt st n u u_min =
      match read_continuation string nt st n (n - 1) 1 u with
      | .error s => s
      | .ok u => sequence_checks flags st n u u_min := by
  unfold multibyte
  rw [if_neg (by omega)]

theorem multibyte_ret (string : List Byte) (flags : Nat) (nt : Bool) (st : State)
    (n u u_min : Nat) (r : Result) (hn : 2 ≤ n) (hl : st.length ≠ 0)
    (h : multibyte string flags nt st n u u_min = .ret r) : RetShape st r := by
  by_cases hlt : st.length < n
  · unfold multibyte at h
    rw [if_pos hlt] at h
    by_cases he : st.expect_low_surrogate = true
    · rw [if_pos he] at h
      simp only [Step.ret.injEq] at h
      subst h
      exact ⟨surrogate_trunc_ne_ok (return_error_n_surrogate_trunc _),
        Or.inr ⟨return_error_n_surrogate_trunc _, he, rfl, rfl⟩⟩
    · rw [if_neg he] at h
      simp only [Step.ret.injEq] at h
      subst h
      exact ⟨(return_error_n_trunc _).2,
        Or.inl ⟨(return_error_n_trunc _).1, rfl, by show 1 ≤ st.length; omega, le_refl _⟩⟩
  · rw [multibyte_eq _ _ _ _ _ _ _ (by omega)] at h
    rcases hr : read_continuation string nt st n (n - 1) 1 u with s | v
    · rw [hr] at h
      simp only at h
      subst h
      exact read_continuation_ret string nt st n (by omega) (n - 1) 1 u r (le_refl _) (by omega) hr
    · rw [hr] at h
      simp only at h
      obtain ⟨h1, h2, h3, h4⟩ := sequence_checks_ret _ _ _ _ _ _ h
      exact ⟨h1, Or.inl ⟨h2, h3, by omega, by omega⟩⟩

theorem multibyte_no_brk (string : List Byte) (flags : Nat) (nt : Bool) (st : State)
    (n u u_min : Nat) : multibyte string flags nt st n u u_min ≠ .brk := by
  unfold multibyte
  split_ifs
  · simp
  · simp
  · rcases hr : read_continuation string nt st n (n - 1) 1 u with s | v
    · simp only
      intro hs
      subst hs
      exact (read_continuation_not_brk string nt st n (n - 1) 1 u).1 hr
    · simp only
      exact (sequence_checks_no_brk _ _ _ _ _).1

theorem multibyte_next (string : List Byte) (flags : Nat) (nt : Bool) (st : State)
    (n u u_min : Nat) (st1 : State)
    (h : multibyte string flags nt st n u u_min = .next st1) :
    n ≤ st.length ∧ ∃ v, read_continuation string nt st n (n - 1) 1 u = .ok v ∧
      sequence_checks flags st n v u_min = .next st1 := by
  by_cases hlt : st.length < n
  · unfold multibyte at h
    rw [if_pos hlt] at h
    split_ifs at h
  · rw [multibyte_eq _ _ _ _ _ _ _ (by omega)] at h
    refine ⟨by omega, ?_⟩
    rcases hr : read_continuation string nt st n (n - 1) 1 u with s | v
    · rw [hr] at h
      simp only at h
      subst h
      exact absurd hr ((read_continuation_not_brk string nt st n (n - 1) 1 u).2 st1)
    · rw [hr] at h
      exact ⟨v, rfl, h⟩

theorem loop_body_some (string : List Byte) (flags : Nat) (nt : Bool) (st : State) (b : Byte)
    (hget : string[st.p]? = some b) :
    loop_body string flags nt st =
      if b.val = 0 ∧ nt = true then .brk
      else if b.val = 0 ∧ flags &&& UTF8CHK_BAN_NULL_BYTE ≠ 0 then
        .ret ⟨UTF8CHK_ERR_NULL_BYTE, st.p, 1⟩
      else if b.val < 0x80 then .next (no_output st 1)
      else if b.val < 0xC0 then .ret ⟨UTF8CHK_ERR_UNEXPECTED_CONT, st.p, 1⟩
      else if b.val < 0xE0 then multibyte string flags nt st 2 (b.val &&& 0x1F) 0x0080
      else if b.val < 0xF0 then multibyte string flags nt st 3 (b.val &&& 0x0F) 0x0800
      else if b.val < 0xF8 then multibyte string flags nt st 4 (b.val &&& 0x07) 0x10000
      else .ret ⟨UTF8CHK_ERR_INVALID_START_BYTE, st.p, 1⟩ := by
  simp only [loop_body, hget]

theorem loop_body_none (string : List Byte) (flags : Nat) (nt : Bool) (st : State)
    (hget : string[st.p]? = none) : loop_body string flags nt st = .fault := by
  simp only [loop_body, hget]

theorem decode_seq_of_read (string : List Byte) (nt : Bool) (st : State) (b : Byte)
    (n u u_min v : Nat) (hget : string[st.p]? = some b) (hs : StartByte b.val n u u_min)
    (hr : read_continuation string nt st n (n - 1) 1 u = .ok v) :
    decode_seq string st.p = some (n, v) := by
  have key : ∀ n1, read_continuation string false
      { p := st.p, length := 0, expect_low_surrogate := false, u_cache := 0, n := 0, n_prev := 0 }
      n1 (n - 1) 1 u = .ok v :=
    fun n1 => read_continuation_ok_indep string nt false st
      { p := st.p, length := 0, expect_low_surrogate := false, u_cache := 0, n := 0, n_prev := 0 }
      n n1 rfl (n - 1) 1 u v hr
  unfold decode_seq
  simp only [hget]
  rcases hs with ⟨rfl, h1, h2, rfl, -⟩ | ⟨rfl, h1, h2, rfl, -⟩ | ⟨rfl, h1, h2, rfl, -⟩
  · rw [if_neg (by omega), if_neg (by omega), if_pos h2, key 2]
  · rw [if_neg (by omega), if_neg (by omega), if_neg (by omega), if_pos h2, key 3]
  · rw [if_neg (by omega), if_neg (by omega), if_neg (by omega), if_neg (by omega), if_pos h2,
      key 4]

theorem multibyte_next_shape (string : List Byte) (flags : Nat) (nt : Bool) (st st1 : State)
    (b : Byte) (n u u_min : Nat) (hget : string[st.p]? = some b)
    (hs : StartByte b.val n u u_min)
    (h : multibyte string flags nt st n u u_min = .next st1) :
    NextShape string flags nt st st1 := by
  obtain ⟨hlen, v, hr, hc⟩ := multibyte_next _ _ _ _ _ _ _ _ h
  obtain ⟨hadv, -, hexp⟩ := sequence_checks_next _ _ _ _ _ _ hc
  have hn : 2 ≤ n ∧ n ≤ 4 ∧ 0xC0 ≤ b.val := by
    rcases hs with ⟨rfl, h1, -⟩ | ⟨rfl, h1, -⟩ | ⟨rfl, h1, -⟩ <;> omega
  refine ⟨n, by omega, by omega, hlen, hadv, ?_, ?_⟩
  · intro j hj
    by_cases hj0 : j = 0
    · subst hj0
      exact ⟨b, hget, fun _ => by omega⟩
    · obtain ⟨b1, hb1, hb2⟩ :=
        read_continuation_ok_bytes string nt st n (n - 1) 1 u v hr j (by omega) (by omega)
      refine ⟨b1, hb1, fun _ h0 => ?_⟩
      rw [h0] at hb2
      exact absurd hb2 (by decide)
  · intro he
    rcases hexp he with ⟨h1, h2⟩ | ⟨h1, h2, h3, h4, h5⟩
    · exact Or.inl ⟨h1, Or.inr h2⟩
    · refine Or.inr ⟨h1, h2, ⟨v, decode_seq_of_read _ _ _ _ _ _ _ _ hget hs hr, h3, h4⟩, ?_⟩
      rcases hs with ⟨rfl, -, -, rfl, -⟩ | ⟨rfl, -⟩ | ⟨rfl, -, -, -, rfl⟩
      · have hlt := read_continuation_one_lt _ _ _ _ _ _ _ hr
        rw [and_1F] at hlt
        omega
      · exact Or.inl rfl
      · refine Or.inr ⟨rfl, ?_⟩
        by_contra hov
        have := h5 hov
        omega

theorem loop_body_next (string : List Byte) (flags : Nat) (nt : Bool) (st st1 : State)
    (h : loop_body string flags nt st = .next st1) (hl : st.length ≠ 0) :
    NextShape string flags nt st st1 := by
  rcases hget : string[st.p]? with _ | b
  · rw [loop_body_none _ _ _ _ hget] at h
    simp at h
  rw [loop_body_some _ _ _ _ b hget] at h
  by_cases h1 : b.val = 0 ∧ nt = true
  · rw [if_pos h1] at h; simp at h
  rw [if_neg h1] at h
  by_cases h2 : b.val = 0 ∧ flags &&& UTF8CHK_BAN_NULL_BYTE ≠ 0
  · rw [if_pos h2] at h; simp at h
  rw [if_neg h2] at h
  by_cases h3 : b.val < 0x80
  · rw [if_pos h3] at h
    simp only [Step.next.injEq] at h
    subst h
    refine ⟨1, le_refl _, by omega, by omega, ⟨rfl, rfl, rfl, rfl⟩, ?_, ?_⟩
    · intro j hj
      have hj0 : j = 0 := by omega
      subst hj0
      exact ⟨b, hget, fun hnt h0 => h1 ⟨h0, hnt⟩⟩
    · intro he
      exact Or.inl ⟨he, Or.inl rfl⟩
  rw [if_neg h3] at h
  by_cases h4 : b.val < 0xC0
  · rw [if_pos h4] at h; simp at h
  rw [if_neg h4] at h
  by_cases h5 : b.val < 0xE0
  · rw [if_pos h5] at h
    exact multibyte_next_shape _ _ _ _ _ b _ _ _ hget
      (Or.inl ⟨rfl, by omega, h5, rfl, rfl⟩) h
  rw [if_neg h5] at h
  by_cases h6 : b.val < 0xF0
  · rw [if_pos h6] at h
    exact multibyte_next_shape _ _ _ _ _ b _ _ _ hget
      (Or.inr (Or.inl ⟨rfl, by omega, h6, rfl, rfl⟩)) h
  rw [if_neg h6] at h
  by_cases h7 : b.val < 0xF8
  · rw [if_pos h7] at h
    exact multibyte_next_shape _ _ _ _ _ b _ _ _ hget
      (Or.inr (Or.inr ⟨rfl, by omega, h7, rfl, rfl⟩)) h
  rw [if_neg h7] at h
  simp at h

theorem loop_body_ret (string : List Byte) (flags : Nat) (nt : Bool) (st : State) (r : Result)
    (h : loop_body string flags nt st = .ret r) (hl : st.length ≠ 0) : RetShape st r := by
  rcases hget : string[st.p]? with _ | b
  · rw [loop_body_none _ _ _ _ hget] at h
    simp at h
  rw [loop_body_some _ _ _ _ b hget] at h
  have one : ∀ e : utf8chk_error, e ≠ UTF8CHK_OK → is_surrogate_trunc e = false →
      Step.ret ⟨e, st.p, 1⟩ = Step.ret r → RetShape st r := by
    intro e h1 h2 h3
    simp only [Step.ret.injEq] at h3
    subst h3
    exact ⟨h1, Or.inl ⟨h2, rfl, le_refl _, by show 1 ≤ st.length; omega⟩⟩
  split_ifs at h
  · exact one UTF8CHK_ERR_NULL_BYTE (by decide) rfl h
  · exact one UTF8CHK_ERR_UNEXPECTED_CONT (by decide) rfl h
  · exact multibyte_ret _ _ _ _ _ _ _ r (by omega) hl h
  · exact multibyte_ret _ _ _ _ _ _ _ r (by omega) hl h
  · exact multibyte_ret _ _ _ _ _ _ _ r (by omega) hl h
  · exact one UTF8CHK_ERR_INVALID_START_BYTE (by decide) rfl h

theorem loop_body_brk (string : List Byte) (flags : Nat) (nt : Bool) (st : State)
    (h : loop_body string flags nt st = .brk) :
    nt = true ∧ ∃ b : Byte, string[st.p]? = some b ∧ b.val = 0 := by
  rcases hget : string[st.p]? with _ | b
  · rw [loop_body_none _ _ _ _ hget] at h
    simp at h
  rw [loop_body_some _ _ _ _ b hget] at h
  by_cases h1 : b.val = 0 ∧ nt = true
  · exact ⟨h1.2, b, rfl, h1.1⟩
  rw [if_neg h1] at h
  split_ifs at h
  all_goals exact absurd h (multibyte_no_brk _ _ _ _ _ _ _)

/-- The rule for proving a property `P` of every result of the loop from an
invariant `Inv` of the states at the loop head. -/
theorem utf8chk_loop_rule (string : List Byte) (flags : Nat) (nt : Bool)
    (Inv : State → Prop) (P : Result → Prop)
    (hzero : ∀ st, Inv st → st.length = 0 → P (after_loop flags st))
    (hbrk : ∀ st, Inv st → st.length ≠ 0 → loop_body string flags nt st = .brk →
      P (after_loop flags st))
    (hret : ∀ st r, Inv st → st.length ≠ 0 → loop_body string flags nt st = .ret r → P r)
    (hnext : ∀ st st1, Inv st → st.length ≠ 0 → loop_body string flags nt st = .next st1 →
      Inv st1) :
    ∀ (fuel : Nat) (st : State), Inv st → ∀ r, utf8chk_loop string flags nt fuel st = .ok r →
      P r := by
  intro fuel
  induction fuel with
  | zero =>
    intro st hi r h
    unfold utf8chk_loop at h
    split_ifs at h with h0
    simp only [Except.ok.injEq] at h
    subst h
    exact hzero st hi h0
  | succ fuel ih =>
    intro st hi r h
    unfold utf8chk_loop at h
    by_cases h0 : st.length = 0
    · rw [if_pos h0] at h
      simp only [Except.ok.injEq] at h
      subst h
      exact hzero st hi h0
    · rw [if_neg h0] at h
      rcases hb : loop_body string flags nt st with r1 | _ | st1 | _
      · rw [hb] at h
        simp only [Except.ok.injEq] at h
        subst h
        exact hret st r1 hi h0 hb
      · rw [hb] at h
        simp only [Except.ok.injEq] at h
        subst h
        exact hbrk st hi h0 hb
      · rw [hb] at h
        exact ih st1 (hnext st st1 hi h0 hb) r h
      · rw [hb] at h
        simp at h

/-! ## The fuel of the loop driver -/

/-- Fuel at least the remaining length is never used up: every iteration that
does not return takes at least one byte off `length`. -/
theorem utf8chk_loop_fuel_suffices (string : List Byte) (flags : Nat) (nt : Bool) :
    ∀ (fuel : Nat) (st : State), st.length ≤ fuel →
      utf8chk_loop string flags nt fuel st ≠ .error .out_of_fuel := by
  intro fuel
  induction fuel with
  | zero =>
    intro st hf
    unfold utf8chk_loop
    rw [if_pos (by omega)]
    simp
  | succ fuel ih =>
    intro st hf
    unfold utf8chk_loop
    by_cases h0 : st.length = 0
    · rw [if_pos h0]; simp
    rw [if_neg h0]
    rcases hb : loop_body string flags nt st with r1 | _ | st1 | _
    · simp
    · simp
    · obtain ⟨n, n1, -, -, ⟨-, a2, -, -⟩, -, -⟩ := loop_body_next _ _ _ _ _ hb h0
      exact ih st1 (by omega)
    · simp

/-- A call of `utf8chk` never ends for lack of fuel. -/
theorem utf8chk_ne_out_of_fuel (string : List Byte) (length flags : Nat) :
    utf8chk string length flags ≠ .error .out_of_fuel :=
  utf8chk_loop_fuel_suffices string flags _ length _ (le_refl _)

/-! ## Standard UTF-8: the bytes of the buffer -/

theorem bytes_from_getElem? (string : List Byte) (p len i : Nat) :
    (bytes_from string p len)[i]? = if i < len then (string[p + i]?).map Fin.val else none := by
  unfold bytes_from
  rw [List.getElem?_map, List.getElem?_take]
  split_ifs
  · rw [List.getElem?_drop]
  · rfl

theorem bytes_from_length (string : List Byte) (p len : Nat) (h : p + len ≤ string.length) :
    (bytes_from string p len).length = len := by
  unfold bytes_from
  rw [List.length_map, List.length_take, List.length_drop]
  omega

theorem bytes_from_zero (string : List Byte) (p : Nat) : bytes_from string p 0 = [] := by
  simp [bytes_from]

theorem bytes_from_split (string : List Byte) (p n len : Nat) (h : n ≤ len) :
    bytes_from string p len = bytes_from string p n ++ bytes_from string (p + n) (len - n) := by
  unfold bytes_from
  have e : len = n + (len - n) := by omega
  conv_lhs => rw [e]
  rw [List.take_add, List.map_append, List.drop_drop]

theorem bytes_from_eq_of_getElem? (string : List Byte) (p : Nat) (l : List Nat)
    (h : ∀ i, i < l.length → (string[p + i]?).map Fin.val = l[i]?) :
    bytes_from string p l.length = l := by
  apply List.ext_getElem?
  intro i
  rw [bytes_from_getElem?]
  split_ifs with hi
  · exact h i hi
  · exact (List.getElem?_eq_none (by omega)).symm

theorem getElem?_of_bytes_from_prefix (string : List Byte) (p len : Nat) (l rest : List Nat)
    (hp : p + len ≤ string.length) (h : bytes_from string p len = l ++ rest) :
    l.length ≤ len ∧ ∀ i, i < l.length → (string[p + i]?).map Fin.val = l[i]? := by
  have hl : l.length ≤ len := by
    have := congrArg List.length h
    rw [bytes_from_length string p len hp, List.length_append] at this
    omega
  refine ⟨hl, fun i hi => ?_⟩
  have h1 := bytes_from_getElem? string p len i
  rw [if_pos (by omega), h, List.getElem?_append_left hi] at h1
  exact h1.symm

/-! ## Standard UTF-8: the checks under `UTF8CHK_UTF8` -/

theorem sequence_checks_utf8 (st : State) (n u u_min : Nat) :
    sequence_checks UTF8CHK_UTF8 st n u u_min =
      if u > UNICODE_MAX then .ret ⟨UTF8CHK_ERR_RANGE, st.p, n⟩
      else if u < u_min then .ret ⟨UTF8CHK_ERR_OVERLONG, st.p, n⟩
      else if 0xD800 ≤ u ∧ u ≤ 0xDFFF then .ret ⟨UTF8CHK_ERR_SURROGATE, st.p, n⟩
      else .next (no_output { st with expect_low_surrogate := false } n) := by
  have f2 : UTF8CHK_UTF8 &&& (UTF8CHK_BAN_OVERLONG ||| UTF8CHK_BAN_OVERLONG_EXCEPT_NULL) ≠ 0 := by
    decide
  have f3 : UTF8CHK_UTF8 &&& UTF8CHK_BAN_OVERLONG ≠ 0 := by decide
  have f4 : UTF8CHK_UTF8 &&& UTF8CHK_BAN_SURROGATES ≠ 0 := by decide
  have f5 : ¬ (UTF8CHK_UTF8 &&& UTF8CHK_BAN_NONCHARACTERS ≠ 0) := by decide
  rw [sequence_checks_eq]
  by_cases h1 : u > UNICODE_MAX
  · rw [if_pos h1, if_pos h1]
  rw [if_neg h1, if_neg h1]
  by_cases h2 : u < u_min
  · rw [if_pos ⟨⟨f2, h2⟩, Or.inl f3⟩, if_pos h2]
  rw [if_neg (fun h => h2 h.1.2), if_neg h2]
  by_cases h3 : 0xD800 ≤ u ∧ u ≤ 0xDFFF
  · rw [if_pos h3, if_pos h3, if_pos f4]
  rw [if_neg h3, if_neg h3]
  unfold noncharacter_check
  rw [if_neg f5]

theorem read_continuation_zero (string : List Byte) (nt : Bool) (st : State) (n i u : Nat) :
    read_continuation string nt st n 0 i u = .ok u := rfl

theorem read_continuation_ok_step (string : List Byte) (nt : Bool) (st : State)
    (n k i u v : Nat) (h : read_continuation string nt st n (k + 1) i u = .ok v) :
    ∃ b : Byte, string[st.p + i]? = some b ∧ 0x80 ≤ b.val ∧ b.val < 0xC0 ∧
      read_continuation string nt st n k (i + 1) (u * 64 + b.val % 64) = .ok v := by
  rcases hget : string[st.p + i]? with _ | b
  · rw [read_continuation_none _ _ _ _ _ _ _ hget] at h
    simp at h
  · rw [read_continuation_succ _ _ _ _ _ _ _ b hget] at h
    by_cases hc : b.val &&& 0xC0 ≠ 0x80
    · rw [if_pos hc] at h
      split_ifs at h
    · rw [if_neg hc, and_3F, shl6_or _ _ (Nat.mod_lt _ (by norm_num))] at h
      have hb := (and_C0_eq_80_iff b).mp (not_not.mp hc)
      exact ⟨b, rfl, hb.1, hb.2, h⟩

theorem read_continuation_step_of_cont (string : List Byte) (nt : Bool) (st : State)
    (n k i u : Nat) (b : Byte) (hget : string[st.p + i]? = some b)
    (h1 : 0x80 ≤ b.val) (h2 : b.val < 0xC0) :
    read_continuation string nt st n (k + 1) i u =
      read_continuation string nt st n k (i + 1) (u * 64 + b.val % 64) := by
  rw [read_continuation_succ _ _ _ _ _ _ _ b hget]
  have hc : ¬ (b.val &&& 0xC0 ≠ 0x80) := not_not.mpr ((and_C0_eq_80_iff b).mpr ⟨h1, h2⟩)
  rw [if_neg hc, and_3F, shl6_or _ _ (Nat.mod_lt _ (by norm_num))]

theorem multibyte_of_read_ok (string : List Byte) (flags : Nat) (nt : Bool) (st : State)
    (n u u_min v : Nat) (hn : n ≤ st.length)
    (hr : read_continuation string nt st n (n - 1) 1 u = .ok v) :
    multibyte string flags nt st n u u_min = sequence_checks flags st n v u_min := by
  rw [multibyte_eq _ _ _ _ _ _ _ hn, hr]

theorem state_expect_false (st : State) (he : st.expect_low_surrogate = false) :
    { st with expect_low_surrogate := false } = st := by
  cases st
  simp only at he
  subst he
  rfl

theorem getElem?_map_val_eq_some (string : List Byte) (j x : Nat)
    (h : (string[j]?).map Fin.val = some x) : ∃ b : Byte, string[j]? = some b ∧ b.val = x := by
  rcases hget : string[j]? with _ | b
  · rw [hget] at h; simp at h
  · rw [hget] at h
    exact ⟨b, rfl, by simpa using h⟩

/-- What passing `sequence_checks` under `UTF8CHK_UTF8` means. -/
theorem sequence_checks_utf8_next (st st1 : State) (n u u_min : Nat)
    (he : st.expect_low_surrogate = false)
    (h : sequence_checks UTF8CHK_UTF8 st n u u_min = .next st1) :
    u ≤ 0x10FFFF ∧ u_min ≤ u ∧ ¬ (0xD800 ≤ u ∧ u ≤ 0xDFFF) ∧ st1 = no_output st n := by
  rw [sequence_checks_utf8] at h
  by_cases h1 : u > UNICODE_MAX
  · rw [if_pos h1] at h; simp at h
  rw [if_neg h1] at h
  by_cases h2 : u < u_min
  · rw [if_pos h2] at h; simp at h
  rw [if_neg h2] at h
  by_cases h3 : 0xD800 ≤ u ∧ u ≤ 0xDFFF
  · rw [if_pos h3] at h; simp at h
  rw [if_neg h3, state_expect_false st he] at h
  simp only [Step.next.injEq] at h
  unfold UNICODE_MAX at h1
  exact ⟨by omega, by omega, h3, h.symm⟩

theorem sequence_checks_utf8_accept (st : State) (n u u_min : Nat)
    (he : st.expect_low_surrogate = false) (h1 : u ≤ 0x10FFFF) (h2 : u_min ≤ u)
    (h3 : ¬ (0xD800 ≤ u ∧ u ≤ 0xDFFF)) :
    sequence_checks UTF8CHK_UTF8 st n u u_min = .next (no_output st n) := by
  rw [sequence_checks_utf8, if_neg (by unfold UNICODE_MAX; omega), if_neg (by omega), if_neg h3,
    state_expect_false st he]

/-- Under `UTF8CHK_UTF8` in explicit-length mode, a completed iteration has
read the shortest-form encoding of a scalar value. -/
theorem loop_body_utf8_next (string : List Byte) (st st1 : State)
    (he : st.expect_low_surrogate = false) (hl : st.length ≠ 0)
    (h : loop_body string UTF8CHK_UTF8 false st = .next st1) :
    ∃ u, is_scalar_value u ∧ (utf8_encode u).length ≤ st.length ∧
      (∀ i, i < (utf8_encode u).length → (string[st.p + i]?).map Fin.val = (utf8_encode u)[i]?) ∧
      st1 = no_output st (utf8_encode u).length := by
  rcases hget : string[st.p]? with _ | b
  · rw [loop_body_none _ _ _ _ hget] at h
    simp at h
  rw [loop_body_some _ _ _ _ b hget] at h
  have hnt : ¬ (b.val = 0 ∧ false = true) := fun hh => Bool.noConfusion hh.2
  rw [if_neg hnt] at h
  by_cases h2 : b.val = 0 ∧ UTF8CHK_UTF8 &&& UTF8CHK_BAN_NULL_BYTE ≠ 0
  · rw [if_pos h2] at h; simp at h
  rw [if_neg h2] at h
  by_cases h3 : b.val < 0x80
  · rw [if_pos h3] at h
    simp only [Step.next.injEq] at h
    have henc : utf8_encode b.val = [b.val] := by
      unfold utf8_encode; rw [if_pos h3]
    refine ⟨b.val, Or.inl (by omega), ?_, ?_, ?_⟩
    · rw [henc]; show 1 ≤ st.length; omega
    · rw [henc]
      intro i hi
      have hi0 : i = 0 := by simpa using hi
      subst hi0
      rw [Nat.add_zero, hget]; rfl
    · rw [henc]; exact h.symm
  rw [if_neg h3] at h
  by_cases h4 : b.val < 0xC0
  · rw [if_pos h4] at h; simp at h
  rw [if_neg h4] at h
  by_cases h5 : b.val < 0xE0
  · -- two bytes
    rw [if_pos h5, and_1F] at h
    obtain ⟨hlen, v, hr, hc⟩ := multibyte_next _ _ _ _ _ _ _ _ h
    obtain ⟨b1, g1, l1, u1, hr1⟩ := read_continuation_ok_step _ _ _ _ 0 _ _ _ hr
    rw [read_continuation_zero] at hr1
    simp only [Except.ok.injEq] at hr1
    obtain ⟨c1, c2, c3, c4⟩ := sequence_checks_utf8_next _ _ _ _ _ he hc
    have henc : utf8_encode v = [b.val, b1.val] := by
      unfold utf8_encode
      rw [if_neg (by omega), if_pos (by omega)]
      congr 1
      · omega
      · congr 1; omega
    refine ⟨v, ?_, ?_, ?_, ?_⟩
    · unfold is_scalar_value; omega
    · rw [henc]; exact hlen
    · rw [henc]
      intro i hi
      have hi2 : i < 2 := by simpa using hi
      rcases i with _ | _ | i
      · rw [Nat.add_zero, hget]; rfl
      · rw [g1]; rfl
      · omega
    · rw [henc]; exact c4
  rw [if_neg h5] at h
  by_cases h6 : b.val < 0xF0
  · -- three bytes
    rw [if_pos h6, and_0F] at h
    obtain ⟨hlen, v, hr, hc⟩ := multibyte_next _ _ _ _ _ _ _ _ h
    obtain ⟨b1, g1, l1, u1, hr1⟩ := read_continuation_ok_step _ _ _ _ 1 _ _ _ hr
    obtain ⟨b2, g2, l2, u2, hr2⟩ := read_continuation_ok_step _ _ _ _ 0 _ _ _ hr1
    rw [read_continuation_zero] at hr2
    simp only [Except.ok.injEq] at hr2
    obtain ⟨c1, c2, c3, c4⟩ := sequence_checks_utf8_next _ _ _ _ _ he hc
    have henc : utf8_encode v = [b.val, b1.val, b2.val] := by
      unfold utf8_encode
      rw [if_neg (by omega), if_neg (by omega), if_pos (by omega)]
      congr 1
      · omega
      · congr 1
        · omega
        · congr 1; omega
    refine ⟨v, ?_, ?_, ?_, ?_⟩
    · unfold is_scalar_value; omega
    · rw [henc]; exact hlen
    · rw [henc]
      intro i hi
      have hi2 : i < 3 := by simpa using hi
      rcases i with _ | _ | _ | i
      · rw [Nat.add_zero, hget]; rfl
      · rw [g1]; rfl
      · rw [g2]; rfl
      · omega
    · rw [henc]; exact c4
  rw [if_neg h6] at h
  by_cases h7 : b.val < 0xF8
  · -- four bytes
    rw [if_pos h7, and_07] at h
    obtain ⟨hlen, v, hr, hc⟩ := multibyte_next _ _ _ _ _ _ _ _ h
    obtain ⟨b1, g1, l1, u1, hr1⟩ := read_continuation_ok_step _ _ _ _ 2 _ _ _ hr
    obtain ⟨b2, g2, l2, u2, hr2⟩ := read_continuation_ok_step _ _ _ _ 1 _ _ _ hr1
    obtain ⟨b3, g3, l3, u3, hr3⟩ := read_continuation_ok_step _ _ _ _ 0 _ _ _ hr2
    rw [read_continuation_zero] at hr3
    simp only [Except.ok.injEq] at hr3
    obtain ⟨c1, c2, c3, c4⟩ := sequence_checks_utf8_next _ _ _ _ _ he hc
    have henc : utf8_encode v = [b.val, b1.val, b2.val, b3.val] := by
      unfold utf8_encode
      rw [if_neg (by omega), if_neg (by omega), if_neg (by omega)]
      congr 1
      · omega
      · congr 1
        · omega
        · congr 1
          · omega
          · congr 1; omega
    refine ⟨v, ?_, ?_, ?_, ?_⟩
    · unfold is_scalar_value; omega
    · rw [henc]; exact hlen
    · rw [henc]
      intro i hi
      have hi2 : i < 4 := by simpa using hi
      rcases i with _ | _ | _ | _ | i
      · rw [Nat.add_zero, hget]; rfl
      · rw [g1]; rfl
      · rw [g2]; rfl
      · rw [g3]; rfl
      · omega
    · rw [henc]; exact c4
  rw [if_neg h7] at h
  simp at h

/-- Under `UTF8CHK_UTF8` in explicit-length mode, the loop body accepts the
shortest-form encoding of a scalar value that lies within the remaining
length. -/
theorem loop_body_utf8_accept (string : List Byte) (st : State) (u : Nat)
    (hu : is_scalar_value u) (he : st.expect_low_surrogate = false)
    (hlen : (utf8_encode u).length ≤ st.length)
    (hb : ∀ i, i < (utf8_encode u).length →
      (string[st.p + i]?).map Fin.val = (utf8_encode u)[i]?) :
    loop_body string UTF8CHK_UTF8 false st = .next (no_output st (utf8_encode u).length) := by
  have hnt : ∀ b : Byte, ¬ (b.val = 0 ∧ false = true) := fun _ hh => Bool.noConfusion hh.2
  have hnull : ∀ b : Byte, ¬ (b.val = 0 ∧ UTF8CHK_UTF8 &&& UTF8CHK_BAN_NULL_BYTE ≠ 0) :=
    fun _ hh => hh.2 (by decide)
  unfold is_scalar_value at hu
  by_cases r1 : u < 0x80
  · have henc : utf8_encode u = [u] := by
      unfold utf8_encode; rw [if_pos r1]
    rw [henc] at hb hlen ⊢
    obtain ⟨b0, g0, e0⟩ := getElem?_map_val_eq_some string _ u (hb 0 (by simp))
    rw [Nat.add_zero] at g0
    rw [loop_body_some _ _ _ _ b0 g0, if_neg (hnt b0), if_neg (hnull b0), if_pos (by omega)]
    rfl
  by_cases r2 : u < 0x800
  · have henc : utf8_encode u = [0xC0 + u / 64, 0x80 + u % 64] := by
      unfold utf8_encode; rw [if_neg r1, if_pos r2]
    rw [henc] at hb hlen ⊢
    obtain ⟨b0, g0, e0⟩ := getElem?_map_val_eq_some string _ (0xC0 + u / 64) (hb 0 (by simp))
    obtain ⟨b1, g1, e1⟩ := getElem?_map_val_eq_some string _ (0x80 + u % 64) (hb 1 (by simp))
    rw [Nat.add_zero] at g0
    rw [loop_body_some _ _ _ _ b0 g0, if_neg (hnt b0), if_neg (hnull b0), if_neg (by omega),
      if_neg (by omega), if_pos (by omega), and_1F]
    have hr : read_continuation string false st 2 (2 - 1) 1 (b0.val % 32) = .ok u := by
      show read_continuation string false st 2 (0 + 1) 1 (b0.val % 32) = .ok u
      rw [read_continuation_step_of_cont _ _ _ _ _ _ _ b1 g1 (by omega) (by omega),
        read_continuation_zero]
      congr 1
      omega
    have hlen1 : 2 ≤ st.length := hlen
    rw [multibyte_of_read_ok _ _ _ _ 2 _ _ u hlen1 hr]
    exact sequence_checks_utf8_accept _ _ _ _ he (by omega) (by omega) (by omega)
  by_cases r3 : u < 0x10000
  · have henc : utf8_encode u = [0xE0 + u / 4096, 0x80 + u / 64 % 64, 0x80 + u % 64] := by
      unfold utf8_encode; rw [if_neg r1, if_neg r2, if_pos r3]
    rw [henc] at hb hlen ⊢
    obtain ⟨b0, g0, e0⟩ := getElem?_map_val_eq_some string _ (0xE0 + u / 4096) (hb 0 (by simp))
    obtain ⟨b1, g1, e1⟩ :=
      getElem?_map_val_eq_some string _ (0x80 + u / 64 % 64) (hb 1 (by simp))
    obtain ⟨b2, g2, e2⟩ := getElem?_map_val_eq_some string _ (0x80 + u % 64) (hb 2 (by simp))
    rw [Nat.add_zero] at g0
    rw [loop_body_some _ _ _ _ b0 g0, if_neg (hnt b0), if_neg (hnull b0), if_neg (by omega),
      if_neg (by omega), if_neg (by omega), if_pos (by omega), and_0F]
    have hr : read_continuation string false st 3 (3 - 1) 1 (b0.val % 16) = .ok u := by
      show read_continuation string false st 3 (1 + 1) 1 (b0.val % 16) = .ok u
      rw [read_continuation_step_of_cont _ _ _ _ _ _ _ b1 g1 (by omega) (by omega),
        read_continuation_step_of_cont _ _ _ _ _ _ _ b2 g2 (by omega) (by omega),
        read_continuation_zero]
      congr 1
      omega
    have hlen1 : 3 ≤ st.length := hlen
    rw [multibyte_of_read_ok _ _ _ _ 3 _ _ u hlen1 hr]
    exact sequence_checks_utf8_accept _ _ _ _ he (by omega) (by omega) (by omega)
  · have henc : utf8_encode u =
        [0xF0 + u / 262144, 0x80 + u / 4096 % 64, 0x80 + u / 64 % 64, 0x80 + u % 64] := by
      unfold utf8_encode; rw [if_neg r1, if_neg r2, if_neg r3]
    rw [henc] at hb hlen ⊢
    obtain ⟨b0, g0, e0⟩ :=
      getElem?_map_val_eq_some string _ (0xF0 + u / 262144) (hb 0 (by simp))
    obtain ⟨b1, g1, e1⟩ :=
      getElem?_map_val_eq_some string _ (0x80 + u / 4096 % 64) (hb 1 (by simp))
    obtain ⟨b2, g2, e2⟩ :=
      getElem?_map_val_eq_some string _ (0x80 + u / 64 % 64) (hb 2 (by simp))
    obtain ⟨b3, g3, e3⟩ := getElem?_map_val_eq_some string _ (0x80 + u % 64) (hb 3 (by simp))
    rw [Nat.add_zero] at g0
    rw [loop_body_some _ _ _ _ b0 g0, if_neg (hnt b0), if_neg (hnull b0), if_neg (by omega),
      if_neg (by omega), if_neg (by omega), if_neg (by omega), if_pos (by omega), and_07]
    have hr : read_continuation string false st 4 (4 - 1) 1 (b0.val % 8) = .ok u := by
      show read_continuation string false st 4 (2 + 1) 1 (b0.val % 8) = .ok u
      rw [read_continuation_step_of_cont _ _ _ _ _ _ _ b1 g1 (by omega) (by omega),
        read_continuation_step_of_cont _ _ _ _ _ _ _ b2 g2 (by omega) (by omega),
        read_continuation_step_of_cont _ _ _ _ _ _ _ b3 g3 (by omega) (by omega),
        read_continuation_zero]
      congr 1
      omega
    have hlen1 : 4 ≤ st.length := hlen
    rw [multibyte_of_read_ok _ _ _ _ 4 _ _ u hlen1 hr]
    exact sequence_checks_utf8_accept _ _ _ _ he (by omega) (by omega) (by omega)

theorem utf8_encode_length_pos (u : Nat) : 0 < (utf8_encode u).length := by
  unfold utf8_encode
  split_ifs <;> simp

theorem after_loop_utf8 (st : State) : after_loop UTF8CHK_UTF8 st = ⟨UTF8CHK_OK, st.p, 0⟩ := by
  unfold after_loop
  rw [if_neg (fun hh => hh.1 (by decide))]

/-- The loop under `UTF8CHK_UTF8` in explicit-length mode returns
`UTF8CHK_OK` exactly when the remaining bytes are well-formed UTF-8. -/
theorem utf8chk_loop_utf8_iff (string : List Byte) :
    ∀ (fuel : Nat) (st : State), st.expect_low_surrogate = false →
      st.p + st.length ≤ string.length → st.length ≤ fuel →
      ((∃ r, utf8chk_loop string UTF8CHK_UTF8 false fuel st = .ok r ∧ r.err = UTF8CHK_OK) ↔
        well_formed_utf8 (bytes_from string st.p st.length)) := by
  intro fuel
  induction fuel with
  | zero =>
    intro st he hp hf
    have h0 : st.length = 0 := by omega
    unfold utf8chk_loop
    rw [if_pos h0, h0, bytes_from_zero, after_loop_utf8]
    exact ⟨fun _ => ⟨[], by simp, rfl⟩, fun _ => ⟨_, rfl, rfl⟩⟩
  | succ fuel ih =>
    intro st he hp hf
    unfold utf8chk_loop
    by_cases h0 : st.length = 0
    · rw [if_pos h0, h0, bytes_from_zero, after_loop_utf8]
      exact ⟨fun _ => ⟨[], by simp, rfl⟩, fun _ => ⟨_, rfl, rfl⟩⟩
    rw [if_neg h0]
    constructor
    · rintro ⟨r, hr, hok⟩
      rcases hb : loop_body string UTF8CHK_UTF8 false st with r1 | _ | st1 | _
      · rw [hb] at hr
        simp only [Except.ok.injEq] at hr
        subst hr
        exact absurd hok (loop_body_ret _ _ _ _ _ hb h0).1
      · exact absurd (loop_body_brk _ _ _ _ hb).1 (by decide)
      · rw [hb] at hr
        obtain ⟨u, hu, hlen, hbytes, hst⟩ := loop_body_utf8_next string st st1 he h0 hb
        subst hst
        have hwf := (ih (no_output st (utf8_encode u).length) he
          (by show st.p + _ + (st.length - _) ≤ _; omega)
          (by show st.length - _ ≤ fuel; have := utf8_encode_length_pos u; omega)).mp
          ⟨r, hr, hok⟩
        obtain ⟨us, hus, hrest⟩ := hwf
        refine ⟨u :: us, ?_, ?_⟩
        · intro x hx
          rcases List.mem_cons.mp hx with rfl | hx
          · exact hu
          · exact hus x hx
        · rw [bytes_from_split string st.p _ _ hlen,
            bytes_from_eq_of_getElem? string st.p _ hbytes]
          show _ = utf8_encode u ++ (us.map utf8_encode).flatten
          rw [← hrest]
          rfl
      · rw [hb] at hr
        simp at hr
    · rintro ⟨us, hus, hbs⟩
      rcases us with _ | ⟨u, us⟩
      · have := congrArg List.length hbs
        rw [bytes_from_length string _ _ hp] at this
        simp at this
        exact absurd this h0
      · have hbs1 : bytes_from string st.p st.length
            = utf8_encode u ++ (us.map utf8_encode).flatten := hbs
        obtain ⟨hlen, hbytes⟩ := getElem?_of_bytes_from_prefix string _ _ _ _ hp hbs1
        have hu := hus u (List.mem_cons_self _ _)
        rw [loop_body_utf8_accept string st u hu he hlen hbytes]
        apply (ih (no_output st (utf8_encode u).length) he
          (by show st.p + _ + (st.length - _) ≤ _; omega)
          (by show st.length - _ ≤ fuel; have := utf8_encode_length_pos u; omega)).mpr
        refine ⟨us, fun x hx => hus x (List.mem_cons_of_mem _ hx), ?_⟩
        rw [bytes_from_split string st.p _ _ hlen,
          bytes_from_eq_of_getElem? string st.p _ hbytes] at hbs1
        exact List.append_cancel_left hbs1

/-! ## Runs of the loop -/

theorem utf8chk_loop_fuel_indep (string : List Byte) (flags : Nat) (nt : Bool) :
    ∀ (f1 f2 : Nat) (st : State), st.length ≤ f1 → st.length ≤ f2 →
      utf8chk_loop string flags nt f1 st = utf8chk_loop string flags nt f2 st := by
  intro f1
  induction f1 with
  | zero =>
    intro f2 st h1 h2
    have h0 : st.length = 0 := by omega
    cases f2 with
    | zero => rfl
    | succ f2 =>
      unfold utf8chk_loop
      rw [if_pos h0, if_pos h0]
  | succ f1 ih =>
    intro f2 st h1 h2
    by_cases h0 : st.length = 0
    · cases f2 with
      | zero =>
        unfold utf8chk_loop
        rw [if_pos h0, if_pos h0]
      | succ f2 =>
        unfold utf8chk_loop
        rw [if_pos h0, if_pos h0]
    · cases f2 with
      | zero => omega
      | succ f2 =>
        unfold utf8chk_loop
        rw [if_neg h0, if_neg h0]
        rcases hb : loop_body string flags nt st with r1 | _ | st1 | _
        · rfl
        · rfl
        · obtain ⟨n, n1, -, -, ⟨-, a2, -, -⟩, -, -⟩ := loop_body_next _ _ _ _ _ hb h0
          exact ih f2 st1 (by omega) (by omega)
        · rfl

theorem utf8chk_loop_of_reaches (string : List Byte) (flags : Nat) (nt : Bool)
    (st0 st : State) (h : Reaches string flags nt st0 st) :
    ∀ f, st0.length ≤ f →
      utf8chk_loop string flags nt f st0 = utf8chk_loop string flags nt st.length st := by
  induction h with
  | refl st => intro f hf; exact utf8chk_loop_fuel_indep _ _ _ _ _ _ hf (le_refl _)
  | step st0 st1 st h0 hb _ ih =>
    intro f hf
    cases f with
    | zero => omega
    | succ f =>
      obtain ⟨n, n1, -, -, ⟨-, a2, -, -⟩, -, -⟩ := loop_body_next _ _ _ _ _ hb h0
      rw [← ih f (by omega)]
      conv_lhs => unfold utf8chk_loop
      rw [if_neg h0, hb]

/-- A return of the loop body in a state the scan reaches is the result of
`utf8chk`. -/
theorem utf8chk_of_scan_ret (string : List Byte) (length flags : Nat) (st : State) (r : Result)
    (hreach : scan_reaches string length flags st) (hl : st.length ≠ 0)
    (hb : loop_body string flags (decide (length = UTF8CHK_CSTRING)) st = .ret r) :
    utf8chk string length flags = .ok r := by
  unfold utf8chk
  rw [utf8chk_loop_of_reaches _ _ _ _ _ hreach length (le_refl _)]
  cases hlen : st.length with
  | zero => exact absurd hlen hl
  | succ k =>
    unfold utf8chk_loop
    rw [if_neg (by omega), hb]

theorem reaches_invariant (string : List Byte) (flags : Nat) (nt : Bool) (Inv : State → Prop)
    (hnext : ∀ st st1, Inv st → st.length ≠ 0 → loop_body string flags nt st = .next st1 →
      Inv st1)
    (st0 st : State) (h : Reaches string flags nt st0 st) : Inv st0 → Inv st := by
  induction h with
  | refl st => exact id
  | step st0 st1 st h0 hb _ ih => exact fun hi => ih (hnext st0 st1 hi h0 hb)

theorem surrogate_inv_next (string : List Byte) (flags : Nat) (nt : Bool) (st st1 : State)
    (hi : SurrogateInv string flags st) (hl : st.length ≠ 0)
    (hb : loop_body string flags nt st = .next st1) : SurrogateInv string flags st1 := by
  obtain ⟨h1, h2, h3⟩ := hi
  obtain ⟨n, n1, n4, nl, ⟨a1, a2, a3, a4⟩, -, hexp⟩ := loop_body_next _ _ _ _ _ hb hl
  refine ⟨by omega, fun h0 => by omega, fun he => ?_⟩
  rcases hexp he with ⟨e1, e2⟩ | ⟨e1, -, e3, -⟩
  · refine ⟨(h3 e1).1, ?_⟩
    rcases e2 with e2 | e2
    · left; omega
    · exact absurd e2 (h3 e1).1
  · refine ⟨e1, Or.inr ?_⟩
    have e : st1.p - st1.n_prev = st.p := by omega
    rw [e, a4]
    exact e3

theorem surrogate_inv_of_scan (string : List Byte) (length flags : Nat) (st : State)
    (hreach : scan_reaches string length flags st) : SurrogateInv string flags st :=
  reaches_invariant string flags _ (SurrogateInv string flags)
    (fun st st1 hi hl hb => surrogate_inv_next string flags _ st st1 hi hl hb) _ _ hreach
    ⟨le_refl _, fun _ => rfl, fun he => by simp at he⟩

/-! ## A decoded sequence at the cursor -/

theorem decode_seq_multibyte (string : List Byte) (p n u : Nat)
    (h : decode_seq string p = some (n, u)) (hu : 0x80 ≤ u) :
    ∃ (b : Byte) (u0 u_min : Nat), string[p]? = some b ∧ StartByte b.val n u0 u_min ∧
      read_continuation string false
        { p := p, length := 0, expect_low_surrogate := false, u_cache := 0, n := 0, n_prev := 0 }
        n (n - 1) 1 u0 = .ok u := by
  unfold decode_seq at h
  rcases hget : string[p]? with _ | b
  · rw [hget] at h; simp at h
  rw [hget] at h
  simp only at h
  by_cases h1 : b.val < 0x80
  · rw [if_pos h1] at h
    simp only [Option.some.injEq, Prod.mk.injEq] at h
    omega
  rw [if_neg h1] at h
  by_cases h2 : b.val < 0xC0
  · rw [if_pos h2] at h; simp at h
  rw [if_neg h2] at h
  by_cases h3 : b.val < 0xE0
  · rw [if_pos h3] at h
    split at h
    · rename_i v hv
      simp only [Option.some.injEq, Prod.mk.injEq] at h
      obtain ⟨rfl, rfl⟩ := h
      exact ⟨b, _, _, rfl, Or.inl ⟨rfl, by omega, h3, rfl, rfl⟩, hv⟩
    · simp at h
  rw [if_neg h3] at h
  by_cases h4 : b.val < 0xF0
  · rw [if_pos h4] at h
    split at h
    · rename_i v hv
      simp only [Option.some.injEq, Prod.mk.injEq] at h
      obtain ⟨rfl, rfl⟩ := h
      exact ⟨b, _, _, rfl, Or.inr (Or.inl ⟨rfl, by omega, h4, rfl, rfl⟩), hv⟩
    · simp at h
  rw [if_neg h4] at h
  by_cases h5 : b.val < 0xF8
  · rw [if_pos h5] at h
    split at h
    · rename_i v hv
      simp only [Option.some.injEq, Prod.mk.injEq] at h
      obtain ⟨rfl, rfl⟩ := h
      exact ⟨b, _, _, rfl, Or.inr (Or.inr ⟨rfl, by omega, h5, rfl, rfl⟩), hv⟩
    · simp at h
  rw [if_neg h5] at h
  simp at h

theorem loop_body_multibyte (string : List Byte) (flags : Nat) (nt : Bool) (st : State)
    (b : Byte) (n u0 u_min : Nat) (hget : string[st.p]? = some b)
    (hs : StartByte b.val n u0 u_min) :
    loop_body string flags nt st = multibyte string flags nt st n u0 u_min := by
  rw [loop_body_some _ _ _ _ b hget]
  rcases hs with ⟨rfl, h1, h2, rfl, rfl⟩ | ⟨rfl, h1, h2, rfl, rfl⟩ | ⟨rfl, h1, h2, rfl, rfl⟩
  · rw [if_neg (by omega), if_neg (by omega), if_neg (by omega), if_neg (by omega), if_pos h2]
  · rw [if_neg (by omega), if_neg (by omega), if_neg (by omega), if_neg (by omega),
      if_neg (by omega), if_pos h2]
  · rw [if_neg (by omega), if_neg (by omega), if_neg (by omega), if_neg (by omega),
      if_neg (by omega), if_neg (by omega), if_pos h2]

/-- At a complete multi-byte sequence within the remaining length, the loop
body comes to the checks with the decoded value. -/
theorem loop_body_of_decode_seq (string : List Byte) (flags : Nat) (nt : Bool) (st : State)
    (n u : Nat) (h : decode_seq string st.p = some (n, u)) (hu : 0x80 ≤ u)
    (hl : n ≤ st.length) :
    ∃ (b : Byte) (u0 u_min : Nat), string[st.p]? = some b ∧ StartByte b.val n u0 u_min ∧
      read_continuation string nt st n (n - 1) 1 u0 = .ok u ∧
      loop_body string flags nt st = sequence_checks flags st n u u_min := by
  obtain ⟨b, u0, u_min, hget, hs, hr⟩ := decode_seq_multibyte string st.p n u h hu
  have hr1 : read_continuation string nt st n (n - 1) 1 u0 = .ok u :=
    read_continuation_ok_indep string false nt
      { p := st.p, length := 0, expect_low_surrogate := false, u_cache := 0, n := 0, n_prev := 0 }
      st n n rfl (n - 1) 1 u0 u hr
  refine ⟨b, u0, u_min, hget, hs, hr1, ?_⟩
  rw [loop_body_multibyte _ _ _ _ b n u0 u_min hget hs,
    multibyte_of_read_ok _ _ _ _ _ _ _ u hl hr1]

theorem start_byte_two_lt (string : List Byte) (nt : Bool) (st : State) (b : Byte)
    (u0 u_min u : Nat) (hs : StartByte b.val 2 u0 u_min)
    (hr : read_continuation string nt st 2 (2 - 1) 1 u0 = .ok u) : u < 0x800 := by
  have hlt := read_continuation_one_lt _ _ _ _ _ _ _ hr
  rcases hs with ⟨-, -, -, rfl, -⟩ | ⟨h, -⟩ | ⟨h, -⟩
  · rw [and_1F] at hlt
    omega
  · omega
  · omega

theorem decode_seq_length_pos (string : List Byte) (p n u : Nat)
    (h : decode_seq string p = some (n, u)) : 1 ≤ n := by
  by_cases hu : 0x80 ≤ u
  · obtain ⟨b, u0, u_min, -, hs, -⟩ := decode_seq_multibyte string p n u h hu
    rcases hs with ⟨rfl, -⟩ | ⟨rfl, -⟩ | ⟨rfl, -⟩ <;> omega
  · unfold decode_seq at h
    rcases hget : string[p]? with _ | b
    · rw [hget] at h; simp at h
    rw [hget] at h
    simp only at h
    split_ifs at h
    · simp only [Option.some.injEq, Prod.mk.injEq] at h
      omega
    all_goals
      split at h
      · simp only [Option.some.injEq, Prod.mk.injEq] at h
        omega
      · exact absurd h (by simp)

/-! ## The scan at a start byte -/

theorem start_byte_of_signalled_length (c n : Nat) (h : signalled_length c = n) (h2 : 2 ≤ n) :
    ∃ u0 u_min, StartByte c n u0 u_min := by
  unfold signalled_length at h
  unfold StartByte
  split_ifs at h with h1 h3 h4 h5 h6
  · omega
  · omega
  · exact ⟨_, _, Or.inl ⟨h.symm, by omega, h4, rfl, rfl⟩⟩
  · exact ⟨_, _, Or.inr (Or.inl ⟨h.symm, by omega, h5, rfl, rfl⟩)⟩
  · exact ⟨_, _, Or.inr (Or.inr ⟨h.symm, by omega, h6, rfl, rfl⟩)⟩
  · omega

theorem signalled_length_of_start_byte (c n u0 u_min : Nat) (h : StartByte c n u0 u_min) :
    signalled_length c = n ∧ 2 ≤ n ∧ n ≤ 4 := by
  unfold signalled_length
  rcases h with ⟨rfl, h1, h2, -⟩ | ⟨rfl, h1, h2, -⟩ | ⟨rfl, h1, h2, -⟩
  · rw [if_neg (by omega), if_neg (by omega), if_pos h2]; omega
  · rw [if_neg (by omega), if_neg (by omega), if_neg (by omega), if_pos h2]; omega
  · rw [if_neg (by omega), if_neg (by omega), if_neg (by omega), if_neg (by omega), if_pos h2]
    omega

/-- Where the scan is, `p + length` is the length passed in, and the last
sequence lies before the cursor. -/
theorem scan_reaches_position (string : List Byte) (length flags : Nat) (st : State)
    (hreach : scan_reaches string length flags st) :
    st.p + st.length = length ∧ st.n_prev ≤ st.p ∧ st.n = st.n_prev :=
  reaches_invariant string flags _
    (fun st => st.p + st.length = length ∧ st.n_prev ≤ st.p ∧ st.n = st.n_prev)
    (fun st st1 ⟨h1, h2, h3⟩ hl hb => by
      obtain ⟨n, n1, n4, nl, ⟨a1, a2, a3, a4⟩, -, -⟩ := loop_body_next _ _ _ _ _ hb hl
      exact ⟨by omega, by omega, by omega⟩)
    _ _ hreach ⟨by simp, le_refl _, rfl⟩

/-- The loop body at a start byte of a sequence longer than the remaining
length. -/
theorem loop_body_truncated (string : List Byte) (flags : Nat) (nt : Bool) (st : State)
    (b : Byte) (n u0 u_min : Nat) (hget : string[st.p]? = some b)
    (hs : StartByte b.val n u0 u_min) (hr : st.length < n) :
    loop_body string flags nt st =
      if st.expect_low_surrogate = true then
        .ret ⟨UTF8CHK_RETURN_ERROR_N UTF8CHK_ERR_SURROGATE_TRUNC UTF8CHK_ERR_SURROGATE_TRUNC2
          UTF8CHK_ERR_SURROGATE_TRUNC3 (n - st.length % 2 ^ 32), (st.p : Int) - st.n_prev,
          st.n_prev⟩
      else
        .ret ⟨UTF8CHK_RETURN_ERROR_N UTF8CHK_ERR_TRUNC UTF8CHK_ERR_TRUNC2 UTF8CHK_ERR_TRUNC3
          (n - st.length % 2 ^ 32), st.p, st.length⟩ := by
  rw [loop_body_multibyte _ _ _ _ b n u0 u_min hget hs]
  unfold multibyte
  rw [if_pos hr]

theorem return_error_n_one (e1 e2 e3 : utf8chk_error) :
    UTF8CHK_RETURN_ERROR_N e1 e2 e3 1 = e1 := rfl

theorem return_error_n_two (e1 e2 e3 : utf8chk_error) :
    UTF8CHK_RETURN_ERROR_N e1 e2 e3 2 = e2 := rfl

theorem return_error_n_three (e1 e2 e3 : utf8chk_error) :
    UTF8CHK_RETURN_ERROR_N e1 e2 e3 3 = e3 := rfl

theorem multibyte_of_read_error (string : List Byte) (flags : Nat) (nt : Bool) (st : State)
    (n u u_min : Nat) (s : Step) (hn : n ≤ st.length)
    (hr : read_continuation string nt st n (n - 1) 1 u = .error s) :
    multibyte string flags nt st n u u_min = s := by
  rw [multibyte_eq _ _ _ _ _ _ _ hn, hr]

/-- The continuation loop stops at the first byte that is not `10xxxxxx`. -/
theorem read_continuation_stop (string : List Byte) (nt : Bool) (st : State) (n i : Nat)
    (c : Byte) (hc : string[st.p + i]? = some c) (hnc : c.val &&& 0xC0 ≠ 0x80) :
    ∀ (k i0 u : Nat), i0 ≤ i → i < i0 + k →
      (∀ j, i0 ≤ j → j < i → ∃ x : Byte, string[st.p + j]? = some x ∧ x.val &&& 0xC0 = 0x80) →
      read_continuation string nt st n k i0 u =
        if c.val = 0 ∧ nt = true then
          if st.expect_low_surrogate = true then
            .error (.ret ⟨UTF8CHK_RETURN_ERROR_N UTF8CHK_ERR_SURROGATE_TRUNC
              UTF8CHK_ERR_SURROGATE_TRUNC2 UTF8CHK_ERR_SURROGATE_TRUNC3 (n - i),
              (st.p : Int) - st.n_prev, st.n_prev⟩)
          else
            .error (.ret ⟨UTF8CHK_RETURN_ERROR_N UTF8CHK_ERR_TRUNC UTF8CHK_ERR_TRUNC2
              UTF8CHK_ERR_TRUNC3 (n - i), st.p, i⟩)
        else
          .error (.ret ⟨UTF8CHK_RETURN_ERROR_N UTF8CHK_ERR_EXPECTED_CONT
            UTF8CHK_ERR_EXPECTED_CONT2 UTF8CHK_ERR_EXPECTED_CONT3 (n - i), st.p, i⟩) := by
  intro k
  induction k with
  | zero => intro i0 u h1 h2 _; omega
  | succ k ih =>
    intro i0 u h1 h2 hcont
    by_cases hi : i0 = i
    · subst hi
      rw [read_continuation_succ _ _ _ _ _ _ _ c hc, if_pos hnc]
    · obtain ⟨x, hx, hxc⟩ := hcont i0 (le_refl _) (by omega)
      rw [read_continuation_succ _ _ _ _ _ _ _ x hx, if_neg (not_not.mpr hxc)]
      exact ih (i0 + 1) _ (by omega) (by omega) (fun j hj1 hj2 => hcont j (by omega) hj2)

/-- The loop body at a start byte whose sequence fits in the remaining length
and whose byte at index `i` is the first that is not `10xxxxxx`. -/
theorem loop_body_broken_sequence (string : List Byte) (flags : Nat) (nt : Bool) (st : State)
    (b c : Byte) (n i : Nat) (hget : string[st.p]? = some b)
    (hn : signalled_length b.val = n) (h2 : 2 ≤ n) (hfit : n ≤ st.length)
    (hi1 : 1 ≤ i) (hin : i < n)
    (hcont : ∀ j, 1 ≤ j → j < i →
      ∃ x : Byte, string[st.p + j]? = some x ∧ 0x80 ≤ x.val ∧ x.val < 0xC0)
    (hc : string[st.p + i]? = some c) (hnc : ¬ (0x80 ≤ c.val ∧ c.val < 0xC0)) :
    loop_body string flags nt st =
      if c.val = 0 ∧ nt = true then
        if st.expect_low_surrogate = true then
          .ret ⟨UTF8CHK_RETURN_ERROR_N UTF8CHK_ERR_SURROGATE_TRUNC
            UTF8CHK_ERR_SURROGATE_TRUNC2 UTF8CHK_ERR_SURROGATE_TRUNC3 (n - i),
            (st.p : Int) - st.n_prev, st.n_prev⟩
        else
          .ret ⟨UTF8CHK_RETURN_ERROR_N UTF8CHK_ERR_TRUNC UTF8CHK_ERR_TRUNC2
            UTF8CHK_ERR_TRUNC3 (n - i), st.p, i⟩
      else
        .ret ⟨UTF8CHK_RETURN_ERROR_N UTF8CHK_ERR_EXPECTED_CONT
          UTF8CHK_ERR_EXPECTED_CONT2 UTF8CHK_ERR_EXPECTED_CONT3 (n - i), st.p, i⟩ := by
  obtain ⟨u0, u_min, hs⟩ := start_byte_of_signalled_length b.val n hn h2
  have hstop := read_continuation_stop string nt st n i c hc
    (fun h => hnc ((and_C0_eq_80_iff c).mp h)) (n - 1) 1 u0 hi1 (by omega)
    (fun j hj1 hj2 => by
      obtain ⟨x, hx, hx1, hx2⟩ := hcont j hj1 hj2
      exact ⟨x, hx, (and_C0_eq_80_iff x).mpr ⟨hx1, hx2⟩⟩)
  rw [loop_body_multibyte _ _ _ _ b n u0 u_min hget hs]
  by_cases hz : c.val = 0 ∧ nt = true
  · rw [if_pos hz] at hstop ⊢
    by_cases he : st.expect_low_surrogate = true
    · rw [if_pos he] at hstop ⊢
      exact multibyte_of_read_error _ _ _ _ _ _ _ _ hfit hstop
    · rw [if_neg he] at hstop ⊢
      exact multibyte_of_read_error _ _ _ _ _ _ _ _ hfit hstop
  · rw [if_neg hz] at hstop ⊢
    exact multibyte_of_read_error _ _ _ _ _ _ _ _ hfit hstop

theorem lor_eq_zero (a b : Nat) (h : a ||| b = 0) : a = 0 ∧ b = 0 := by
  constructor
  · apply Nat.eq_of_testBit_eq
    intro i
    have h1 := congrArg (fun x => Nat.testBit x i) h
    simp only [Nat.testBit_or, Nat.zero_testBit, Bool.or_eq_false_iff] at h1
    rw [Nat.zero_testBit]; exact h1.1
  · apply Nat.eq_of_testBit_eq
    intro i
    have h1 := congrArg (fun x => Nat.testBit x i) h
    simp only [Nat.testBit_or, Nat.zero_testBit, Bool.or_eq_false_iff] at h1
    rw [Nat.zero_testBit]; exact h1.2

theorem overlong_flags_of_except_null (flags : Nat)
    (h : flags &&& UTF8CHK_BAN_OVERLONG_EXCEPT_NULL ≠ 0) :
    flags &&& (UTF8CHK_BAN_OVERLONG ||| UTF8CHK_BAN_OVERLONG_EXCEPT_NULL) ≠ 0 := by
  intro h0
  rw [Nat.and_or_distrib_left] at h0
  exact h (lor_eq_zero _ _ h0).2

theorem overlong_flags_of_ban_overlong (flags : Nat)
    (h : flags &&& UTF8CHK_BAN_OVERLONG ≠ 0) :
    flags &&& (UTF8CHK_BAN_OVERLONG ||| UTF8CHK_BAN_OVERLONG_EXCEPT_NULL) ≠ 0 := by
  intro h0
  rw [Nat.and_or_distrib_left] at h0
  exact h (lor_eq_zero _ _ h0).1

/-- A sequence of two bytes or more that `decode_seq` reads starts with a
start byte of that length, followed by its continuation bytes. -/
theorem decode_seq_start_byte (string : List Byte) (p n u : Nat)
    (h : decode_seq string p = some (n, u)) (hn : 2 ≤ n) :
    ∃ (b : Byte) (u0 u_min : Nat), string[p]? = some b ∧ StartByte b.val n u0 u_min ∧
      read_continuation string false
        { p := p, length := 0, expect_low_surrogate := false, u_cache := 0, n := 0, n_prev := 0 }
        n (n - 1) 1 u0 = .ok u := by
  unfold decode_seq at h
  rcases hget : string[p]? with _ | b
  · rw [hget] at h; simp at h
  rw [hget] at h
  simp only at h
  by_cases h1 : b.val < 0x80
  · rw [if_pos h1] at h
    simp only [Option.some.injEq, Prod.mk.injEq] at h
    omega
  rw [if_neg h1] at h
  by_cases h2 : b.val < 0xC0
  · rw [if_pos h2] at h; simp at h
  rw [if_neg h2] at h
  by_cases h3 : b.val < 0xE0
  · rw [if_pos h3] at h
    split at h
    · rename_i v hv
      simp only [Option.some.injEq, Prod.mk.injEq] at h
      obtain ⟨rfl, rfl⟩ := h
      exact ⟨b, _, _, rfl, Or.inl ⟨rfl, by omega, h3, rfl, rfl⟩, hv⟩
    · simp at h
  rw [if_neg h3] at h
  by_cases h4 : b.val < 0xF0
  · rw [if_pos h4] at h
    split at h
    · rename_i v hv
      simp only [Option.some.injEq, Prod.mk.injEq] at h
      obtain ⟨rfl, rfl⟩ := h
      exact ⟨b, _, _, rfl, Or.inr (Or.inl ⟨rfl, by omega, h4, rfl, rfl⟩), hv⟩
    · simp at h
  rw [if_neg h4] at h
  by_cases h5 : b.val < 0xF8
  · rw [if_pos h5] at h
    split at h
    · rename_i v hv
      simp only [Option.some.injEq, Prod.mk.injEq] at h
      obtain ⟨rfl, rfl⟩ := h
      exact ⟨b, _, _, rfl, Or.inr (Or.inr ⟨rfl, by omega, h5, rfl, rfl⟩), hv⟩
    · simp at h
  rw [if_neg h5] at h
  simp at h

/-- At a complete sequence of two bytes or more within the remaining length,
the loop body comes to the checks with the decoded value. -/
theorem loop_body_of_decode_seq_multi (string : List Byte) (flags : Nat) (nt : Bool)
    (st : State) (n u : Nat) (h : decode_seq string st.p = some (n, u)) (hn : 2 ≤ n)
    (hl : n ≤ st.length) :
    ∃ (b : Byte) (u0 u_min : Nat), string[st.p]? = some b ∧ StartByte b.val n u0 u_min ∧
      read_continuation string nt st n (n - 1) 1 u0 = .ok u ∧
      loop_body string flags nt st = sequence_checks flags st n u u_min := by
  obtain ⟨b, u0, u_min, hget, hs, hr⟩ := decode_seq_start_byte string st.p n u h hn
  have hr1 : read_continuation string nt st n (n - 1) 1 u0 = .ok u :=
    read_continuation_ok_indep string false nt
      { p := st.p, length := 0, expect_low_surrogate := false, u_cache := 0, n := 0, n_prev := 0 }
      st n n rfl (n - 1) 1 u0 u hr
  refine ⟨b, u0, u_min, hget, hs, hr1, ?_⟩
  rw [loop_body_multibyte _ _ _ _ b n u0 u_min hget hs,
    multibyte_of_read_ok _ _ _ _ _ _ _ u hl hr1]

/-! ## The kinds of error a step returns -/

theorem return_error_n_is_trunc (sel : Nat) :
    is_trunc (UTF8CHK_RETURN_ERROR_N UTF8CHK_ERR_TRUNC UTF8CHK_ERR_TRUNC2 UTF8CHK_ERR_TRUNC3
      sel) = true := by
  unfold UTF8CHK_RETURN_ERROR_N; split <;> rfl

theorem return_error_n_is_expected_cont (sel : Nat) :
    is_expected_cont (UTF8CHK_RETURN_ERROR_N UTF8CHK_ERR_EXPECTED_CONT
      UTF8CHK_ERR_EXPECTED_CONT2 UTF8CHK_ERR_EXPECTED_CONT3 sel) = true := by
  unfold UTF8CHK_RETURN_ERROR_N; split <;> rfl

/-- The errors of the continuation loop: a truncation kind at the terminator
in sentinel mode, an expected-continuation kind otherwise. -/
theorem read_continuation_ret_kind (string : List Byte) (nt : Bool) (st : State) (n : Nat) :
    ∀ (k i u : Nat) (r : Result), read_continuation string nt st n k i u = .error (.ret r) →
      (is_trunc r.err = true ∧ nt = true ∧ st.expect_low_surrogate = false) ∨
      is_expected_cont r.err = true ∨
      (is_surrogate_trunc r.err = true ∧ nt = true ∧ st.expect_low_surrogate = true) := by
  intro k
  induction k with
  | zero => intro i u r h; simp [read_continuation] at h
  | succ k ih =>
    intro i u r h
    rcases hget : string[st.p + i]? with _ | b
    · rw [read_continuation_none _ _ _ _ _ _ _ hget] at h
      simp at h
    · rw [read_continuation_succ _ _ _ _ _ _ _ b hget] at h
      by_cases hc : b.val &&& 0xC0 ≠ 0x80
      · rw [if_pos hc] at h
        by_cases hz : b.val = 0 ∧ nt = true
        · rw [if_pos hz] at h
          by_cases he : st.expect_low_surrogate = true
          · rw [if_pos he] at h
            simp only [Except.error.injEq, Step.ret.injEq] at h
            subst h
            exact Or.inr (Or.inr ⟨return_error_n_surrogate_trunc _, hz.2, he⟩)
          · rw [if_neg he] at h
            simp only [Except.error.injEq, Step.ret.injEq] at h
            subst h
            exact Or.inl ⟨return_error_n_is_trunc _, hz.2, by simpa using he⟩
        · rw [if_neg hz] at h
          simp only [Except.error.injEq, Step.ret.injEq] at h
          subst h
          exact Or.inr (Or.inl (return_error_n_is_expected_cont _))
      · rw [if_neg hc] at h
        exact ih (i + 1) _ r h

/-- The errors of the checks on a decoded sequence, each with the flags and
the state it needs. -/
theorem sequence_checks_ret_kind (flags : Nat) (st : State) (n u u_min : Nat) (r : Result)
    (h : sequence_checks flags st n u u_min = .ret r) :
    r.err = UTF8CHK_ERR_RANGE ∨
    (r.err = UTF8CHK_ERR_OVERLONG ∧
      flags &&& (UTF8CHK_BAN_OVERLONG ||| UTF8CHK_BAN_OVERLONG_EXCEPT_NULL) ≠ 0) ∨
    (r.err = UTF8CHK_ERR_SURROGATE ∧ flags &&& UTF8CHK_BAN_SURROGATES ≠ 0) ∨
    (r.err = UTF8CHK_ERR_SURROGATE_LOW ∧ flags &&& UTF8CHK_BAN_SURROGATES = 0 ∧
      flags &&& UTF8CHK_CHECK_SURROGATES ≠ 0 ∧ st.expect_low_surrogate = false) ∨
    (r.err = UTF8CHK_ERR_SURROGATE_HIGH ∧ flags &&& UTF8CHK_BAN_SURROGATES = 0 ∧
      flags &&& UTF8CHK_CHECK_SURROGATES ≠ 0 ∧ st.expect_low_surrogate = true) ∨
    (r.err = UTF8CHK_ERR_NONCHARACTER ∧ flags &&& UTF8CHK_BAN_NONCHARACTERS ≠ 0) := by
  have hnc : ∀ st1 u1, noncharacter_check flags st1 n u1 = .ret r →
      r.err = UTF8CHK_ERR_NONCHARACTER ∧ flags &&& UTF8CHK_BAN_NONCHARACTERS ≠ 0 := by
    intro st1 u1 h1
    refine ⟨(noncharacter_check_ret _ _ _ _ _ h1).1, ?_⟩
    intro h0
    unfold noncharacter_check at h1
    rw [if_neg (not_not.mpr h0)] at h1
    simp at h1
  rw [sequence_checks_eq] at h
  by_cases h1 : u > UNICODE_MAX
  · rw [if_pos h1] at h
    simp only [Step.ret.injEq] at h
    subst h
    exact Or.inl rfl
  rw [if_neg h1] at h
  by_cases h2 : (flags &&& (UTF8CHK_BAN_OVERLONG ||| UTF8CHK_BAN_OVERLONG_EXCEPT_NULL) ≠ 0 ∧ u < u_min)
      ∧ (flags &&& UTF8CHK_BAN_OVERLONG ≠ 0 ∨ u ≠ 0 ∨ st.length ≠ 2)
  · rw [if_pos h2] at h
    simp only [Step.ret.injEq] at h
    subst h
    exact Or.inr (Or.inl ⟨rfl, h2.1.1⟩)
  rw [if_neg h2] at h
  by_cases h3 : 0xD800 ≤ u ∧ u ≤ 0xDFFF
  · rw [if_pos h3] at h
    by_cases h4 : flags &&& UTF8CHK_BAN_SURROGATES ≠ 0
    · rw [if_pos h4] at h
      simp only [Step.ret.injEq] at h
      subst h
      exact Or.inr (Or.inr (Or.inl ⟨rfl, h4⟩))
    rw [if_neg h4] at h
    by_cases h5 : flags &&& UTF8CHK_CHECK_SURROGATES ≠ 0
    · rw [if_pos h5] at h
      by_cases h6 : u &&& 0x400 ≠ 0 ∧ st.expect_low_surrogate = false
      · rw [if_pos h6] at h
        simp only [Step.ret.injEq] at h
        subst h
        exact Or.inr (Or.inr (Or.inr (Or.inl ⟨rfl, not_not.mp h4, h5, h6.2⟩)))
      rw [if_neg h6] at h
      by_cases h7 : u &&& 0x400 = 0 ∧ st.expect_low_surrogate = true
      · rw [if_pos h7] at h
        simp only [Step.ret.injEq] at h
        subst h
        exact Or.inr (Or.inr (Or.inr (Or.inr (Or.inl ⟨rfl, not_not.mp h4, h5, h7.2⟩))))
      rw [if_neg h7] at h
      by_cases h8 : u &&& 0x400 = 0
      · rw [if_pos h8] at h
        simp at h
      · rw [if_neg h8] at h
        exact Or.inr (Or.inr (Or.inr (Or.inr (Or.inr (hnc _ _ h)))))
    · rw [if_neg h5] at h
      exact Or.inr (Or.inr (Or.inr (Or.inr (Or.inr (hnc _ _ h)))))
  · rw [if_neg h3] at h
    exact Or.inr (Or.inr (Or.inr (Or.inr (Or.inr (hnc _ _ h)))))

/-- The errors of a multi-byte sequence. -/
theorem multibyte_ret_kind (string : List Byte) (flags : Nat) (nt : Bool) (st : State)
    (n u u_min : Nat) (r : Result) (h : multibyte string flags nt st n u u_min = .ret r) :
    (is_trunc r.err = true ∧ st.expect_low_surrogate = false) ∨
    is_expected_cont r.err = true ∨
    (is_surrogate_trunc r.err = true ∧ st.expect_low_surrogate = true) ∨
    ∃ v, sequence_checks flags st n v u_min = .ret r := by
  by_cases hlt : st.length < n
  · unfold multibyte at h
    rw [if_pos hlt] at h
    by_cases he : st.expect_low_surrogate = true
    · rw [if_pos he] at h
      simp only [Step.ret.injEq] at h
      subst h
      exact Or.inr (Or.inr (Or.inl ⟨return_error_n_surrogate_trunc _, he⟩))
    · rw [if_neg he] at h
      simp only [Step.ret.injEq] at h
      subst h
      exact Or.inl ⟨return_error_n_is_trunc _, by simpa using he⟩
  · rw [multibyte_eq _ _ _ _ _ _ _ (by omega)] at h
    rcases hr : read_continuation string nt st n (n - 1) 1 u with s | v
    · rw [hr] at h
      simp only at h
      subst h
      rcases read_continuation_ret_kind string nt st n (n - 1) 1 u r hr with
        ⟨k1, -, k2⟩ | k | ⟨k1, -, k2⟩
      · exact Or.inl ⟨k1, k2⟩
      · exact Or.inr (Or.inl k)
      · exact Or.inr (Or.inr (Or.inl ⟨k1, k2⟩))
    · rw [hr] at h
      exact Or.inr (Or.inr (Or.inr ⟨v, h⟩))

/-- The errors of the loop body: `UTF8CHK_ERR_NULL_BYTE` only in
explicit-length mode under `UTF8CHK_BAN_NULL_BYTE`, the errors at a start
byte, and those of a multi-byte sequence. -/
theorem loop_body_ret_kind (string : List Byte) (flags : Nat) (nt : Bool) (st : State)
    (r : Result) (h : loop_body string flags nt st = .ret r) :
    (r.err = UTF8CHK_ERR_NULL_BYTE ∧ nt = false ∧ flags &&& UTF8CHK_BAN_NULL_BYTE ≠ 0) ∨
    r.err = UTF8CHK_ERR_UNEXPECTED_CONT ∨ r.err = UTF8CHK_ERR_INVALID_START_BYTE ∨
    (is_trunc r.err = true ∧ st.expect_low_surrogate = false) ∨
    is_expected_cont r.err = true ∨
    (is_surrogate_trunc r.err = true ∧ st.expect_low_surrogate = true) ∨
    ∃ n v u_min, sequence_checks flags st n v u_min = .ret r := by
  have multi : ∀ n u u_min, multibyte string flags nt st n u u_min = .ret r →
      (r.err = UTF8CHK_ERR_NULL_BYTE ∧ nt = false ∧ flags &&& UTF8CHK_BAN_NULL_BYTE ≠ 0) ∨
      r.err = UTF8CHK_ERR_UNEXPECTED_CONT ∨ r.err = UTF8CHK_ERR_INVALID_START_BYTE ∨
      (is_trunc r.err = true ∧ st.expect_low_surrogate = false) ∨
      is_expected_cont r.err = true ∨
      (is_surrogate_trunc r.err = true ∧ st.expect_low_surrogate = true) ∨
      ∃ n v u_min, sequence_checks flags st n v u_min = .ret r := by
    intro n u u_min hm
    rcases multibyte_ret_kind _ _ _ _ _ _ _ _ hm with k | k | k | ⟨v, k⟩
    · exact Or.inr (Or.inr (Or.inr (Or.inl k)))
    · exact Or.inr (Or.inr (Or.inr (Or.inr (Or.inl k))))
    · exact Or.inr (Or.inr (Or.inr (Or.inr (Or.inr (Or.inl k)))))
    · exact Or.inr (Or.inr (Or.inr (Or.inr (Or.inr (Or.inr ⟨n, v, u_min, k⟩)))))
  rcases hget : string[st.p]? with _ | b
  · rw [loop_body_none _ _ _ _ hget] at h
    simp at h
  rw [loop_body_some _ _ _ _ b hget] at h
  by_cases h1 : b.val = 0 ∧ nt = true
  · rw [if_pos h1] at h; simp at h
  rw [if_neg h1] at h
  by_cases h2 : b.val = 0 ∧ flags &&& UTF8CHK_BAN_NULL_BYTE ≠ 0
  · rw [if_pos h2] at h
    simp only [Step.ret.injEq] at h
    subst h
    refine Or.inl ⟨rfl, ?_, h2.2⟩
    cases nt
    · rfl
    · exact absurd ⟨h2.1, rfl⟩ h1
  rw [if_neg h2] at h
  by_cases h3 : b.val < 0x80
  · rw [if_pos h3] at h; simp at h
  rw [if_neg h3] at h
  by_cases h4 : b.val < 0xC0
  · rw [if_pos h4] at h
    simp only [Step.ret.injEq] at h
    subst h
    exact Or.inr (Or.inl rfl)
  rw [if_neg h4] at h
  by_cases h5 : b.val < 0xE0
  · rw [if_pos h5] at h
    exact multi _ _ _ h
  rw [if_neg h5] at h
  by_cases h6 : b.val < 0xF0
  · rw [if_pos h6] at h
    exact multi _ _ _ h
  rw [if_neg h6] at h
  by_cases h7 : b.val < 0xF8
  · rw [if_pos h7] at h
    exact multi _ _ _ h
  rw [if_neg h7] at h
  simp only [Step.ret.injEq] at h
  subst h
  exact Or.inr (Or.inr (Or.inl rfl))

/-- A completed iteration is a 1-byte sequence, or a multi-byte sequence that
passed the checks. -/
theorem loop_body_next_cases (string : List Byte) (flags : Nat) (nt : Bool) (st st1 : State)
    (h : loop_body string flags nt st = .next st1) :
    (∃ b : Byte, string[st.p]? = some b ∧ b.val < 0x80 ∧ ¬ (b.val = 0 ∧ nt = true) ∧
      ¬ (b.val = 0 ∧ flags &&& UTF8CHK_BAN_NULL_BYTE ≠ 0) ∧ st1 = no_output st 1) ∨
    (∃ (b : Byte) (n u0 u_min v : Nat), string[st.p]? = some b ∧ StartByte b.val n u0 u_min ∧
      n ≤ st.length ∧ read_continuation string nt st n (n - 1) 1 u0 = .ok v ∧
      sequence_checks flags st n v u_min = .next st1) := by
  have multi : ∀ (b : Byte) (n u0 u_min : Nat), string[st.p]? = some b →
      StartByte b.val n u0 u_min → multibyte string flags nt st n u0 u_min = .next st1 →
      ∃ (b : Byte) (n u0 u_min v : Nat), string[st.p]? = some b ∧ StartByte b.val n u0 u_min ∧
        n ≤ st.length ∧ read_continuation string nt st n (n - 1) 1 u0 = .ok v ∧
        sequence_checks flags st n v u_min = .next st1 := by
    intro b n u0 u_min hget hs hm
    obtain ⟨hlen, v, hr, hc⟩ := multibyte_next _ _ _ _ _ _ _ _ hm
    exact ⟨b, n, u0, u_min, v, hget, hs, hlen, hr, hc⟩
  by_cases hnone : string[st.p]? = none
  · rw [loop_body_none _ _ _ _ hnone] at h
    simp at h
  obtain ⟨b, hget⟩ := Option.ne_none_iff_exists'.mp hnone
  rw [loop_body_some _ _ _ _ b hget] at h
  by_cases h1 : b.val = 0 ∧ nt = true
  · rw [if_pos h1] at h; simp at h
  rw [if_neg h1] at h
  by_cases h2 : b.val = 0 ∧ flags &&& UTF8CHK_BAN_NULL_BYTE ≠ 0
  · rw [if_pos h2] at h; simp at h
  rw [if_neg h2] at h
  by_cases h3 : b.val < 0x80
  · rw [if_pos h3] at h
    simp only [Step.next.injEq] at h
    exact Or.inl ⟨b, hget, h3, h1, h2, h.symm⟩
  rw [if_neg h3] at h
  by_cases h4 : b.val < 0xC0
  · rw [if_pos h4] at h; simp at h
  rw [if_neg h4] at h
  by_cases h5 : b.val < 0xE0
  · rw [if_pos h5] at h
    exact Or.inr (multi b _ _ _ hget (Or.inl ⟨rfl, by omega, h5, rfl, rfl⟩) h)
  rw [if_neg h5] at h
  by_cases h6 : b.val < 0xF0
  · rw [if_pos h6] at h
    exact Or.inr (multi b _ _ _ hget (Or.inr (Or.inl ⟨rfl, by omega, h6, rfl, rfl⟩)) h)
  rw [if_neg h6] at h
  by_cases h7 : b.val < 0xF8
  · rw [if_pos h7] at h
    exact Or.inr (multi b _ _ _ hget (Or.inr (Or.inr ⟨rfl, by omega, h7, rfl, rfl⟩)) h)
  rw [if_neg h7] at h
  simp at h


/-! ## Runs under two flag sets -/

theorem or_and_of_and_eq_zero (f a m : Nat) (h : a &&& m = 0) : (f ||| a) &&& m = f &&& m := by
  rw [Nat.and_distrib_right, h, Nat.or_zero]

theorem sequence_checks_congr (F G : Nat) (st : State) (n u u_min : Nat)
    (h5 : F &&& (UTF8CHK_BAN_OVERLONG ||| UTF8CHK_BAN_OVERLONG_EXCEPT_NULL)
      = G &&& (UTF8CHK_BAN_OVERLONG ||| UTF8CHK_BAN_OVERLONG_EXCEPT_NULL))
    (h1 : F &&& UTF8CHK_BAN_OVERLONG = G &&& UTF8CHK_BAN_OVERLONG)
    (h2 : F &&& UTF8CHK_BAN_SURROGATES = G &&& UTF8CHK_BAN_SURROGATES)
    (h8 : F &&& UTF8CHK_CHECK_SURROGATES = G &&& UTF8CHK_CHECK_SURROGATES ∨
      G &&& UTF8CHK_BAN_SURROGATES ≠ 0)
    (h16 : F &&& UTF8CHK_BAN_NONCHARACTERS = G &&& UTF8CHK_BAN_NONCHARACTERS) :
    sequence_checks F st n u u_min = sequence_checks G st n u u_min := by
  rw [sequence_checks_eq, sequence_checks_eq]
  unfold noncharacter_check
  rw [h5, h1, h2, h16]
  rcases h8 with h8 | hb
  · rw [h8]
  · simp only [if_pos hb]

theorem multibyte_congr (string : List Byte) (F G : Nat) (nt : Bool) (st : State)
    (n u u_min : Nat)
    (hseq : ∀ v, sequence_checks F st n v u_min = sequence_checks G st n v u_min) :
    multibyte string F nt st n u u_min = multibyte string G nt st n u u_min := by
  unfold multibyte
  simp only [hseq]

/-- The loop body is the same under two flag sets that agree on the null-byte
ban (or in sentinel mode) and give the same checks. -/
theorem loop_body_congr (string : List Byte) (F G : Nat) (nt : Bool) (st : State)
    (hnull : nt = true ∨ F &&& UTF8CHK_BAN_NULL_BYTE = G &&& UTF8CHK_BAN_NULL_BYTE)
    (hseq : ∀ n v u_min, sequence_checks F st n v u_min = sequence_checks G st n v u_min) :
    loop_body string F nt st = loop_body string G nt st := by
  have hm : ∀ n u u_min, multibyte string F nt st n u u_min
      = multibyte string G nt st n u u_min :=
    fun n u u_min => multibyte_congr _ _ _ _ _ _ _ _ (fun v => hseq n v u_min)
  by_cases hnone : string[st.p]? = none
  · rw [loop_body_none _ _ _ _ hnone, loop_body_none _ _ _ _ hnone]
  obtain ⟨b, hget⟩ := Option.ne_none_iff_exists'.mp hnone
  rw [loop_body_some _ _ _ _ b hget, loop_body_some _ _ _ _ b hget, hm, hm, hm]
  rcases hnull with hnt | h32
  · by_cases hb0 : b.val = 0
    · rw [if_pos ⟨hb0, hnt⟩, if_pos ⟨hb0, hnt⟩]
    · have n1 : ¬ (b.val = 0 ∧ nt = true) := fun h => hb0 h.1
      have n2 : ¬ (b.val = 0 ∧ F &&& UTF8CHK_BAN_NULL_BYTE ≠ 0) := fun h => hb0 h.1
      have n3 : ¬ (b.val = 0 ∧ G &&& UTF8CHK_BAN_NULL_BYTE ≠ 0) := fun h => hb0 h.1
      rw [if_neg n1, if_neg n2, if_neg n1, if_neg n3]
  · rw [h32]

/-- Two flag sets that give the same loop body and the same code after the
loop, in the states of an invariant, give the same run. -/
theorem utf8chk_loop_congr (string : List Byte) (F G : Nat) (nt : Bool) (Inv : State → Prop)
    (hbody : ∀ st, Inv st → st.length ≠ 0 →
      loop_body string F nt st = loop_body string G nt st)
    (hafter : ∀ st, Inv st → after_loop F st = after_loop G st)
    (hnext : ∀ st st1, Inv st → st.length ≠ 0 → loop_body string F nt st = .next st1 →
      Inv st1) :
    ∀ (fuel : Nat) (st : State), Inv st →
      utf8chk_loop string F nt fuel st = utf8chk_loop string G nt fuel st := by
  intro fuel
  induction fuel with
  | zero =>
    intro st hi
    unfold utf8chk_loop
    rw [hafter st hi]
  | succ fuel ih =>
    intro st hi
    unfold utf8chk_loop
    by_cases h0 : st.length = 0
    · rw [if_pos h0, if_pos h0, hafter st hi]
    rw [if_neg h0, if_neg h0, ← hbody st hi h0]
    rcases hb : loop_body string F nt st with r1 | _ | st1 | _
    · rfl
    · simp only
      rw [hafter st hi]
    · exact ih st1 (hnext st st1 hi h0 hb)
    · rfl

/-! ## Sentinel mode: the run stays before the terminator -/

theorem read_continuation_ne_fault_sentinel (string : List Byte) (st : State) (n z : Nat)
    (hz : string[z]? = some (0 : Byte)) :
    ∀ (k i u : Nat), st.p + i ≤ z →
      read_continuation string true st n k i u ≠ .error .fault := by
  intro k
  induction k with
  | zero => intro i u _; simp [read_continuation]
  | succ k ih =>
    intro i u hi
    have hzl := (List.getElem?_eq_some.mp hz).1
    have hlt : st.p + i < string.length := by omega
    obtain ⟨b, hget⟩ : ∃ b : Byte, string[st.p + i]? = some b :=
      ⟨_, List.getElem?_eq_getElem hlt⟩
    rw [read_continuation_succ _ _ _ _ _ _ _ b hget]
    by_cases hc : b.val &&& 0xC0 ≠ 0x80
    · rw [if_pos hc]
      split_ifs <;> simp
    · rw [if_neg hc]
      apply ih
      by_contra hgt
      have he : st.p + i = z := by omega
      rw [he, hz] at hget
      simp only [Option.some.injEq] at hget
      rw [← hget] at hc
      exact hc (by decide)

theorem loop_body_ne_fault_sentinel (string : List Byte) (flags : Nat) (st : State) (z : Nat)
    (hz : string[z]? = some (0 : Byte)) (hp : st.p ≤ z) :
    loop_body string flags true st ≠ .fault := by
  have hzl := (List.getElem?_eq_some.mp hz).1
  have hlt : st.p < string.length := by omega
  obtain ⟨b, hget⟩ : ∃ b : Byte, string[st.p]? = some b := ⟨_, List.getElem?_eq_getElem hlt⟩
  have multi : ∀ n u u_min, 0xC0 ≤ b.val →
      multibyte string flags true st n u u_min ≠ .fault := by
    intro n u u_min hb
    have hne : st.p ≠ z := by
      intro he
      rw [he, hz] at hget
      simp only [Option.some.injEq] at hget
      rw [← hget] at hb
      exact absurd hb (by decide)
    unfold multibyte
    split_ifs
    · simp
    · simp
    · rcases hr : read_continuation string true st n (n - 1) 1 u with s | v
      · simp only
        intro hs
        subst hs
        exact read_continuation_ne_fault_sentinel string st n z hz (n - 1) 1 u (by omega) hr
      · simp only
        exact (sequence_checks_no_brk _ _ _ _ _).2
  rw [loop_body_some _ _ _ _ b hget]
  split_ifs
  · simp
  · simp
  · simp
  · simp
  · exact multi _ _ _ (by omega)
  · exact multi _ _ _ (by omega)
  · exact multi _ _ _ (by omega)
  · simp

theorem utf8chk_loop_ne_out_of_bounds (string : List Byte) (flags : Nat) (nt : Bool)
    (Inv : State → Prop)
    (hnf : ∀ st, Inv st → st.length ≠ 0 → loop_body string flags nt st ≠ .fault)
    (hnext : ∀ st st1, Inv st → st.length ≠ 0 → loop_body string flags nt st = .next st1 →
      Inv st1) :
    ∀ (fuel : Nat) (st : State), Inv st →
      utf8chk_loop string flags nt fuel st ≠ .error .out_of_bounds := by
  intro fuel
  induction fuel with
  | zero =>
    intro st _
    unfold utf8chk_loop
    split_ifs <;> simp
  | succ fuel ih =>
    intro st hi
    unfold utf8chk_loop
    by_cases h0 : st.length = 0
    · rw [if_pos h0]; simp
    rw [if_neg h0]
    rcases hb : loop_body string flags nt st with r1 | _ | st1 | _
    · simp
    · simp
    · exact ih st1 (hnext st st1 hi h0 hb)
    · exact absurd hb (hnf st hi h0)

/-- In sentinel mode `utf8chk` returns a result on every buffer that holds a
zero byte: the scan does not go past the first one. -/
theorem utf8chk_sentinel_returns (string : List Byte) (flags : Nat)
    (hz : ∃ z : Nat, string[z]? = some (0 : Byte)) :
    ∃ r, utf8chk string UTF8CHK_CSTRING flags = .ok r := by
  obtain ⟨z, hz⟩ := hz
  have hnob : utf8chk string UTF8CHK_CSTRING flags ≠ .error .out_of_bounds := by
    unfold utf8chk
    rw [decide_eq_true (rfl : UTF8CHK_CSTRING = UTF8CHK_CSTRING)]
    apply utf8chk_loop_ne_out_of_bounds string flags true (fun st => st.p ≤ z)
    · intro st hi _
      exact loop_body_ne_fault_sentinel string flags st z hz hi
    · intro st st1 hi hl hb
      obtain ⟨n, n1, n4, nl, ⟨a1, a2, a3, a4⟩, hbytes, -⟩ := loop_body_next _ _ _ _ _ hb hl
      show st1.p ≤ z
      by_contra hgt
      obtain ⟨b, hb1, hb2⟩ := hbytes (z - st.p) (by omega)
      have he : st.p + (z - st.p) = z := by omega
      rw [he, hz] at hb1
      simp only [Option.some.injEq] at hb1
      rw [← hb1] at hb2
      exact hb2 rfl rfl
    · show 0 ≤ z
      omega
  have hnof := utf8chk_ne_out_of_fuel string UTF8CHK_CSTRING flags
  rcases hres : utf8chk string UTF8CHK_CSTRING flags with e | r
  · cases e
    · exact absurd hres hnob
    · exact absurd hres hnof
  · exact ⟨r, rfl⟩

theorem after_loop_err (flags : Nat) (st : State) :
    (after_loop flags st).err = UTF8CHK_OK ∨
    ((after_loop flags st).err = UTF8CHK_ERR_SURROGATE_TRUNC ∧
      flags &&& UTF8CHK_CHECK_SURROGATES ≠ 0 ∧ st.expect_low_surrogate = true) := by
  unfold after_loop
  split_ifs with h
  · exact Or.inr ⟨rfl, h.1, h.2⟩
  · exact Or.inl rfl

/-- In sentinel mode `UTF8CHK_ERR_NULL_BYTE` is not returned. -/
theorem utf8chk_sentinel_ne_null_byte (string : List Byte) (flags : Nat) (r : Result)
    (h : utf8chk string UTF8CHK_CSTRING flags = .ok r) : r.err ≠ UTF8CHK_ERR_NULL_BYTE := by
  unfold utf8chk at h
  rw [decide_eq_true (rfl : UTF8CHK_CSTRING = UTF8CHK_CSTRING)] at h
  have hafter : ∀ st, (after_loop flags st).err ≠ UTF8CHK_ERR_NULL_BYTE := by
    intro st
    rcases after_loop_err flags st with k | ⟨k, -⟩ <;> rw [k] <;> decide
  refine utf8chk_loop_rule string flags true (fun _ => True)
    (fun r => r.err ≠ UTF8CHK_ERR_NULL_BYTE) (fun st _ _ => hafter st)
    (fun st _ _ _ => hafter st) ?_ (fun _ _ _ _ _ => trivial) _ _ trivial r h
  intro st r1 _ _ hb
  rcases loop_body_ret_kind _ _ _ _ _ hb with ⟨-, k, -⟩ | k | k | ⟨k, -⟩ | k | ⟨k, -⟩ |
    ⟨n, v, u_min, k⟩
  · exact absurd k (by decide)
  · rw [k]; decide
  · rw [k]; decide
  · intro h0; rw [h0] at k; exact absurd k (by decide)
  · intro h0; rw [h0] at k; exact absurd k (by decide)
  · intro h0; rw [h0] at k; exact absurd k (by decide)
  · rcases sequence_checks_ret_kind _ _ _ _ _ _ k with k | ⟨k, -⟩ | ⟨k, -⟩ | ⟨k, -⟩ | ⟨k, -⟩ |
      ⟨k, -⟩ <;> rw [k] <;> decide

/-! ## Surrogates under `UTF8CHK_BAN_SURROGATES` -/

/-- Under `UTF8CHK_BAN_SURROGATES` the flag `expect_low_surrogate` stays
clear. -/
theorem expect_low_clear_next (string : List Byte) (flags : Nat) (nt : Bool) (st st1 : State)
    (hban : flags &&& UTF8CHK_BAN_SURROGATES ≠ 0) (he : st.expect_low_surrogate = false)
    (hl : st.length ≠ 0) (hb : loop_body string flags nt st = .next st1) :
    st1.expect_low_surrogate = false := by
  obtain ⟨n, -, -, -, -, -, hexp⟩ := loop_body_next _ _ _ _ _ hb hl
  by_contra h1
  rcases hexp (by simpa using h1) with ⟨e1, -⟩ | ⟨-, e2, -⟩
  · rw [he] at e1; exact absurd e1 (by decide)
  · exact hban e2

theorem after_loop_expect_clear (flags : Nat) (st : State)
    (he : st.expect_low_surrogate = false) : after_loop flags st = ⟨UTF8CHK_OK, st.p, 0⟩ := by
  unfold after_loop
  rw [if_neg (fun h => by rw [he] at h; exact absurd h.2 (by decide))]

/-- Under `UTF8CHK_BAN_SURROGATES` no result is `UTF8CHK_ERR_SURROGATE_LOW`,
`UTF8CHK_ERR_SURROGATE_HIGH` or one of `UTF8CHK_ERR_SURROGATE_TRUNC*`. -/
theorem utf8chk_ban_surrogates_kinds (string : List Byte) (length flags : Nat) (r : Result)
    (hban : flags &&& UTF8CHK_BAN_SURROGATES ≠ 0)
    (h : utf8chk string length flags = .ok r) :
    r.err ≠ UTF8CHK_ERR_SURROGATE_LOW ∧ r.err ≠ UTF8CHK_ERR_SURROGATE_HIGH ∧
      is_surrogate_trunc r.err = false := by
  have hafter : ∀ st : State, st.expect_low_surrogate = false →
      (after_loop flags st).err ≠ UTF8CHK_ERR_SURROGATE_LOW ∧
      (after_loop flags st).err ≠ UTF8CHK_ERR_SURROGATE_HIGH ∧
      is_surrogate_trunc (after_loop flags st).err = false := by
    intro st he
    rw [after_loop_expect_clear flags st he]
    exact ⟨by simp, by simp, rfl⟩
  refine utf8chk_loop_rule string flags _ (fun st => st.expect_low_surrogate = false)
    (fun r => r.err ≠ UTF8CHK_ERR_SURROGATE_LOW ∧ r.err ≠ UTF8CHK_ERR_SURROGATE_HIGH ∧
      is_surrogate_trunc r.err = false)
    (fun st he _ => hafter st he) (fun st he _ _ => hafter st he) ?_
    (fun st st1 he hl hb => expect_low_clear_next string flags _ st st1 hban he hl hb)
    _ _ rfl r h
  intro st r1 he _ hb
  have fam : ∀ e : utf8chk_error, (is_trunc e = true ∨ is_expected_cont e = true) →
      e ≠ UTF8CHK_ERR_SURROGATE_LOW ∧ e ≠ UTF8CHK_ERR_SURROGATE_HIGH ∧
        is_surrogate_trunc e = false := by
    intro e
    cases e <;> decide
  rcases loop_body_ret_kind _ _ _ _ _ hb with ⟨k, -⟩ | k | k | ⟨k, -⟩ | k | ⟨-, k⟩ |
    ⟨n, v, u_min, k⟩
  · rw [k]; exact ⟨by decide, by decide, rfl⟩
  · rw [k]; exact ⟨by decide, by decide, rfl⟩
  · rw [k]; exact ⟨by decide, by decide, rfl⟩
  · exact fam _ (Or.inl k)
  · exact fam _ (Or.inr k)
  · rw [he] at k; exact absurd k (by decide)
  · rcases sequence_checks_ret_kind _ _ _ _ _ _ k with k | ⟨k, -⟩ | ⟨k, -⟩ | ⟨-, k, -⟩ |
      ⟨-, k, -⟩ | ⟨k, -⟩
    · rw [k]; exact ⟨by decide, by decide, rfl⟩
    · rw [k]; exact ⟨by decide, by decide, rfl⟩
    · rw [k]; exact ⟨by decide, by decide, rfl⟩
    · exact absurd k hban
    · exact absurd k hban
    · rw [k]; exact ⟨by decide, by decide, rfl⟩

/-! ## Explicit-length mode: the run stays within the length -/

theorem read_continuation_ne_fault_within (string : List Byte) (nt : Bool) (st : State)
    (n : Nat) :
    ∀ (k i u : Nat), st.p + i + k ≤ string.length →
      read_continuation string nt st n k i u ≠ .error .fault := by
  intro k
  induction k with
  | zero => intro i u _; simp [read_continuation]
  | succ k ih =>
    intro i u hi
    have hlt : st.p + i < string.length := by omega
    obtain ⟨b, hget⟩ : ∃ b : Byte, string[st.p + i]? = some b :=
      ⟨_, List.getElem?_eq_getElem hlt⟩
    rw [read_continuation_succ _ _ _ _ _ _ _ b hget]
    by_cases hc : b.val &&& 0xC0 ≠ 0x80
    · rw [if_pos hc]
      split_ifs <;> simp
    · rw [if_neg hc]
      exact ih (i + 1) _ (by omega)

theorem loop_body_ne_fault_within (string : List Byte) (flags : Nat) (nt : Bool) (st : State)
    (hl : st.length ≠ 0) (hp : st.p + st.length ≤ string.length) :
    loop_body string flags nt st ≠ .fault := by
  have hlt : st.p < string.length := by omega
  obtain ⟨b, hget⟩ : ∃ b : Byte, string[st.p]? = some b := ⟨_, List.getElem?_eq_getElem hlt⟩
  have multi : ∀ n u u_min, 1 ≤ n → multibyte string flags nt st n u u_min ≠ .fault := by
    intro n u u_min hn
    unfold multibyte
    split_ifs with h1 h2
    · simp
    · simp
    · rcases hr : read_continuation string nt st n (n - 1) 1 u with s | v
      · simp only
        intro hs
        subst hs
        exact read_continuation_ne_fault_within string nt st n (n - 1) 1 u (by omega) hr
      · simp only
        exact (sequence_checks_no_brk _ _ _ _ _).2
  rw [loop_body_some _ _ _ _ b hget]
  split_ifs
  · simp
  · simp
  · simp
  · simp
  · exact multi _ _ _ (by omega)
  · exact multi _ _ _ (by omega)
  · exact multi _ _ _ (by omega)
  · simp

/-- With a length within the buffer `utf8chk` returns a result. -/
theorem utf8chk_explicit_returns (string : List Byte) (N flags : Nat)
    (hN : N ≤ string.length) : ∃ r, utf8chk string N flags = .ok r := by
  have hnob : utf8chk string N flags ≠ .error .out_of_bounds := by
    unfold utf8chk
    apply utf8chk_loop_ne_out_of_bounds string flags _
      (fun st => st.p + st.length ≤ string.length)
    · intro st hi hl
      exact loop_body_ne_fault_within string flags _ st hl hi
    · intro st st1 hi hl hb
      obtain ⟨n, n1, n4, nl, ⟨a1, a2, a3, a4⟩, -, -⟩ := loop_body_next _ _ _ _ _ hb hl
      show st1.p + st1.length ≤ string.length
      omega
    · show 0 + N ≤ string.length
      omega
  have hnof := utf8chk_ne_out_of_fuel string N flags
  rcases hres : utf8chk string N flags with e | r
  · cases e
    · exact absurd hres hnob
    · exact absurd hres hnof
  · exact ⟨r, rfl⟩

/-! ## Zero bytes under `UTF8CHK_BAN_NULL_BYTE` -/

/-- In sentinel mode or under `UTF8CHK_BAN_NULL_BYTE`, the bytes of a
completed iteration are not zero. -/
theorem loop_body_next_nonzero (string : List Byte) (flags : Nat) (nt : Bool) (st st1 : State)
    (hf : nt = true ∨ flags &&& UTF8CHK_BAN_NULL_BYTE ≠ 0)
    (h : loop_body string flags nt st = .next st1) :
    ∃ n, st1.p = st.p + n ∧
      ∀ j, j < n → ∃ b : Byte, string[st.p + j]? = some b ∧ b.val ≠ 0 := by
  rcases loop_body_next_cases _ _ _ _ _ h with ⟨b, hget, -, n1, n2, rfl⟩ |
    ⟨b, n, u0, u_min, v, hget, hs, hlen, hr, hc⟩
  · refine ⟨1, rfl, fun j hj => ?_⟩
    have hj0 : j = 0 := by omega
    subst hj0
    refine ⟨b, hget, fun h0 => ?_⟩
    rcases hf with hf | hf
    · exact n1 ⟨h0, hf⟩
    · exact n2 ⟨h0, hf⟩
  · obtain ⟨⟨a1, -⟩, -⟩ := sequence_checks_next _ _ _ _ _ _ hc
    have hb0 : 0xC0 ≤ b.val := by
      rcases hs with ⟨-, h1, -⟩ | ⟨-, h1, -⟩ | ⟨-, h1, -⟩ <;> omega
    refine ⟨n, a1, fun j hj => ?_⟩
    by_cases hj0 : j = 0
    · subst hj0
      exact ⟨b, hget, by omega⟩
    · obtain ⟨b1, hb1, hb2⟩ :=
        read_continuation_ok_bytes string nt st n (n - 1) 1 u0 v hr j (by omega) (by omega)
      have := (and_C0_eq_80_iff b1).mp hb2
      exact ⟨b1, hb1, by omega⟩

/-! ## The noncharacter check across a surrogate pair -/

theorem and_FFFE (u : Nat) : u &&& 0xFFFE = 2 * (u / 2 % 32768) := by
  have h1 : (u &&& 0xFFFE) / 2 = u / 2 % 32768 := by
    rw [Nat.and_div_two]
    exact Nat.and_pow_two_sub_one_eq_mod (u / 2) 15
  have h2 : (u &&& 0xFFFE) % 2 = 0 := by
    have h3 : (u &&& 0xFFFE).testBit 0 = false := by
      rw [Nat.testBit_and]
      have : (0xFFFE : Nat).testBit 0 = false := by decide
      rw [this, Bool.and_false]
    rw [Nat.testBit_zero] at h3
    have : ¬ ((u &&& 0xFFFE) % 2 = 1) := of_decide_eq_false h3
    omega
  omega

theorem and_FFFE_eq_iff (u : Nat) : u &&& 0xFFFE = 0xFFFE ↔ 0xFFFE ≤ u % 0x10000 := by
  rw [and_FFFE]
  omega

theorem cache_or_low (H L : Nat) (h1 : 0xD800 ≤ H) (h2 : H ≤ 0xDBFF) (l1 : 0xDC00 ≤ L)
    (l2 : L ≤ 0xDFFF) :
    (0x10000 + ((H &&& 0x3FF) <<< 10)) ||| (L &&& 0x3FF) = utf16_decode H L := by
  unfold utf16_decode
  rw [and_3FF, and_3FF, Nat.shiftLeft_eq, Nat.shiftLeft_eq]
  have h := @Nat.mul_add_lt_is_or 10 (L % 1024) (Nat.mod_lt _ (by norm_num)) (64 + H % 1024)
  have e : 0x10000 + H % 1024 * 2 ^ 10 = 2 ^ 10 * (64 + H % 1024) := by
    norm_num
    omega
  rw [e, ← h]
  norm_num
  omega

theorem reaches_snoc (string : List Byte) (flags : Nat) (nt : Bool) (st0 st st1 : State)
    (h : Reaches string flags nt st0 st) (hl : st.length ≠ 0)
    (hb : loop_body string flags nt st = .next st1) : Reaches string flags nt st0 st1 := by
  induction h with
  | refl st => exact Reaches.step _ _ _ hl hb (Reaches.refl _)
  | step a b c h0 hab _ ih => exact Reaches.step _ _ _ h0 hab (ih hl hb)

/-- A result that is not one of `UTF8CHK_ERR_SURROGATE_TRUNC*` has its offset
at or after every cursor position the scan has reached. -/
theorem utf8chk_result_after (string : List Byte) (length flags : Nat) (st : State) (r : Result)
    (hreach : scan_reaches string length flags st)
    (h : utf8chk string length flags = .ok r) (hk : is_surrogate_trunc r.err = false) :
    (st.p : Int) ≤ r.error_at := by
  unfold utf8chk at h
  rw [utf8chk_loop_of_reaches _ _ _ _ _ hreach length (le_refl _)] at h
  have hafter : ∀ st1 : State, st.p ≤ st1.p →
      is_surrogate_trunc (after_loop flags st1).err = false →
      (st.p : Int) ≤ (after_loop flags st1).error_at := by
    intro st1 hp hk1
    unfold after_loop at hk1 ⊢
    split_ifs at hk1 ⊢ with hc
    · exact absurd hk1 (by simp [is_surrogate_trunc])
    · show (st.p : Int) ≤ (st1.p : Int)
      omega
  refine utf8chk_loop_rule string flags _ (fun st1 => st.p ≤ st1.p)
    (fun r => is_surrogate_trunc r.err = false → (st.p : Int) ≤ r.error_at)
    (fun st1 hp _ => hafter st1 hp) (fun st1 hp _ _ => hafter st1 hp) ?_ ?_ _ _ (le_refl _) r h
    hk
  · intro st1 r1 hp hl hb hk1
    obtain ⟨-, ⟨-, e, -⟩ | ⟨k, -⟩⟩ := loop_body_ret _ _ _ _ _ hb hl
    · rw [e]; omega
    · rw [hk1] at k; exact absurd k (by decide)
  · intro st1 st2 hp hl hb
    obtain ⟨n, -, -, -, ⟨a1, -⟩, -⟩ := loop_body_next _ _ _ _ _ hb hl
    show st.p ≤ st2.p
    omega

/-! ## The loop body at a sequence given by its bytes -/

theorem loop_body_one_byte (string : List Byte) (flags : Nat) (st : State) (b0 : Nat)
    (g0 : (string[st.p]?).map Fin.val = some b0) (r1 : b0 < 0x80)
    (hz : b0 = 0 → flags &&& UTF8CHK_BAN_NULL_BYTE = 0) :
    loop_body string flags false st = .next (no_output st 1) := by
  obtain ⟨x0, h0, e0⟩ := getElem?_map_val_eq_some string _ b0 g0
  rw [loop_body_some _ _ _ _ x0 h0, if_neg (fun hh => Bool.noConfusion hh.2),
    if_neg (fun hh => hh.2 (hz (by omega))), if_pos (by omega)]

theorem loop_body_two_bytes (string : List Byte) (flags : Nat) (nt : Bool) (st : State)
    (b0 b1 : Nat) (g0 : (string[st.p]?).map Fin.val = some b0)
    (g1 : (string[st.p + 1]?).map Fin.val = some b1)
    (r1 : 0xC0 ≤ b0) (r2 : b0 ≤ 0xDF) (c1 : is_continuation_byte b1) (hlen : 2 ≤ st.length) :
    loop_body string flags nt st =
      sequence_checks flags st 2 ((b0 - 0xC0) * 64 + (b1 - 0x80)) 0x0080 := by
  unfold is_continuation_byte at c1
  obtain ⟨x0, h0, e0⟩ := getElem?_map_val_eq_some string _ b0 g0
  obtain ⟨x1, h1, e1⟩ := getElem?_map_val_eq_some string _ b1 g1
  rw [loop_body_multibyte _ _ _ _ x0 2 (x0.val &&& 0x1F) 0x0080 h0
    (Or.inl ⟨rfl, by omega, by omega, rfl, rfl⟩), and_1F]
  have hr : read_continuation string nt st 2 (2 - 1) 1 (x0.val % 32)
      = .ok ((b0 - 0xC0) * 64 + (b1 - 0x80)) := by
    show read_continuation string nt st 2 (0 + 1) 1 (x0.val % 32) = _
    rw [read_continuation_step_of_cont _ _ _ _ _ _ _ x1 h1 (by omega) (by omega),
      read_continuation_zero]
    refine congrArg Except.ok ?_
    omega
  rw [multibyte_of_read_ok _ _ _ _ 2 _ _ _ hlen hr]

theorem loop_body_three_bytes (string : List Byte) (flags : Nat) (nt : Bool) (st : State)
    (b0 b1 b2 : Nat) (g0 : (string[st.p]?).map Fin.val = some b0)
    (g1 : (string[st.p + 1]?).map Fin.val = some b1)
    (g2 : (string[st.p + 2]?).map Fin.val = some b2)
    (r1 : 0xE0 ≤ b0) (r2 : b0 ≤ 0xEF) (c1 : is_continuation_byte b1)
    (c2 : is_continuation_byte b2) (hlen : 3 ≤ st.length) :
    loop_body string flags nt st =
      sequence_checks flags st 3 ((b0 - 0xE0) * 4096 + (b1 - 0x80) * 64 + (b2 - 0x80))
        0x0800 := by
  unfold is_continuation_byte at c1 c2
  obtain ⟨x0, h0, e0⟩ := getElem?_map_val_eq_some string _ b0 g0
  obtain ⟨x1, h1, e1⟩ := getElem?_map_val_eq_some string _ b1 g1
  obtain ⟨x2, h2, e2⟩ := getElem?_map_val_eq_some string _ b2 g2
  rw [loop_body_multibyte _ _ _ _ x0 3 (x0.val &&& 0x0F) 0x0800 h0
    (Or.inr (Or.inl ⟨rfl, by omega, by omega, rfl, rfl⟩)), and_0F]
  have hr : read_continuation string nt st 3 (3 - 1) 1 (x0.val % 16)
      = .ok ((b0 - 0xE0) * 4096 + (b1 - 0x80) * 64 + (b2 - 0x80)) := by
    show read_continuation string nt st 3 (1 + 1) 1 (x0.val % 16) = _
    rw [read_continuation_step_of_cont _ _ _ _ _ _ _ x1 h1 (by omega) (by omega),
      read_continuation_step_of_cont _ _ _ _ _ _ _ x2 h2 (by omega) (by omega),
      read_continuation_zero]
    refine congrArg Except.ok ?_
    omega
  rw [multibyte_of_read_ok _ _ _ _ 3 _ _ _ hlen hr]

theorem loop_body_four_bytes (string : List Byte) (flags : Nat) (nt : Bool) (st : State)
    (b0 b1 b2 b3 : Nat) (g0 : (string[st.p]?).map Fin.val = some b0)
    (g1 : (string[st.p + 1]?).map Fin.val = some b1)
    (g2 : (string[st.p + 2]?).map Fin.val = some b2)
    (g3 : (string[st.p + 3]?).map Fin.val = some b3)
    (r1 : 0xF0 ≤ b0) (r2 : b0 ≤ 0xF7) (c1 : is_continuation_byte b1)
    (c2 : is_continuation_byte b2) (c3 : is_continuation_byte b3) (hlen : 4 ≤ st.length) :
    loop_body string flags nt st =
      sequence_checks flags st 4
        ((b0 - 0xF0) * 262144 + (b1 - 0x80) * 4096 + (b2 - 0x80) * 64 + (b3 - 0x80))
        0x10000 := by
  unfold is_continuation_byte at c1 c2 c3
  obtain ⟨x0, h0, e0⟩ := getElem?_map_val_eq_some string _ b0 g0
  obtain ⟨x1, h1, e1⟩ := getElem?_map_val_eq_some string _ b1 g1
  obtain ⟨x2, h2, e2⟩ := getElem?_map_val_eq_some string _ b2 g2
  obtain ⟨x3, h3, e3⟩ := getElem?_map_val_eq_some string _ b3 g3
  rw [loop_body_multibyte _ _ _ _ x0 4 (x0.val &&& 0x07) 0x10000 h0
    (Or.inr (Or.inr ⟨rfl, by omega, by omega, rfl, rfl⟩)), and_07]
  have hr : read_continuation string nt st 4 (4 - 1) 1 (x0.val % 8)
      = .ok ((b0 - 0xF0) * 262144 + (b1 - 0x80) * 4096 + (b2 - 0x80) * 64 + (b3 - 0x80)) := by
    show read_continuation string nt st 4 (2 + 1) 1 (x0.val % 8) = _
    rw [read_continuation_step_of_cont _ _ _ _ _ _ _ x1 h1 (by omega) (by omega),
      read_continuation_step_of_cont _ _ _ _ _ _ _ x2 h2 (by omega) (by omega),
      read_continuation_step_of_cont _ _ _ _ _ _ _ x3 h3 (by omega) (by omega),
      read_continuation_zero]
    refine congrArg Except.ok ?_
    omega
  rw [multibyte_of_read_ok _ _ _ _ 4 _ _ _ hlen hr]

/-! ## Walking over a list of sequences -/

/-- When the loop body accepts every sequence of a kind `S`, the scan walks
over a concatenation of such sequences. -/
theorem reaches_of_sequences (string : List Byte) (flags : Nat) (nt : Bool)
    (S : List Nat → Prop)
    (hS : ∀ (st : State) (s : List Nat), S s → st.expect_low_surrogate = false →
      s.length ≤ st.length →
      (∀ i, i < s.length → (string[st.p + i]?).map Fin.val = s[i]?) →
      0 < s.length ∧ loop_body string flags nt st = .next (no_output st s.length)) :
    ∀ (seqs : List (List Nat)) (st : State) (rest : List Nat), (∀ s ∈ seqs, S s) →
      st.expect_low_surrogate = false → st.p + st.length ≤ string.length →
      bytes_from string st.p st.length = seqs.flatten ++ rest →
      ∃ st1, Reaches string flags nt st st1 ∧ st1.p = st.p + seqs.flatten.length ∧
        st1.length = st.length - seqs.flatten.length ∧
        st1.expect_low_surrogate = false := by
  intro seqs
  induction seqs with
  | nil =>
    intro st rest _ he _ _
    exact ⟨st, Reaches.refl _, by simp, by simp, he⟩
  | cons s seqs ih =>
    intro st rest hall he hp hbytes
    have hbytes1 : bytes_from string st.p st.length = s ++ (seqs.flatten ++ rest) := by
      rw [hbytes, List.flatten_cons, List.append_assoc]
    obtain ⟨hlen, hb⟩ := getElem?_of_bytes_from_prefix string _ _ _ _ hp hbytes1
    obtain ⟨hpos, hstep⟩ := hS st s (hall s (List.mem_cons_self _ _)) he hlen hb
    rw [bytes_from_split string st.p _ _ hlen, bytes_from_eq_of_getElem? string st.p _ hb]
      at hbytes1
    obtain ⟨st1, hr, h1, h2, h3⟩ := ih (no_output st s.length) rest
      (fun x hx => hall x (List.mem_cons_of_mem _ hx)) he
      (by show st.p + s.length + (st.length - s.length) ≤ string.length; omega)
      (List.append_cancel_left hbytes1)
    refine ⟨st1, Reaches.step _ _ _ (by omega) hstep hr, ?_, ?_, h3⟩
    · rw [h1, List.flatten_cons, List.length_append]
      show st.p + s.length + _ = _
      omega
    · rw [h2, List.flatten_cons, List.length_append]
      show st.length - s.length - _ = _
      omega

/-- When the scan comes to the end of the length, `utf8chk` returns what the
code after the loop gives. -/
theorem utf8chk_of_scan_end (string : List Byte) (length flags : Nat) (st : State)
    (hreach : scan_reaches string length flags st) (hl : st.length = 0) :
    utf8chk string length flags = .ok (after_loop flags st) := by
  unfold utf8chk
  rw [utf8chk_loop_of_reaches _ _ _ _ _ hreach length (le_refl _), hl]
  unfold utf8chk_loop
  rw [if_pos hl]

theorem take_map_val_eq_bytes_from (string : List Byte) (N : Nat) :
    (string.take N).map Fin.val = bytes_from string 0 N := by
  unfold bytes_from
  rw [List.drop_zero]

/-- Under `UTF8CHK_LAX` in explicit-length mode the loop body accepts every
sequence of the lax shape with a code point up to U+10FFFF. -/
theorem loop_body_lax (string : List Byte) (st : State) (s : List Nat)
    (hs : lax_sequence s) (he : st.expect_low_surrogate = false) (hlen : s.length ≤ st.length)
    (hb : ∀ i, i < s.length → (string[st.p + i]?).map Fin.val = s[i]?) :
    0 < s.length ∧ loop_body string UTF8CHK_LAX false st = .next (no_output st s.length) := by
  have hchk : ∀ n u u_min, u ≤ 0x10FFFF →
      sequence_checks UTF8CHK_LAX st n u u_min = .next (no_output st n) := by
    intro n u u_min hu
    have f5 : ¬ ((UTF8CHK_LAX &&& (UTF8CHK_BAN_OVERLONG ||| UTF8CHK_BAN_OVERLONG_EXCEPT_NULL) ≠ 0
        ∧ u < u_min) ∧ (UTF8CHK_LAX &&& UTF8CHK_BAN_OVERLONG ≠ 0 ∨ u ≠ 0 ∨ st.length ≠ 2)) :=
      fun h => h.1.1 (by decide)
    have f2 : ¬ (UTF8CHK_LAX &&& UTF8CHK_BAN_SURROGATES ≠ 0) := by decide
    have f8 : ¬ (UTF8CHK_LAX &&& UTF8CHK_CHECK_SURROGATES ≠ 0) := by decide
    have f16 : ¬ (UTF8CHK_LAX &&& UTF8CHK_BAN_NONCHARACTERS ≠ 0) := by decide
    rw [sequence_checks_eq, if_neg (by unfold UNICODE_MAX; omega), if_neg f5]
    unfold noncharacter_check
    by_cases h3 : 0xD800 ≤ u ∧ u ≤ 0xDFFF
    · rw [if_pos h3, if_neg f2, if_neg f8, if_neg f16]
    · rw [if_neg h3, if_neg f16, state_expect_false st he]
  obtain ⟨hshape, hcp⟩ := hs
  rcases hshape with ⟨b0, rfl, r1⟩ | ⟨b0, b1, rfl, r1, r2, c1⟩ | ⟨b0, b1, b2, rfl, r1, r2, c1, c2⟩ |
    ⟨b0, b1, b2, b3, rfl, r1, r2, c1, c2, c3⟩
  · exact ⟨by simp, loop_body_one_byte string _ st b0 (hb 0 (by simp)) r1 (fun _ => by decide)⟩
  · refine ⟨by simp, ?_⟩
    rw [loop_body_two_bytes string _ false st b0 b1 (hb 0 (by simp)) (hb 1 (by simp)) r1 r2 c1
      hlen]
    exact hchk _ _ _ hcp
  · refine ⟨by simp, ?_⟩
    rw [loop_body_three_bytes string _ false st b0 b1 b2 (hb 0 (by simp)) (hb 1 (by simp))
      (hb 2 (by simp)) r1 r2 c1 c2 hlen]
    exact hchk _ _ _ hcp
  · refine ⟨by simp, ?_⟩
    rw [loop_body_four_bytes string _ false st b0 b1 b2 b3 (hb 0 (by simp)) (hb 1 (by simp))
      (hb 2 (by simp)) (hb 3 (by simp)) r1 r2 c1 c2 c3 hlen]
    exact hchk _ _ _ hcp

/-! ## Standard UTF-8 with `UTF8CHK_BAN_NONCHARACTERS` -/

theorem is_noncharacter_iff (u : Nat) (hu : u ≤ 0x10FFFF) :
    is_noncharacter u ↔ (0xFFFE ≤ u % 0x10000 ∨ (0xFDD0 ≤ u ∧ u ≤ 0xFDEF)) := by
  unfold is_noncharacter
  constructor
  · rintro (h | ⟨n, hn, h | h⟩)
    · exact Or.inr h
    · left; omega
    · left; omega
  · rintro (h | h)
    · exact Or.inr ⟨u / 0x10000, by omega, by omega⟩
    · exact Or.inl h

theorem is_noncharacter_scalar (u : Nat) (h : is_noncharacter u) :
    is_scalar_value u ∧ 0x80 ≤ u ∧ u ≤ 0x10FFFF := by
  unfold is_noncharacter at h
  unfold is_scalar_value
  rcases h with h | ⟨n, hn, h | h⟩ <;> omega

/-- The loop body at the shortest-form encoding of a code point from U+0080
on comes to the checks with that code point, which is not below the minimum
for the length. -/
theorem loop_body_of_utf8_encode (string : List Byte) (flags : Nat) (nt : Bool) (st : State)
    (u : Nat) (hu1 : 0x80 ≤ u) (hu2 : u ≤ 0x10FFFF)
    (hlen : (utf8_encode u).length ≤ st.length)
    (hb : ∀ i, i < (utf8_encode u).length →
      (string[st.p + i]?).map Fin.val = (utf8_encode u)[i]?) :
    ∃ u_min, u_min ≤ u ∧
      loop_body string flags nt st = sequence_checks flags st (utf8_encode u).length u u_min := by
  by_cases r2 : u < 0x800
  · have henc : utf8_encode u = [0xC0 + u / 64, 0x80 + u % 64] := by
      unfold utf8_encode; rw [if_neg (by omega), if_pos r2]
    rw [henc] at hb hlen ⊢
    have h := loop_body_two_bytes string flags nt st (0xC0 + u / 64) (0x80 + u % 64)
      (hb 0 (by simp)) (hb 1 (by simp)) (by omega) (by omega) ⟨by omega, by omega⟩ hlen
    have e : (0xC0 + u / 64 - 0xC0) * 64 + (0x80 + u % 64 - 0x80) = u := by omega
    rw [e] at h
    exact ⟨0x0080, hu1, h⟩
  by_cases r3 : u < 0x10000
  · have henc : utf8_encode u = [0xE0 + u / 4096, 0x80 + u / 64 % 64, 0x80 + u % 64] := by
      unfold utf8_encode; rw [if_neg (by omega), if_neg r2, if_pos r3]
    rw [henc] at hb hlen ⊢
    have h := loop_body_three_bytes string flags nt st (0xE0 + u / 4096) (0x80 + u / 64 % 64)
      (0x80 + u % 64) (hb 0 (by simp)) (hb 1 (by simp)) (hb 2 (by simp)) (by omega) (by omega)
      ⟨by omega, by omega⟩ ⟨by omega, by omega⟩ hlen
    have e : (0xE0 + u / 4096 - 0xE0) * 4096 + (0x80 + u / 64 % 64 - 0x80) * 64
        + (0x80 + u % 64 - 0x80) = u := by omega
    rw [e] at h
    exact ⟨0x0800, by omega, h⟩
  · have henc : utf8_encode u =
        [0xF0 + u / 262144, 0x80 + u / 4096 % 64, 0x80 + u / 64 % 64, 0x80 + u % 64] := by
      unfold utf8_encode; rw [if_neg (by omega), if_neg r2, if_neg r3]
    rw [henc] at hb hlen ⊢
    have h := loop_body_four_bytes string flags nt st (0xF0 + u / 262144)
      (0x80 + u / 4096 % 64) (0x80 + u / 64 % 64) (0x80 + u % 64) (hb 0 (by simp))
      (hb 1 (by simp)) (hb 2 (by simp)) (hb 3 (by simp)) (by omega) (by omega)
      ⟨by omega, by omega⟩ ⟨by omega, by omega⟩ ⟨by omega, by omega⟩ hlen
    have e : (0xF0 + u / 262144 - 0xF0) * 262144 + (0x80 + u / 4096 % 64 - 0x80) * 4096
        + (0x80 + u / 64 % 64 - 0x80) * 64 + (0x80 + u % 64 - 0x80) = u := by omega
    rw [e] at h
    exact ⟨0x10000, by omega, h⟩

theorem sequence_checks_utf8_nonchar (st : State) (n u u_min : Nat) :
    sequence_checks (UTF8CHK_UTF8 ||| UTF8CHK_BAN_NONCHARACTERS) st n u u_min =
      if u > UNICODE_MAX then .ret ⟨UTF8CHK_ERR_RANGE, st.p, n⟩
      else if u < u_min then .ret ⟨UTF8CHK_ERR_OVERLONG, st.p, n⟩
      else if 0xD800 ≤ u ∧ u ≤ 0xDFFF then .ret ⟨UTF8CHK_ERR_SURROGATE, st.p, n⟩
      else if u &&& 0xFFFE = 0xFFFE then .ret ⟨UTF8CHK_ERR_NONCHARACTER, st.p, n⟩
      else if 0xFDD0 ≤ u ∧ u ≤ 0xFDEF then .ret ⟨UTF8CHK_ERR_NONCHARACTER, st.p, n⟩
      else .next (no_output { st with expect_low_surrogate := false } n) := by
  have f2 : (UTF8CHK_UTF8 ||| UTF8CHK_BAN_NONCHARACTERS)
      &&& (UTF8CHK_BAN_OVERLONG ||| UTF8CHK_BAN_OVERLONG_EXCEPT_NULL) ≠ 0 := by decide
  have f3 : (UTF8CHK_UTF8 ||| UTF8CHK_BAN_NONCHARACTERS) &&& UTF8CHK_BAN_OVERLONG ≠ 0 := by
    decide
  have f4 : (UTF8CHK_UTF8 ||| UTF8CHK_BAN_NONCHARACTERS) &&& UTF8CHK_BAN_SURROGATES ≠ 0 := by
    decide
  have f5 : (UTF8CHK_UTF8 ||| UTF8CHK_BAN_NONCHARACTERS) &&& UTF8CHK_BAN_NONCHARACTERS ≠ 0 := by
    decide
  rw [sequence_checks_eq]
  by_cases h1 : u > UNICODE_MAX
  · rw [if_pos h1, if_pos h1]
  rw [if_neg h1, if_neg h1]
  by_cases h2 : u < u_min
  · rw [if_pos ⟨⟨f2, h2⟩, Or.inl f3⟩, if_pos h2]
  rw [if_neg (fun h => h2 h.1.2), if_neg h2]
  by_cases h3 : 0xD800 ≤ u ∧ u ≤ 0xDFFF
  · rw [if_pos h3, if_pos h3, if_pos f4]
  rw [if_neg h3, if_neg h3]
  unfold noncharacter_check
  rw [if_pos f5]

/-- Under `UTF8CHK_UTF8 ||| UTF8CHK_BAN_NONCHARACTERS` the checks pass a
scalar value that is not a noncharacter and stop at a noncharacter. -/
theorem sequence_checks_utf8_nonchar_scalar (st : State) (n u u_min : Nat)
    (he : st.expect_low_surrogate = false) (hu : is_scalar_value u) (hmin : u_min ≤ u) :
    (¬ is_noncharacter u →
      sequence_checks (UTF8CHK_UTF8 ||| UTF8CHK_BAN_NONCHARACTERS) st n u u_min
        = .next (no_output st n)) ∧
    (is_noncharacter u →
      sequence_checks (UTF8CHK_UTF8 ||| UTF8CHK_BAN_NONCHARACTERS) st n u u_min
        = .ret ⟨UTF8CHK_ERR_NONCHARACTER, st.p, n⟩) := by
  have hmax : u ≤ 0x10FFFF := by unfold is_scalar_value at hu; omega
  have hns : ¬ (0xD800 ≤ u ∧ u ≤ 0xDFFF) := by unfold is_scalar_value at hu; omega
  have hiff := is_noncharacter_iff u hmax
  rw [sequence_checks_utf8_nonchar, if_neg (by unfold UNICODE_MAX; omega), if_neg (by omega),
    if_neg hns, state_expect_false st he]
  constructor
  · intro hn
    have h1 : ¬ (u &&& 0xFFFE = 0xFFFE) := fun h =>
      hn (hiff.mpr (Or.inl ((and_FFFE_eq_iff u).mp h)))
    have h2 : ¬ (0xFDD0 ≤ u ∧ u ≤ 0xFDEF) := fun h => hn (hiff.mpr (Or.inr h))
    rw [if_neg h1, if_neg h2]
  · intro hn
    rcases hiff.mp hn with h | h
    · rw [if_pos ((and_FFFE_eq_iff u).mpr h)]
    · by_cases h1 : u &&& 0xFFFE = 0xFFFE
      · rw [if_pos h1]
      · rw [if_neg h1, if_pos h]

/-- Under `UTF8CHK_UTF8 ||| UTF8CHK_BAN_NONCHARACTERS` in explicit-length
mode, the loop body accepts the encoding of a scalar value that is not a
noncharacter. -/
theorem loop_body_utf8_nonchar_accept (string : List Byte) (st : State) (s : List Nat)
    (hs : ∃ u, (is_scalar_value u ∧ ¬ is_noncharacter u) ∧ s = utf8_encode u)
    (he : st.expect_low_surrogate = false) (hlen : s.length ≤ st.length)
    (hb : ∀ i, i < s.length → (string[st.p + i]?).map Fin.val = s[i]?) :
    0 < s.length ∧
      loop_body string (UTF8CHK_UTF8 ||| UTF8CHK_BAN_NONCHARACTERS) false st
        = .next (no_output st s.length) := by
  obtain ⟨u, ⟨hu, hn⟩, rfl⟩ := hs
  refine ⟨utf8_encode_length_pos u, ?_⟩
  by_cases r1 : u < 0x80
  · have henc : utf8_encode u = [u] := by
      unfold utf8_encode; rw [if_pos r1]
    rw [henc] at hb ⊢
    exact loop_body_one_byte string _ st u (hb 0 (by simp)) r1 (fun _ => by decide)
  · have hmax : u ≤ 0x10FFFF := by unfold is_scalar_value at hu; omega
    obtain ⟨u_min, hmin, hbody⟩ := loop_body_of_utf8_encode string
      (UTF8CHK_UTF8 ||| UTF8CHK_BAN_NONCHARACTERS) false st u (by omega) hmax hlen hb
    rw [hbody]
    exact (sequence_checks_utf8_nonchar_scalar st _ u u_min he hu hmin).1 hn

/-- An iteration completed under `UTF8CHK_UTF8 ||| UTF8CHK_BAN_NONCHARACTERS`
is completed, with the same state, under `UTF8CHK_UTF8`. -/
theorem loop_body_utf8_of_nonchar_next (string : List Byte) (st st1 : State)
    (h : loop_body string (UTF8CHK_UTF8 ||| UTF8CHK_BAN_NONCHARACTERS) false st = .next st1) :
    loop_body string UTF8CHK_UTF8 false st = .next st1 := by
  rcases loop_body_next_cases _ _ _ _ _ h with ⟨b, hget, hlt, n1, -, rfl⟩ |
    ⟨b, n, u0, u_min, v, hget, hs, hlen, hr, hc⟩
  · rw [loop_body_some _ _ _ _ b hget, if_neg n1, if_neg (fun hh => hh.2 (by decide)),
      if_pos hlt]
  · rw [loop_body_multibyte _ _ _ _ b n u0 u_min hget hs,
      multibyte_of_read_ok _ _ _ _ _ _ _ v hlen hr, sequence_checks_utf8]
    rw [sequence_checks_utf8_nonchar] at hc
    by_cases h1 : v > UNICODE_MAX
    · rw [if_pos h1] at hc; simp at hc
    rw [if_neg h1] at hc ⊢
    by_cases h2 : v < u_min
    · rw [if_pos h2] at hc; simp at hc
    rw [if_neg h2] at hc ⊢
    by_cases h3 : 0xD800 ≤ v ∧ v ≤ 0xDFFF
    · rw [if_pos h3] at hc; simp at hc
    rw [if_neg h3] at hc ⊢
    by_cases h4 : v &&& 0xFFFE = 0xFFFE
    · rw [if_pos h4] at hc; simp at hc
    rw [if_neg h4] at hc
    by_cases h5 : 0xFDD0 ≤ v ∧ v ≤ 0xFDEF
    · rw [if_pos h5] at hc; simp at hc
    rw [if_neg h5] at hc
    exact hc

/-- A run that returns `UTF8CHK_OK` under
`UTF8CHK_UTF8 ||| UTF8CHK_BAN_NONCHARACTERS` does so under `UTF8CHK_UTF8`. -/
theorem utf8chk_loop_utf8_of_nonchar_ok (string : List Byte) :
    ∀ (fuel : Nat) (st : State),
      (∃ r, utf8chk_loop string (UTF8CHK_UTF8 ||| UTF8CHK_BAN_NONCHARACTERS) false fuel st
        = .ok r ∧ r.err = UTF8CHK_OK) →
      ∃ r, utf8chk_loop string UTF8CHK_UTF8 false fuel st = .ok r ∧ r.err = UTF8CHK_OK := by
  intro fuel
  induction fuel with
  | zero =>
    intro st ⟨r, hr, hok⟩
    unfold utf8chk_loop at hr ⊢
    by_cases h0 : st.length = 0
    · rw [if_pos h0, after_loop_utf8]
      exact ⟨_, rfl, rfl⟩
    · rw [if_neg h0] at hr
      simp at hr
  | succ fuel ih =>
    intro st ⟨r, hr, hok⟩
    unfold utf8chk_loop at hr ⊢
    by_cases h0 : st.length = 0
    · rw [if_pos h0, after_loop_utf8]
      exact ⟨_, rfl, rfl⟩
    rw [if_neg h0] at hr ⊢
    rcases hb : loop_body string (UTF8CHK_UTF8 ||| UTF8CHK_BAN_NONCHARACTERS) false st with
      r1 | _ | st1 | _
    · rw [hb] at hr
      simp only [Except.ok.injEq] at hr
      subst hr
      exact absurd hok (loop_body_ret _ _ _ _ _ hb h0).1
    · exact absurd (loop_body_brk _ _ _ _ hb).1 (by decide)
    · rw [hb] at hr
      rw [loop_body_utf8_of_nonchar_next string st st1 hb]
      exact ih st1 ⟨r, hr, hok⟩
    · rw [hb] at hr
      simp at hr

theorem exists_first_of_exists (P : Nat → Prop) :
    ∀ us : List Nat, (∃ u ∈ us, P u) →
      ∃ pre x post, us = pre ++ x :: post ∧ (∀ u ∈ pre, ¬ P u) ∧ P x := by
  intro us
  induction us with
  | nil => rintro ⟨u, hu, -⟩; simp at hu
  | cons a t ih =>
    rintro ⟨u, hu, hp⟩
    by_cases ha : P a
    · exact ⟨[], a, t, rfl, fun _ h => by simp at h, ha⟩
    · rcases List.mem_cons.mp hu with rfl | hu
      · exact absurd hp ha
      · obtain ⟨pre, x, post, e, h1, h2⟩ := ih ⟨u, hu, hp⟩
        refine ⟨a :: pre, x, post, by rw [e]; rfl, ?_, h2⟩
        intro y hy
        rcases List.mem_cons.mp hy with rfl | hy
        · exact ha
        · exact h1 y hy

/-- The first noncharacter after a prefix of scalar values that are not
noncharacters is reported at its first byte with its sequence length. -/
theorem utf8chk_first_noncharacter (string : List Byte) (N : Nat) (hN : N ≤ string.length)
    (hx : N ≠ UTF8CHK_CSTRING) (us : List Nat) (x : Nat) (rest : List Nat)
    (hus : ∀ u ∈ us, is_scalar_value u ∧ ¬ is_noncharacter u) (hxn : is_noncharacter x)
    (hbuf : (string.take N).map Fin.val
      = (us.map utf8_encode).flatten ++ utf8_encode x ++ rest) :
    utf8chk string N (UTF8CHK_UTF8 ||| UTF8CHK_BAN_NONCHARACTERS)
      = .ok ⟨UTF8CHK_ERR_NONCHARACTER, (((us.map utf8_encode).flatten.length : Nat) : Int),
          (utf8_encode x).length⟩ := by
  have hd : decide (N = UTF8CHK_CSTRING) = false := decide_eq_false hx
  have hlenN : (us.map utf8_encode).flatten.length + (utf8_encode x).length + rest.length
      = N := by
    have := congrArg List.length hbuf
    rw [List.length_map, List.length_take, List.length_append, List.length_append] at this
    omega
  obtain ⟨st1, hr, h1, h2, h3⟩ := reaches_of_sequences string
    (UTF8CHK_UTF8 ||| UTF8CHK_BAN_NONCHARACTERS) false
    (fun s => ∃ u, (is_scalar_value u ∧ ¬ is_noncharacter u) ∧ s = utf8_encode u)
    (fun st s hs he hlen hb => loop_body_utf8_nonchar_accept string st s hs he hlen hb)
    (us.map utf8_encode)
    { p := 0, length := N, expect_low_surrogate := false, u_cache := 0, n := 0, n_prev := 0 }
    (utf8_encode x ++ rest)
    (fun s hs => by
      obtain ⟨u, hu, rfl⟩ := List.mem_map.mp hs
      exact ⟨u, hus u hu, rfl⟩)
    rfl (by show 0 + N ≤ string.length; omega)
    (by rw [← take_map_val_eq_bytes_from, hbuf, List.append_assoc])
  have hp1 : st1.p = (us.map utf8_encode).flatten.length := by
    rw [h1]; show 0 + _ = _; omega
  have hl1 : st1.length = N - (us.map utf8_encode).flatten.length := h2
  have hreach : scan_reaches string N (UTF8CHK_UTF8 ||| UTF8CHK_BAN_NONCHARACTERS) st1 := by
    unfold scan_reaches
    rw [hd]
    exact hr
  have hpos := utf8_encode_length_pos x
  -- the bytes at the cursor are the encoding of `x`
  have hbytes : bytes_from string st1.p st1.length = utf8_encode x ++ rest := by
    have hsplit := bytes_from_split string 0 (us.map utf8_encode).flatten.length N (by omega)
    rw [← take_map_val_eq_bytes_from, hbuf, List.append_assoc] at hsplit
    have hpre : bytes_from string 0 (us.map utf8_encode).flatten.length
        = (us.map utf8_encode).flatten := by
      have h4 := congrArg (List.take (us.map utf8_encode).flatten.length) hsplit
      rw [List.take_left, List.take_left' (bytes_from_length string 0 _ (by omega))] at h4
      exact h4.symm
    rw [hpre] at hsplit
    rw [hp1, hl1]
    have := List.append_cancel_left hsplit
    rw [Nat.zero_add] at this
    exact this.symm
  obtain ⟨hlen, hb⟩ := getElem?_of_bytes_from_prefix string _ _ _ _
    (by rw [hp1, hl1]; omega) hbytes
  obtain ⟨hxs, hx80, hxmax⟩ := is_noncharacter_scalar x hxn
  obtain ⟨u_min, hmin, hbody⟩ := loop_body_of_utf8_encode string
    (UTF8CHK_UTF8 ||| UTF8CHK_BAN_NONCHARACTERS) false st1 x hx80 hxmax hlen hb
  rw [(sequence_checks_utf8_nonchar_scalar st1 _ x u_min h3 hxs hmin).2 hxn] at hbody
  rw [← hd] at hbody
  have hres := utf8chk_of_scan_ret string N _ st1 _ hreach (by omega) hbody
  rw [hres, hp1]

/-! ## The overlong and range checks -/

/-- With `UTF8CHK_BAN_OVERLONG` set, adding `UTF8CHK_BAN_OVERLONG_EXCEPT_NULL`
does not change the checks. -/
theorem sequence_checks_except_null_overruled (F : Nat) (st : State) (n u u_min : Nat)
    (h1 : F &&& UTF8CHK_BAN_OVERLONG ≠ 0) :
    sequence_checks (F ||| UTF8CHK_BAN_OVERLONG_EXCEPT_NULL) st n u u_min
      = sequence_checks F st n u u_min := by
  have e1 : (F ||| UTF8CHK_BAN_OVERLONG_EXCEPT_NULL) &&& UTF8CHK_BAN_OVERLONG
      = F &&& UTF8CHK_BAN_OVERLONG := or_and_of_and_eq_zero _ _ _ (by decide)
  have e2 : (F ||| UTF8CHK_BAN_OVERLONG_EXCEPT_NULL) &&& UTF8CHK_BAN_SURROGATES
      = F &&& UTF8CHK_BAN_SURROGATES := or_and_of_and_eq_zero _ _ _ (by decide)
  have e8 : (F ||| UTF8CHK_BAN_OVERLONG_EXCEPT_NULL) &&& UTF8CHK_CHECK_SURROGATES
      = F &&& UTF8CHK_CHECK_SURROGATES := or_and_of_and_eq_zero _ _ _ (by decide)
  have e16 : (F ||| UTF8CHK_BAN_OVERLONG_EXCEPT_NULL) &&& UTF8CHK_BAN_NONCHARACTERS
      = F &&& UTF8CHK_BAN_NONCHARACTERS := or_and_of_and_eq_zero _ _ _ (by decide)
  have hA : (F ||| UTF8CHK_BAN_OVERLONG_EXCEPT_NULL)
      &&& (UTF8CHK_BAN_OVERLONG ||| UTF8CHK_BAN_OVERLONG_EXCEPT_NULL) ≠ 0 :=
    overlong_flags_of_ban_overlong _ (by rw [e1]; exact h1)
  have hB : F &&& (UTF8CHK_BAN_OVERLONG ||| UTF8CHK_BAN_OVERLONG_EXCEPT_NULL) ≠ 0 :=
    overlong_flags_of_ban_overlong _ h1
  rw [sequence_checks_eq, sequence_checks_eq]
  unfold noncharacter_check
  rw [e1, e2, e8, e16]
  by_cases hr : u > UNICODE_MAX
  · rw [if_pos hr, if_pos hr]
  rw [if_neg hr, if_neg hr]
  by_cases hov : u < u_min
  · rw [if_pos ⟨⟨hA, hov⟩, Or.inl h1⟩, if_pos ⟨⟨hB, hov⟩, Or.inl h1⟩]
  · have nA : ¬ (((F ||| UTF8CHK_BAN_OVERLONG_EXCEPT_NULL)
          &&& (UTF8CHK_BAN_OVERLONG ||| UTF8CHK_BAN_OVERLONG_EXCEPT_NULL) ≠ 0 ∧ u < u_min)
        ∧ (F &&& UTF8CHK_BAN_OVERLONG ≠ 0 ∨ u ≠ 0 ∨ st.length ≠ 2)) := fun h => hov h.1.2
    have nB : ¬ ((F &&& (UTF8CHK_BAN_OVERLONG ||| UTF8CHK_BAN_OVERLONG_EXCEPT_NULL) ≠ 0
          ∧ u < u_min)
        ∧ (F &&& UTF8CHK_BAN_OVERLONG ≠ 0 ∨ u ≠ 0 ∨ st.length ≠ 2)) := fun h => hov h.1.2
    rw [if_neg nA, if_neg nB]

/-- The value read from a 2- or 3-byte sequence is below 0x10000. -/
theorem read_continuation_short_lt (string : List Byte) (nt : Bool) (st : State) (b : Byte)
    (n u0 u_min v : Nat) (hs : StartByte b.val n u0 u_min) (hn : n ≤ 3)
    (hr : read_continuation string nt st n (n - 1) 1 u0 = .ok v) : v < 0x10000 := by
  rcases hs with ⟨rfl, -, -, rfl, -⟩ | ⟨rfl, -, -, rfl, -⟩ | ⟨rfl, -⟩
  · obtain ⟨b1, -, -, -, hr1⟩ := read_continuation_ok_step _ _ _ _ 0 _ _ _ hr
    rw [read_continuation_zero] at hr1
    simp only [Except.ok.injEq] at hr1
    rw [and_1F] at hr1
    omega
  · obtain ⟨b1, -, -, -, hr1⟩ := read_continuation_ok_step _ _ _ _ 1 _ _ _ hr
    obtain ⟨b2, -, -, -, hr2⟩ := read_continuation_ok_step _ _ _ _ 0 _ _ _ hr1
    rw [read_continuation_zero] at hr2
    simp only [Except.ok.injEq] at hr2
    rw [and_0F] at hr2
    omega
  · omega

/-- A return of the checks with `UTF8CHK_ERR_RANGE` comes from the range
check. -/
theorem sequence_checks_ret_range (flags : Nat) (st : State) (n u u_min : Nat) (r : Result)
    (h : sequence_checks flags st n u u_min = .ret r) (hk : r.err = UTF8CHK_ERR_RANGE) :
    u > UNICODE_MAX ∧ r.error_len = n := by
  refine ⟨?_, (sequence_checks_ret _ _ _ _ _ _ h).2.2.2⟩
  by_contra h1
  have hnc : ∀ st1 u1, noncharacter_check flags st1 n u1 = .ret r → False := by
    intro st1 u1 h2
    have := (noncharacter_check_ret _ _ _ _ _ h2).1
    rw [hk] at this
    exact absurd this (by decide)
  rw [sequence_checks_eq, if_neg h1] at h
  split_ifs at h
  all_goals first
    | exact hnc _ _ h
    | (simp only [Step.ret.injEq, reduceCtorEq] at h
       rw [← h] at hk
       exact absurd hk (by simp))

/-- The returns of a multi-byte sequence: one of the truncation and
expected-continuation kinds, or a return of the checks on the value read. -/
theorem multibyte_ret_cases (string : List Byte) (flags : Nat) (nt : Bool) (st : State)
    (n u u_min : Nat) (r : Result) (h : multibyte string flags nt st n u u_min = .ret r) :
    (is_trunc r.err = true ∨ is_expected_cont r.err = true ∨
      is_surrogate_trunc r.err = true) ∨
    ∃ v, n ≤ st.length ∧ read_continuation string nt st n (n - 1) 1 u = .ok v ∧
      sequence_checks flags st n v u_min = .ret r := by
  by_cases hlt : st.length < n
  · rcases multibyte_ret_kind _ _ _ _ _ _ _ _ h with ⟨k, -⟩ | k | ⟨k, -⟩ | ⟨v, k⟩
    · exact Or.inl (Or.inl k)
    · exact Or.inl (Or.inr (Or.inl k))
    · exact Or.inl (Or.inr (Or.inr k))
    · exfalso
      unfold multibyte at h
      rw [if_pos hlt] at h
      have hne := (sequence_checks_ret _ _ _ _ _ _ k).2.1
      by_cases he : st.expect_low_surrogate = true
      · rw [if_pos he] at h
        simp only [Step.ret.injEq] at h
        rw [← h] at hne
        have := return_error_n_surrogate_trunc (n - st.length % 2 ^ 32)
        rw [this] at hne
        exact absurd hne (by decide)
      · rw [if_neg he] at h
        simp only [Step.ret.injEq] at h
        rcases sequence_checks_ret_kind _ _ _ _ _ _ k with k1 | ⟨k1, -⟩ | ⟨k1, -⟩ | ⟨k1, -⟩ |
          ⟨k1, -⟩ | ⟨k1, -⟩
        all_goals
          rw [← h] at k1
          have ht := return_error_n_is_trunc (n - st.length % 2 ^ 32)
          rw [show (⟨UTF8CHK_RETURN_ERROR_N UTF8CHK_ERR_TRUNC UTF8CHK_ERR_TRUNC2
            UTF8CHK_ERR_TRUNC3 (n - st.length % 2 ^ 32), (st.p : Int), st.length⟩ : Result).err
            = UTF8CHK_RETURN_ERROR_N UTF8CHK_ERR_TRUNC UTF8CHK_ERR_TRUNC2
            UTF8CHK_ERR_TRUNC3 (n - st.length % 2 ^ 32) from rfl] at k1
          rw [k1] at ht
          exact absurd ht (by decide)
  · rw [multibyte_eq _ _ _ _ _ _ _ (by omega)] at h
    rcases hr : read_continuation string nt st n (n - 1) 1 u with s | v
    · rw [hr] at h
      simp only at h
      subst h
      rcases read_continuation_ret_kind string nt st n (n - 1) 1 u r hr with
        ⟨k, -⟩ | k | ⟨k, -⟩
      · exact Or.inl (Or.inl k)
      · exact Or.inl (Or.inr (Or.inl k))
      · exact Or.inl (Or.inr (Or.inr k))
    · rw [hr] at h
      exact Or.inr ⟨v, by omega, rfl, h⟩

/-- A return of the loop body with `UTF8CHK_ERR_RANGE` is at a 4-byte
sequence. -/
theorem loop_body_ret_range (string : List Byte) (flags : Nat) (nt : Bool) (st : State)
    (r : Result) (h : loop_body string flags nt st = .ret r)
    (hk : r.err = UTF8CHK_ERR_RANGE) : r.error_len = 4 := by
  have fam : is_trunc r.err = true ∨ is_expected_cont r.err = true ∨
      is_surrogate_trunc r.err = true → False := by
    rw [hk]
    rintro (k | k | k) <;> exact absurd k (by decide)
  have multi : ∀ (b : Byte) (n u0 u_min : Nat), StartByte b.val n u0 u_min →
      multibyte string flags nt st n u0 u_min = .ret r → r.error_len = 4 := by
    intro b n u0 u_min hs hm
    rcases multibyte_ret_cases _ _ _ _ _ _ _ _ hm with k | ⟨v, -, hr, hc⟩
    · exact absurd k fam
    · obtain ⟨hv, hlen⟩ := sequence_checks_ret_range _ _ _ _ _ _ hc hk
      have hn4 := (signalled_length_of_start_byte _ _ _ _ hs).2.2
      by_cases hn : n ≤ 3
      · have := read_continuation_short_lt _ _ _ b _ _ _ _ hs hn hr
        unfold UNICODE_MAX at hv
        omega
      · omega
  by_cases hnone : string[st.p]? = none
  · rw [loop_body_none _ _ _ _ hnone] at h
    simp at h
  obtain ⟨b, hget⟩ := Option.ne_none_iff_exists'.mp hnone
  rw [loop_body_some _ _ _ _ b hget] at h
  by_cases h1 : b.val = 0 ∧ nt = true
  · rw [if_pos h1] at h; simp at h
  rw [if_neg h1] at h
  by_cases h2 : b.val = 0 ∧ flags &&& UTF8CHK_BAN_NULL_BYTE ≠ 0
  · rw [if_pos h2] at h
    simp only [Step.ret.injEq] at h
    rw [← h] at hk
    exact absurd hk (by simp)
  rw [if_neg h2] at h
  by_cases h3 : b.val < 0x80
  · rw [if_pos h3] at h; simp at h
  rw [if_neg h3] at h
  by_cases h4 : b.val < 0xC0
  · rw [if_pos h4] at h
    simp only [Step.ret.injEq] at h
    rw [← h] at hk
    exact absurd hk (by simp)
  rw [if_neg h4] at h
  by_cases h5 : b.val < 0xE0
  · rw [if_pos h5] at h
    exact multi b _ _ _ (Or.inl ⟨rfl, by omega, h5, rfl, rfl⟩) h
  rw [if_neg h5] at h
  by_cases h6 : b.val < 0xF0
  · rw [if_pos h6] at h
    exact multi b _ _ _ (Or.inr (Or.inl ⟨rfl, by omega, h6, rfl, rfl⟩)) h
  rw [if_neg h6] at h
  by_cases h7 : b.val < 0xF8
  · rw [if_pos h7] at h
    exact multi b _ _ _ (Or.inr (Or.inr ⟨rfl, by omega, h7, rfl, rfl⟩)) h
  rw [if_neg h7] at h
  simp only [Step.ret.injEq] at h
  rw [← h] at hk
  exact absurd hk (by simp)

theorem getElem?_map_val_of_eq (string : List Byte) (j : Nat) (b : Byte)
    (h : string[j]? = some b) : (string[j]?).map Fin.val = some b.val := by
  rw [h]; rfl

/-! ## Surrogate pairs and the flags behind each error -/

/-- Under `UTF8CHK_CHECK_SURROGATES` without `UTF8CHK_BAN_SURROGATES`, a high
surrogate that passes the checks leaves `expect_low_surrogate` set. -/
theorem sequence_checks_next_high (flags : Nat) (st st1 : State) (n u u_min : Nat)
    (hchk : flags &&& UTF8CHK_CHECK_SURROGATES ≠ 0)
    (hban : flags &&& UTF8CHK_BAN_SURROGATES = 0) (h1 : 0xD800 ≤ u) (h2 : u ≤ 0xDBFF)
    (h : sequence_checks flags st n u u_min = .next st1) :
    st1.expect_low_surrogate = true ∧ st1.p = st.p + n ∧ st1.length = st.length - n := by
  have hHigh : u &&& 0x400 = 0 := (and_400_eq_zero_iff u).mpr (by omega)
  obtain ⟨⟨a1, a2, -, -⟩, -, -⟩ := sequence_checks_next _ _ _ _ _ _ h
  refine ⟨?_, a1, a2⟩
  rw [sequence_checks_eq] at h
  by_cases c1 : u > UNICODE_MAX
  · rw [if_pos c1] at h; simp at h
  rw [if_neg c1] at h
  by_cases c2 : (flags &&& (UTF8CHK_BAN_OVERLONG ||| UTF8CHK_BAN_OVERLONG_EXCEPT_NULL) ≠ 0 ∧
      u < u_min) ∧ (flags &&& UTF8CHK_BAN_OVERLONG ≠ 0 ∨ u ≠ 0 ∨ st.length ≠ 2)
  · rw [if_pos c2] at h; simp at h
  have c6 : ¬ (u &&& 0x400 ≠ 0 ∧ st.expect_low_surrogate = false) := fun hh => hh.1 hHigh
  rw [if_neg c2, if_pos ⟨h1, by omega⟩, if_neg (not_not.mpr hban), if_pos hchk, if_neg c6] at h
  by_cases c7 : u &&& 0x400 = 0 ∧ st.expect_low_surrogate = true
  · rw [if_pos c7] at h; simp at h
  rw [if_neg c7, if_pos hHigh] at h
  simp only [Step.next.injEq] at h
  rw [← h]
  rfl

/-- An iteration that takes a sequence decoding to a high surrogate, under
`UTF8CHK_CHECK_SURROGATES` without `UTF8CHK_BAN_SURROGATES`, leaves
`expect_low_surrogate` set. -/
theorem loop_body_next_high (string : List Byte) (flags : Nat) (nt : Bool) (st st1 : State)
    (n u : Nat) (hchk : flags &&& UTF8CHK_CHECK_SURROGATES ≠ 0)
    (hban : flags &&& UTF8CHK_BAN_SURROGATES = 0)
    (hdec : decode_seq string st.p = some (n, u)) (h1 : 0xD800 ≤ u) (h2 : u ≤ 0xDBFF)
    (h : loop_body string flags nt st = .next st1) :
    st1.expect_low_surrogate = true ∧ st1.p = st.p + n ∧ st1.length = st.length - n ∧
      n ≤ st.length := by
  rcases loop_body_next_cases _ _ _ _ _ h with ⟨b, hget, hlt, -, -, -⟩ |
    ⟨b, m, u0, u_min, v, hget, hs, hlen, hr, hc⟩
  · exfalso
    unfold decode_seq at hdec
    simp only [hget] at hdec
    rw [if_pos hlt] at hdec
    simp only [Option.some.injEq, Prod.mk.injEq] at hdec
    omega
  · have hd := decode_seq_of_read _ _ _ _ _ _ _ _ hget hs hr
    rw [hdec] at hd
    simp only [Option.some.injEq, Prod.mk.injEq] at hd
    obtain ⟨rfl, rfl⟩ := hd
    obtain ⟨e1, e2, e3⟩ := sequence_checks_next_high _ _ _ _ _ _ hchk hban h1 h2 hc
    exact ⟨e1, e2, e3, hlen⟩

theorem flag_gated_of_plain (flags : Nat) (e : utf8chk_error)
    (h : e = UTF8CHK_OK ∨ e = UTF8CHK_ERR_UNEXPECTED_CONT ∨
      e = UTF8CHK_ERR_INVALID_START_BYTE ∨ e = UTF8CHK_ERR_RANGE ∨ is_trunc e = true ∨
      is_expected_cont e = true) : FlagGated flags e := by
  unfold FlagGated
  cases e <;> simp_all [is_trunc, is_expected_cont, is_surrogate_trunc]

theorem overlong_flag_cases (flags : Nat)
    (h : flags &&& (UTF8CHK_BAN_OVERLONG ||| UTF8CHK_BAN_OVERLONG_EXCEPT_NULL) ≠ 0) :
    flags &&& UTF8CHK_BAN_OVERLONG ≠ 0 ∨ flags &&& UTF8CHK_BAN_OVERLONG_EXCEPT_NULL ≠ 0 := by
  by_contra hn
  push_neg at hn
  rw [Nat.and_or_distrib_left, hn.1, hn.2] at h
  exact h rfl

/-- Every result of `utf8chk` of a flag-gated kind has the flags of that
kind. -/
theorem utf8chk_flag_gated (string : List Byte) (length flags : Nat) (r : Result)
    (h : utf8chk string length flags = .ok r) : FlagGated flags r.err := by
  unfold utf8chk at h
  have hafter : ∀ st : State, (st.expect_low_surrogate = true →
      flags &&& UTF8CHK_CHECK_SURROGATES ≠ 0 ∧ flags &&& UTF8CHK_BAN_SURROGATES = 0) →
      FlagGated flags (after_loop flags st).err := by
    intro st hi
    rcases after_loop_err flags st with k | ⟨k, -, he⟩
    · exact flag_gated_of_plain _ _ (Or.inl k)
    · rw [k]
      unfold FlagGated
      refine ⟨by simp, by simp, by simp, by simp, fun _ => hi he⟩
  refine utf8chk_loop_rule string flags _
    (fun st => st.expect_low_surrogate = true →
      flags &&& UTF8CHK_CHECK_SURROGATES ≠ 0 ∧ flags &&& UTF8CHK_BAN_SURROGATES = 0)
    (fun r => FlagGated flags r.err)
    (fun st hi _ => hafter st hi) (fun st hi _ _ => hafter st hi) ?_ ?_ _ _
    (fun he => by simp at he) r h
  · intro st r1 hi _ hb
    rcases loop_body_ret_kind _ _ _ _ _ hb with ⟨k, -, kf⟩ | k | k | ⟨k, -⟩ | k | ⟨k, he⟩ |
      ⟨n, v, u_min, k⟩
    · rw [k]
      unfold FlagGated
      exact ⟨by simp, by simp, fun _ => kf, by simp, by simp [is_surrogate_trunc]⟩
    · exact flag_gated_of_plain _ _ (Or.inr (Or.inl k))
    · exact flag_gated_of_plain _ _ (Or.inr (Or.inr (Or.inl k)))
    · exact flag_gated_of_plain _ _ (Or.inr (Or.inr (Or.inr (Or.inr (Or.inl k)))))
    · exact flag_gated_of_plain _ _ (Or.inr (Or.inr (Or.inr (Or.inr (Or.inr k)))))
    · have hf := hi he
      unfold FlagGated
      refine ⟨fun h0 => ?_, fun h0 => ?_, fun h0 => ?_, fun h0 => ?_, fun _ => hf⟩ <;>
        (rw [h0] at k; exact absurd k (by decide))
    · rcases sequence_checks_ret_kind _ _ _ _ _ _ k with k | ⟨k, kf⟩ | ⟨k, kf⟩ |
        ⟨k, kb, kc, -⟩ | ⟨k, kb, kc, -⟩ | ⟨k, kf⟩
      · exact flag_gated_of_plain _ _ (Or.inr (Or.inr (Or.inr (Or.inl k))))
      · rw [k]
        unfold FlagGated
        exact ⟨fun _ => overlong_flag_cases flags kf, by simp, by simp, by simp,
          by simp [is_surrogate_trunc]⟩
      · rw [k]
        unfold FlagGated
        exact ⟨by simp, by simp, by simp, fun _ => kf, by simp [is_surrogate_trunc]⟩
      · rw [k]
        unfold FlagGated
        exact ⟨by simp, by simp, by simp, by simp, fun _ => ⟨kc, kb⟩⟩
      · rw [k]
        unfold FlagGated
        exact ⟨by simp, by simp, by simp, by simp, fun _ => ⟨kc, kb⟩⟩
      · rw [k]
        unfold FlagGated
        exact ⟨by simp, fun _ => kf, by simp, by simp, by simp [is_surrogate_trunc]⟩
  · intro st st1 hi hl hb he
    obtain ⟨n, -, -, -, -, -, hexp⟩ := loop_body_next _ _ _ _ _ hb hl
    rcases hexp he with ⟨e1, -⟩ | ⟨e1, e2, -⟩
    · exact hi e1
    · exact ⟨e1, e2⟩

theorem flag_gated_not_surrogate_error (flags : Nat) (e : utf8chk_error)
    (h2 : flags &&& UTF8CHK_BAN_SURROGATES = 0) (h8 : flags &&& UTF8CHK_CHECK_SURROGATES = 0)
    (h : FlagGated flags e) : is_surrogate_error e = false := by
  obtain ⟨-, -, -, g4, g5⟩ := h
  cases e <;> first
    | rfl
    | exact absurd h2 (g4 rfl)
    | exact absurd h8 (g5 (Or.inl rfl)).1
    | exact absurd h8 (g5 (Or.inr (Or.inl rfl))).1
    | exact absurd h8 (g5 (Or.inr (Or.inr rfl))).1

/-- With `UTF8CHK_BAN_SURROGATES`, `UTF8CHK_CHECK_SURROGATES` and
`UTF8CHK_BAN_NONCHARACTERS` clear, in explicit-length mode, the loop body
accepts the 3-byte encoding of every surrogate. -/
theorem loop_body_surrogate_unchecked (string : List Byte) (flags : Nat) (st : State)
    (s : List Nat) (h2 : flags &&& UTF8CHK_BAN_SURROGATES = 0)
    (h8 : flags &&& UTF8CHK_CHECK_SURROGATES = 0)
    (h16 : flags &&& UTF8CHK_BAN_NONCHARACTERS = 0)
    (hs : ∃ u, (0xD800 ≤ u ∧ u ≤ 0xDFFF) ∧ s = utf8_encode u)
    (hlen : s.length ≤ st.length)
    (hb : ∀ i, i < s.length → (string[st.p + i]?).map Fin.val = s[i]?) :
    0 < s.length ∧ loop_body string flags false st = .next (no_output st s.length) := by
  obtain ⟨u, ⟨u1, u2⟩, rfl⟩ := hs
  refine ⟨utf8_encode_length_pos u, ?_⟩
  obtain ⟨u_min, hmin, hbody⟩ := loop_body_of_utf8_encode string flags false st u (by omega)
    (by omega) hlen hb
  have c2 : ¬ ((flags &&& (UTF8CHK_BAN_OVERLONG ||| UTF8CHK_BAN_OVERLONG_EXCEPT_NULL) ≠ 0 ∧
      u < u_min) ∧ (flags &&& UTF8CHK_BAN_OVERLONG ≠ 0 ∨ u ≠ 0 ∨ st.length ≠ 2)) :=
    fun h => by have := h.1.2; omega
  rw [hbody, sequence_checks_eq, if_neg (by unfold UNICODE_MAX; omega), if_neg c2,
    if_pos ⟨u1, u2⟩, if_neg (not_not.mpr h2), if_neg (not_not.mpr h8)]
  unfold noncharacter_check
  rw [if_neg (not_not.mpr h16)]

/-- With `UTF8CHK_BAN_SURROGATES`, `UTF8CHK_CHECK_SURROGATES` and
`UTF8CHK_BAN_NONCHARACTERS` clear, a buffer of surrogates in 3-byte form, in
any order, is accepted. -/
theorem utf8chk_surrogates_unchecked (string : List Byte) (N flags : Nat) (us : List Nat)
    (h2 : flags &&& UTF8CHK_BAN_SURROGATES = 0)
    (h8 : flags &&& UTF8CHK_CHECK_SURROGATES = 0)
    (h16 : flags &&& UTF8CHK_BAN_NONCHARACTERS = 0)
    (hN : N ≤ string.length) (hx : N ≠ UTF8CHK_CSTRING)
    (hus : ∀ u ∈ us, 0xD800 ≤ u ∧ u ≤ 0xDFFF)
    (hbuf : (string.take N).map Fin.val = (us.map utf8_encode).flatten) :
    utf8chk string N flags = .ok ⟨UTF8CHK_OK, N, 0⟩ := by
  have hd : decide (N = UTF8CHK_CSTRING) = false := decide_eq_false hx
  have hlenN : (us.map utf8_encode).flatten.length = N := by
    rw [← hbuf, List.length_map, List.length_take]
    omega
  obtain ⟨st1, hr, e1, e2, e3⟩ := reaches_of_sequences string flags false
    (fun s => ∃ u, (0xD800 ≤ u ∧ u ≤ 0xDFFF) ∧ s = utf8_encode u)
    (fun st s hs _ hlen hb => loop_body_surrogate_unchecked string flags st s h2 h8 h16 hs hlen hb)
    (us.map utf8_encode)
    { p := 0, length := N, expect_low_surrogate := false, u_cache := 0, n := 0, n_prev := 0 }
    []
    (fun s hs => by
      obtain ⟨u, hu, rfl⟩ := List.mem_map.mp hs
      exact ⟨u, hus u hu, rfl⟩)
    rfl (by show 0 + N ≤ string.length; omega)
    (by rw [List.append_nil, ← take_map_val_eq_bytes_from, hbuf])
  have hreach : scan_reaches string N flags st1 := by
    unfold scan_reaches
    rw [hd]
    exact hr
  have hl0 : st1.length = 0 := by
    rw [e2, hlenN]
    show N - N = 0
    omega
  rw [utf8chk_of_scan_end string N flags st1 hreach hl0, after_loop_expect_clear _ _ e3,
    e1, hlenN]
  show Except.ok (⟨UTF8CHK_OK, ((0 + N : Nat) : Int), 0⟩ : Result) = _
  rw [Nat.zero_add]

/-! ## The cursor and the remaining length along the scan -/

theorem reaches_p_le (string : List Byte) (flags : Nat) (nt : Bool) (st st1 : State)
    (h : Reaches string flags nt st st1) : st.p ≤ st1.p :=
  reaches_invariant string flags nt (fun s => st.p ≤ s.p)
    (fun s s1 hi hl hb => by
      obtain ⟨n, -, -, -, ⟨a1, -⟩, -⟩ := loop_body_next _ _ _ _ _ hb hl
      show st.p ≤ s1.p
      omega)
    st st1 h (le_refl _)

/-- In sentinel mode the cursor does not pass a zero byte. -/
theorem scan_reaches_sentinel_le_zero (string : List Byte) (flags : Nat) (st : State) (z : Nat)
    (hz : string[z]? = some (0 : Byte))
    (hreach : scan_reaches string UTF8CHK_CSTRING flags st) : st.p ≤ z :=
  reaches_invariant string flags _ (fun s => s.p ≤ z)
    (fun s s1 hi hl hb => by
      obtain ⟨n, n1, n4, nl, ⟨a1, a2, a3, a4⟩, hbytes, -⟩ := loop_body_next _ _ _ _ _ hb hl
      show s1.p ≤ z
      by_contra hgt
      obtain ⟨b, hb1, hb2⟩ := hbytes (z - s.p) (by omega)
      have he : s.p + (z - s.p) = z := by omega
      rw [he, hz] at hb1
      simp only [Option.some.injEq] at hb1
      rw [← hb1] at hb2
      exact hb2 (decide_eq_true rfl) rfl)
    _ st hreach (Nat.zero_le z)

/-! ## Two buffers that agree on the bytes read -/

theorem read_continuation_agree (s1 s2 : List Byte) (nt : Bool) (st : State) (n : Nat) :
    ∀ (k i u : Nat), (∀ j, i ≤ j → j < i + k → s2[st.p + j]? = s1[st.p + j]?) →
      read_continuation s2 nt st n k i u = read_continuation s1 nt st n k i u := by
  intro k
  induction k with
  | zero => intro i u _; rfl
  | succ k ih =>
    intro i u h
    have e := h i (le_refl _) (by omega)
    rcases hget : s1[st.p + i]? with _ | b
    · rw [read_continuation_none _ _ _ _ _ _ _ hget,
        read_continuation_none _ _ _ _ _ _ _ (e.trans hget)]
    · rw [read_continuation_succ _ _ _ _ _ _ _ b hget,
        read_continuation_succ _ _ _ _ _ _ _ b (e.trans hget)]
      by_cases hc : b.val &&& 0xC0 ≠ 0x80
      · rw [if_pos hc, if_pos hc]
      · rw [if_neg hc, if_neg hc]
        exact ih (i + 1) _ (fun j h1 h2 => h j (by omega) (by omega))

theorem read_continuation_agree_sentinel (s1 s2 : List Byte) (st : State) (n z : Nat)
    (hz : s1[z]? = some (0 : Byte)) (hag : ∀ j, j ≤ z → s2[j]? = s1[j]?) :
    ∀ (k i u : Nat), st.p + i ≤ z →
      read_continuation s2 true st n k i u = read_continuation s1 true st n k i u := by
  intro k
  induction k with
  | zero => intro i u _; rfl
  | succ k ih =>
    intro i u h
    have e := hag (st.p + i) h
    rcases hget : s1[st.p + i]? with _ | b
    · rw [read_continuation_none _ _ _ _ _ _ _ hget,
        read_continuation_none _ _ _ _ _ _ _ (e.trans hget)]
    · rw [read_continuation_succ _ _ _ _ _ _ _ b hget,
        read_continuation_succ _ _ _ _ _ _ _ b (e.trans hget)]
      by_cases hc : b.val &&& 0xC0 ≠ 0x80
      · rw [if_pos hc, if_pos hc]
      · rw [if_neg hc, if_neg hc]
        have hne : st.p + i ≠ z := by
          intro hzz
          rw [hzz, hz] at hget
          simp only [Option.some.injEq] at hget
          rw [← hget] at hc
          exact hc (by decide)
        exact ih (i + 1) _ (by omega)

theorem multibyte_agree (s1 s2 : List Byte) (flags : Nat) (nt : Bool) (st : State)
    (n u u_min : Nat)
    (h : n ≤ st.length → read_continuation s2 nt st n (n - 1) 1 u
      = read_continuation s1 nt st n (n - 1) 1 u) :
    multibyte s2 flags nt st n u u_min = multibyte s1 flags nt st n u u_min := by
  by_cases hlt : st.length < n
  · unfold multibyte
    rw [if_pos hlt, if_pos hlt]
  · rw [multibyte_eq _ _ _ _ _ _ _ (by omega), multibyte_eq _ _ _ _ _ _ _ (by omega),
      h (by omega)]

/-- The loop body is the same on two buffers that agree on the start byte and,
after a start byte of a multi-byte sequence, on the continuation bytes
read. -/
theorem loop_body_agree (s1 s2 : List Byte) (flags : Nat) (nt : Bool) (st : State)
    (h0 : s2[st.p]? = s1[st.p]?)
    (hm : ∀ b : Byte, s1[st.p]? = some b → 0xC0 ≤ b.val → ∀ n u, n ≤ 4 → n ≤ st.length →
      read_continuation s2 nt st n (n - 1) 1 u = read_continuation s1 nt st n (n - 1) 1 u) :
    loop_body s2 flags nt st = loop_body s1 flags nt st := by
  by_cases hnone : s1[st.p]? = none
  · rw [loop_body_none _ _ _ _ hnone, loop_body_none _ _ _ _ (h0.trans hnone)]
  obtain ⟨b, hget⟩ := Option.ne_none_iff_exists'.mp hnone
  rw [loop_body_some _ _ _ _ b hget, loop_body_some _ _ _ _ b (h0.trans hget)]
  by_cases hC0 : 0xC0 ≤ b.val
  · rw [multibyte_agree s1 s2 flags nt st 2 _ _ (hm b hget hC0 2 _ (by omega)),
      multibyte_agree s1 s2 flags nt st 3 _ _ (hm b hget hC0 3 _ (by omega)),
      multibyte_agree s1 s2 flags nt st 4 _ _ (hm b hget hC0 4 _ (by omega))]
  · by_cases h1 : b.val = 0 ∧ nt = true
    · rw [if_pos h1, if_pos h1]
    rw [if_neg h1, if_neg h1]
    by_cases h2 : b.val = 0 ∧ flags &&& UTF8CHK_BAN_NULL_BYTE ≠ 0
    · rw [if_pos h2, if_pos h2]
    rw [if_neg h2, if_neg h2]
    by_cases h3 : b.val < 0x80
    · rw [if_pos h3, if_pos h3]
    rw [if_neg h3, if_neg h3, if_pos (by omega), if_pos (by omega)]

/-- Two buffers that give the same loop body in the states of an invariant
give the same run. -/
theorem utf8chk_loop_agree (s1 s2 : List Byte) (flags : Nat) (nt : Bool) (Inv : State → Prop)
    (hbody : ∀ st, Inv st → st.length ≠ 0 →
      loop_body s2 flags nt st = loop_body s1 flags nt st)
    (hnext : ∀ st st1, Inv st → st.length ≠ 0 → loop_body s1 flags nt st = .next st1 →
      Inv st1) :
    ∀ (fuel : Nat) (st : State), Inv st →
      utf8chk_loop s2 flags nt fuel st = utf8chk_loop s1 flags nt fuel st := by
  intro fuel
  induction fuel with
  | zero => intro st _; rfl
  | succ fuel ih =>
    intro st hi
    unfold utf8chk_loop
    by_cases h0 : st.length = 0
    · rw [if_pos h0, if_pos h0]
    rw [if_neg h0, if_neg h0, hbody st hi h0]
    rcases hb : loop_body s1 flags nt st with r1 | _ | st1 | _
    · rfl
    · rfl
    · exact ih st1 (hnext st st1 hi h0 hb)
    · rfl

/-- In explicit-length terms: a run over `length` bytes is the same on two
buffers that agree below index `length`. -/
theorem utf8chk_agree_below (s1 s2 : List Byte) (length flags : Nat)
    (hag : ∀ j, j < length → s2[j]? = s1[j]?) :
    utf8chk s2 length flags = utf8chk s1 length flags := by
  unfold utf8chk
  refine utf8chk_loop_agree s1 s2 flags _ (fun st => st.p + st.length ≤ length)
    (fun st hi hl => ?_) (fun st st1 hi hl hb => ?_) length _ (by show 0 + length ≤ length; omega)
  · refine loop_body_agree s1 s2 flags _ st (hag _ (by omega)) (fun b _ _ n u _ hn => ?_)
    exact read_continuation_agree s1 s2 _ st n (n - 1) 1 u
      (fun j h1 h2 => hag _ (by omega))
  · obtain ⟨n, -, -, nl, ⟨a1, a2, -, -⟩, -, -⟩ := loop_body_next _ _ _ _ _ hb hl
    show st1.p + st1.length ≤ length
    omega

/-- A step in sentinel mode does not pass a zero byte. -/
theorem loop_body_next_le_zero (string : List Byte) (flags : Nat) (st st1 : State) (z : Nat)
    (hz : string[z]? = some (0 : Byte)) (hi : st.p ≤ z) (hl : st.length ≠ 0)
    (hb : loop_body string flags true st = .next st1) : st1.p ≤ z := by
  obtain ⟨n, n1, n4, nl, ⟨a1, a2, a3, a4⟩, hbytes, -⟩ := loop_body_next _ _ _ _ _ hb hl
  by_contra hgt
  obtain ⟨b, hb1, hb2⟩ := hbytes (z - st.p) (by omega)
  have he : st.p + (z - st.p) = z := by omega
  rw [he, hz] at hb1
  simp only [Option.some.injEq] at hb1
  rw [← hb1] at hb2
  exact hb2 rfl rfl

/-- A sentinel-mode run is the same on two buffers that agree up to a zero
byte. -/
theorem utf8chk_agree_sentinel (s1 s2 : List Byte) (flags z : Nat)
    (hz : s1[z]? = some (0 : Byte)) (hag : ∀ j, j ≤ z → s2[j]? = s1[j]?) :
    utf8chk s2 UTF8CHK_CSTRING flags = utf8chk s1 UTF8CHK_CSTRING flags := by
  unfold utf8chk
  rw [decide_eq_true (rfl : UTF8CHK_CSTRING = UTF8CHK_CSTRING)]
  refine utf8chk_loop_agree s1 s2 flags true (fun st => st.p ≤ z)
    (fun st hi hl => ?_) (fun st st1 hi hl hb => ?_) _ _ (Nat.zero_le z)
  · refine loop_body_agree s1 s2 flags true st (hag _ hi) (fun b hget hC0 n u _ _ => ?_)
    have hne : st.p ≠ z := by
      intro hzz
      rw [hzz, hz] at hget
      simp only [Option.some.injEq] at hget
      rw [← hget] at hC0
      exact absurd hC0 (by decide)
    exact read_continuation_agree_sentinel s1 s2 st n z hz hag (n - 1) 1 u
      (by have := Nat.lt_of_le_of_ne hi hne; omega)
  · exact loop_body_next_le_zero s1 flags st st1 z hz hi hl hb

theorem getElem?_take_of_lt (string : List Byte) (N j : Nat) (h : j < N) :
    (string.take N)[j]? = string[j]? := by
  rw [List.getElem?_take]
  simp [h]

/-! ## Runs under a subset of the flags -/

theorem and_ne_zero_of_subset (F G m : Nat) (hsub : G &&& F = G) (h : G &&& m ≠ 0) :
    F &&& m ≠ 0 := by
  intro h0
  apply h
  rw [← hsub, Nat.and_assoc, h0, Nat.and_zero]

theorem flag_sim_no_output (G : Nat) (s s1 : State) (n : Nat) (h : FlagSim G s s1) :
    FlagSim G (no_output s n) (no_output s1 n) :=
  ⟨by show s1.p + n = s.p + n; rw [h.1], by show s1.length - n = s.length - n; rw [h.2.1],
    h.2.2⟩

theorem flag_sim_expect (G : Nat) (s s1 : State) (e : Bool) (h : FlagSim G s s1) :
    FlagSim G { s with expect_low_surrogate := e } { s1 with expect_low_surrogate := e } :=
  ⟨h.1, h.2.1, fun g => ⟨rfl, (h.2.2 g).2⟩⟩

theorem noncharacter_check_mono (F G : Nat) (s s1 s2 : State) (n u : Nat)
    (hsub : G &&& F = G) (h : noncharacter_check F s n u = .next s2) :
    s2 = no_output s n ∧ noncharacter_check G s1 n u = .next (no_output s1 n) := by
  refine ⟨noncharacter_check_next _ _ _ _ _ h, ?_⟩
  unfold noncharacter_check
  by_cases hG : G &&& UTF8CHK_BAN_NONCHARACTERS ≠ 0
  · have hF := and_ne_zero_of_subset F G _ hsub hG
    unfold noncharacter_check at h
    rw [if_pos hF] at h
    by_cases c1 : u &&& 0xFFFE = 0xFFFE
    · rw [if_pos c1] at h; simp at h
    rw [if_neg c1] at h
    by_cases c2 : 0xFDD0 ≤ u ∧ u ≤ 0xFDEF
    · rw [if_pos c2] at h; simp at h
    rw [if_pos hG, if_neg c1, if_neg c2]
  · rw [if_neg hG]

theorem noncharacter_check_surrogate (G : Nat) (s : State) (n u : Nat)
    (h1 : 0xD800 ≤ u) (h2 : u ≤ 0xDFFF) :
    noncharacter_check G s n u = .next (no_output s n) := by
  have c1 : ¬ (u &&& 0xFFFE = 0xFFFE) := by
    rw [and_FFFE_eq_iff]
    omega
  have c2 : ¬ (0xFDD0 ≤ u ∧ u ≤ 0xFDEF) := by omega
  unfold noncharacter_check
  by_cases hG : G &&& UTF8CHK_BAN_NONCHARACTERS ≠ 0
  · rw [if_pos hG, if_neg c1, if_neg c2]
  · rw [if_neg hG]

/-- A sequence that passes the checks under `F` passes them under a subset `G`
of `F`. -/
theorem sequence_checks_next_mono (F G : Nat) (st st1 st2 : State) (n v u_min : Nat)
    (hsub : G &&& F = G) (hR : FlagSim G st st1)
    (h : sequence_checks F st n v u_min = .next st2) :
    ∃ st3, sequence_checks G st1 n v u_min = .next st3 ∧ FlagSim G st2 st3 := by
  obtain ⟨⟨a1, a2, -, -⟩, -, -⟩ := sequence_checks_next _ _ _ _ _ _ h
  rw [sequence_checks_eq] at h ⊢
  by_cases c0 : v > UNICODE_MAX
  · rw [if_pos c0] at h; simp at h
  rw [if_neg c0] at h ⊢
  by_cases cF : (F &&& (UTF8CHK_BAN_OVERLONG ||| UTF8CHK_BAN_OVERLONG_EXCEPT_NULL) ≠ 0 ∧ v < u_min)
      ∧ (F &&& UTF8CHK_BAN_OVERLONG ≠ 0 ∨ v ≠ 0 ∨ st.length ≠ 2)
  · rw [if_pos cF] at h; simp at h
  rw [if_neg cF] at h
  have cG : ¬ ((G &&& (UTF8CHK_BAN_OVERLONG ||| UTF8CHK_BAN_OVERLONG_EXCEPT_NULL) ≠ 0 ∧ v < u_min)
      ∧ (G &&& UTF8CHK_BAN_OVERLONG ≠ 0 ∨ v ≠ 0 ∨ st1.length ≠ 2)) := by
    rintro ⟨⟨g1, g2⟩, g3⟩
    refine cF ⟨⟨and_ne_zero_of_subset F G _ hsub g1, g2⟩, ?_⟩
    rcases g3 with g3 | g3 | g3
    · exact Or.inl (and_ne_zero_of_subset F G _ hsub g3)
    · exact Or.inr (Or.inl g3)
    · exact Or.inr (Or.inr (by rw [← hR.2.1]; exact g3))
  rw [if_neg cG]
  by_cases cs : 0xD800 ≤ v ∧ v ≤ 0xDFFF
  · rw [if_pos cs] at h ⊢
    by_cases b2 : F &&& UTF8CHK_BAN_SURROGATES ≠ 0
    · rw [if_pos b2] at h; simp at h
    rw [if_neg b2] at h
    have b2G : ¬ (G &&& UTF8CHK_BAN_SURROGATES ≠ 0) :=
      fun g => b2 (and_ne_zero_of_subset F G _ hsub g)
    rw [if_neg b2G]
    by_cases c8G : G &&& UTF8CHK_CHECK_SURROGATES ≠ 0
    · have c8F := and_ne_zero_of_subset F G _ hsub c8G
      obtain ⟨e1, e2⟩ := hR.2.2 c8G
      rw [if_pos c8F] at h
      rw [if_pos c8G, e1]
      by_cases d1 : v &&& 0x400 ≠ 0 ∧ st.expect_low_surrogate = false
      · rw [if_pos d1] at h; simp at h
      rw [if_neg d1] at h ⊢
      by_cases d2 : v &&& 0x400 = 0 ∧ st.expect_low_surrogate = true
      · rw [if_pos d2] at h; simp at h
      rw [if_neg d2] at h ⊢
      by_cases d3 : v &&& 0x400 = 0
      · rw [if_pos d3] at h ⊢
        simp only [Step.next.injEq] at h
        subst h
        exact ⟨_, rfl, by show st1.p + n = st.p + n; rw [hR.1],
          by show st1.length - n = st.length - n; rw [hR.2.1], fun _ => ⟨rfl, rfl⟩⟩
      · rw [if_neg d3] at h ⊢
        obtain ⟨hs, hG⟩ := noncharacter_check_mono F G _
          { st1 with expect_low_surrogate := false } st2 n _ hsub h
        rw [← e2] at hG
        refine ⟨_, hG, ?_⟩
        rw [hs]
        exact flag_sim_no_output G _ _ n (flag_sim_expect G st st1 false hR)
    · rw [if_neg c8G]
      refine ⟨_, noncharacter_check_surrogate G st1 n v cs.1 cs.2, ?_⟩
      exact ⟨by show st1.p + n = st2.p; rw [hR.1, a1],
        by show st1.length - n = st2.length; rw [hR.2.1, a2], fun g => absurd g c8G⟩
  · rw [if_neg cs] at h ⊢
    obtain ⟨hs, hG⟩ := noncharacter_check_mono F G _
      { st1 with expect_low_surrogate := false } st2 n _ hsub h
    refine ⟨_, hG, ?_⟩
    rw [hs]
    exact flag_sim_no_output G _ _ n (flag_sim_expect G st st1 false hR)

/-- An iteration that completes under `F` completes under a subset `G` of
`F`. -/
theorem loop_body_next_mono (string : List Byte) (F G : Nat) (nt : Bool) (st st1 st2 : State)
    (hsub : G &&& F = G) (hR : FlagSim G st st1)
    (h : loop_body string F nt st = .next st2) :
    ∃ st3, loop_body string G nt st1 = .next st3 ∧ FlagSim G st2 st3 := by
  rcases loop_body_next_cases _ _ _ _ _ h with
    ⟨b, hget, h3, h1, h2, hs⟩ | ⟨b, n, u0, u_min, v, hget, hs, hn, hr, hc⟩
  · have hget1 : string[st1.p]? = some b := by rw [hR.1]; exact hget
    have h2G : ¬ (b.val = 0 ∧ G &&& UTF8CHK_BAN_NULL_BYTE ≠ 0) :=
      fun g => h2 ⟨g.1, and_ne_zero_of_subset F G _ hsub g.2⟩
    rw [loop_body_some _ _ _ _ b hget1, if_neg h1, if_neg h2G, if_pos h3]
    refine ⟨_, rfl, ?_⟩
    rw [hs]
    exact flag_sim_no_output G st st1 1 hR
  · have hget1 : string[st1.p]? = some b := by rw [hR.1]; exact hget
    have hr1 : read_continuation string nt st1 n (n - 1) 1 u0 = .ok v :=
      read_continuation_ok_indep string nt nt st st1 n n hR.1 (n - 1) 1 u0 v hr
    rw [loop_body_multibyte _ _ _ _ b n u0 u_min hget1 hs,
      multibyte_of_read_ok _ _ _ _ _ _ _ v (by rw [hR.2.1]; exact hn) hr1]
    exact sequence_checks_next_mono F G st st1 st2 n v u_min hsub hR hc

theorem loop_body_brk_mono (string : List Byte) (F G : Nat) (nt : Bool) (st st1 : State)
    (hp : st1.p = st.p) (h : loop_body string F nt st = .brk) :
    loop_body string G nt st1 = .brk := by
  obtain ⟨hnt, b, hget, hb⟩ := loop_body_brk _ _ _ _ h
  rw [loop_body_some _ _ _ _ b (by rw [hp]; exact hget), if_pos ⟨hb, hnt⟩]

theorem after_loop_mono (F G : Nat) (st st1 : State) (hsub : G &&& F = G)
    (hR : FlagSim G st st1) (h : (after_loop F st).err = UTF8CHK_OK) :
    after_loop G st1 = after_loop F st := by
  unfold after_loop at h ⊢
  by_cases cF : F &&& UTF8CHK_CHECK_SURROGATES ≠ 0 ∧ st.expect_low_surrogate = true
  · rw [if_pos cF] at h
    simp at h
  have cG : ¬ (G &&& UTF8CHK_CHECK_SURROGATES ≠ 0 ∧ st1.expect_low_surrogate = true) :=
    fun g => cF ⟨and_ne_zero_of_subset F G _ hsub g.1, by rw [← (hR.2.2 g.1).1]; exact g.2⟩
  rw [if_neg cF, if_neg cG, hR.1]

/-- A run that ends in `UTF8CHK_OK` under `F` ends in the same result under a
subset `G` of `F`. -/
theorem utf8chk_loop_mono (string : List Byte) (F G : Nat) (nt : Bool) (hsub : G &&& F = G) :
    ∀ (fuel : Nat) (st st1 : State) (r : Result), FlagSim G st st1 →
      utf8chk_loop string F nt fuel st = .ok r → r.err = UTF8CHK_OK →
      utf8chk_loop string G nt fuel st1 = .ok r := by
  intro fuel
  induction fuel with
  | zero =>
    intro st st1 r hR h herr
    unfold utf8chk_loop at h ⊢
    by_cases h0 : st.length = 0
    · rw [if_pos h0] at h
      simp only [Except.ok.injEq] at h
      subst h
      rw [if_pos (by rw [hR.2.1]; exact h0), after_loop_mono F G st st1 hsub hR herr]
    · rw [if_neg h0] at h
      simp at h
  | succ fuel ih =>
    intro st st1 r hR h herr
    unfold utf8chk_loop at h ⊢
    by_cases h0 : st.length = 0
    · rw [if_pos h0] at h
      simp only [Except.ok.injEq] at h
      subst h
      rw [if_pos (by rw [hR.2.1]; exact h0), after_loop_mono F G st st1 hsub hR herr]
    rw [if_neg h0] at h
    rw [if_neg (by rw [hR.2.1]; exact h0)]
    rcases hb : loop_body string F nt st with r1 | _ | st2 | _
    · rw [hb] at h
      simp only [Except.ok.injEq] at h
      subst h
      exact absurd herr (loop_body_ret _ _ _ _ _ hb h0).1
    · rw [hb] at h
      simp only [Except.ok.injEq] at h
      subst h
      rw [loop_body_brk_mono string F G nt st st1 hR.1 hb]
      simp only
      rw [after_loop_mono F G st st1 hsub hR herr]
    · rw [hb] at h
      obtain ⟨st3, hb3, hR3⟩ := loop_body_next_mono string F G nt st st1 st2 hsub hR hb
      rw [hb3]
      exact ih st2 st3 r hR3 h herr
    · rw [hb] at h
      simp at h

/-! ## The claims -/

/-- Claim C1: for every buffer and every explicit length `N` within it,
`utf8chk` with flags `UTF8CHK_UTF8` returns `UTF8CHK_OK` if and only if the
first `N` bytes are well-formed standard UTF-8: a concatenation of the
shortest-form encodings of Unicode scalar values. -/
theorem C1_utf8_ok_iff_well_formed (string : List Byte) (N : Nat) (hN : N ≤ string.length)
    (hx : N ≠ UTF8CHK_CSTRING) :
    (∃ r, utf8chk string N UTF8CHK_UTF8 = .ok r ∧ r.err = UTF8CHK_OK) ↔
      well_formed_utf8 ((string.take N).map Fin.val) := by
  have hd : decide (N = UTF8CHK_CSTRING) = false := decide_eq_false hx
  unfold utf8chk
  rw [hd]
  have key := utf8chk_loop_utf8_iff string N
    { p := 0, length := N, expect_low_surrogate := false, u_cache := 0, n := 0, n_prev := 0 }
    rfl (by show 0 + N ≤ string.length; omega) (le_refl _)
  have hb : bytes_from string 0 N = (string.take N).map Fin.val := by
    unfold bytes_from
    rw [List.drop_zero]
  rw [← hb]
  exact key

/-- The test input `F0 9F 98 83` (U+1F603) is accepted, hence well-formed. -/
theorem C1_utf8_ok_iff_well_formed_witness :
    well_formed_utf8 ((([0xF0, 0x9F, 0x98, 0x83] : List Byte).take 4).map Fin.val) :=
  (C1_utf8_ok_iff_well_formed [0xF0, 0x9F, 0x98, 0x83] 4 (by decide) (by decide)).mp
    ⟨⟨UTF8CHK_OK, 4, 0⟩, rfl, rfl⟩

/-- Claim C2 at the failing input: under MUTF-8 flags (`BAN_OVERLONG_EXCEPT_NULL`
set, `BAN_OVERLONG` clear) the sequence `C0 80` is accepted when it is the last
two bytes of an explicit-length buffer, but followed by one more byte, or in
sentinel mode, the same `C0 80` is reported as `UTF8CHK_ERR_OVERLONG`: the
test in the source is on the remaining `length`, not on `n`. -/
theorem C2_c0_80_overlong_unless_last_two_bytes :
    utf8chk [0xC0, 0x80] 2 UTF8CHK_MUTF8 = .ok ⟨UTF8CHK_OK, 2, 0⟩ ∧
    utf8chk [0xC0, 0x80, 0x41] 3 UTF8CHK_MUTF8 = .ok ⟨UTF8CHK_ERR_OVERLONG, 0, 2⟩ ∧
    utf8chk [0x41, 0xC0, 0x80, 0x00] UTF8CHK_CSTRING UTF8CHK_MUTF8
      = .ok ⟨UTF8CHK_ERR_OVERLONG, 1, 2⟩ :=
  ⟨rfl, rfl, rfl⟩

/-- Claim C3 at the failing inputs: under CESU-8 flags `utf8chk` returns
`UTF8CHK_OK` on a high surrogate (`ED A0 81`) followed by the 2-byte sequence
`C3 A9`, and on a high surrogate followed by the ASCII byte `61` and then a
low surrogate; in neither buffer is the high surrogate immediately followed by
a low surrogate. -/
theorem C3_unpaired_high_surrogate_accepted :
    utf8chk [0xED, 0xA0, 0x81, 0xC3, 0xA9] 5 UTF8CHK_CESU8 = .ok ⟨UTF8CHK_OK, 5, 0⟩ ∧
    utf8chk [0xED, 0xA0, 0x81, 0x61, 0xED, 0xB0, 0x80] 7 UTF8CHK_CESU8
      = .ok ⟨UTF8CHK_OK, 7, 0⟩ ∧
    decode_seq [0xED, 0xA0, 0x81, 0xC3, 0xA9] 0 = some (3, 0xD801) ∧
    decode_seq [0xED, 0xA0, 0x81, 0xC3, 0xA9] 3 = some (2, 0xE9) :=
  ⟨rfl, rfl, rfl, rfl⟩

/-- Claim C4, as amended: with `UTF8CHK_CHECK_SURROGATES` set and
`UTF8CHK_BAN_SURROGATES` clear, when the scan reaches a sequence within the
remaining length that decodes to a low surrogate (U+DC00..U+DFFF) and passes
the overlong check (3 bytes, or 4 bytes when no overlong flag is set) while
`expect_low_surrogate` is clear, `utf8chk` returns `UTF8CHK_ERR_SURROGATE_LOW`
with offset at the first byte of the sequence and length equal to its sequence
length; and `expect_low_surrogate` is clear when the sequence is the first one
or follows a multi-byte sequence that does not decode to a high surrogate. -/
theorem C4_low_surrogate_without_high (string : List Byte) (length flags : Nat) (st : State)
    (n u : Nat) (hchk : flags &&& UTF8CHK_CHECK_SURROGATES ≠ 0)
    (hban : flags &&& UTF8CHK_BAN_SURROGATES = 0)
    (hreach : scan_reaches string length flags st) (hl : n ≤ st.length)
    (hdec : decode_seq string st.p = some (n, u)) (hlow : 0xDC00 ≤ u ∧ u ≤ 0xDFFF)
    (hov : n = 3 ∨ flags &&& (UTF8CHK_BAN_OVERLONG ||| UTF8CHK_BAN_OVERLONG_EXCEPT_NULL) = 0) :
    (st.expect_low_surrogate = false →
      utf8chk string length flags = .ok ⟨UTF8CHK_ERR_SURROGATE_LOW, st.p, n⟩) ∧
    ((st.p = 0 ∨ (st.n_prev ≠ 1 ∧ ¬ high_surrogate_at string (st.p - st.n_prev) st.n_prev)) →
      st.expect_low_surrogate = false) := by
  constructor
  · intro he
    have hn := decode_seq_length_pos string st.p n u hdec
    obtain ⟨b, u0, u_min, hget, hs, hr, hbody⟩ :=
      loop_body_of_decode_seq string flags (decide (length = UTF8CHK_CSTRING)) st n u hdec
        (by omega) hl
    apply utf8chk_of_scan_ret string length flags st _ hreach (by omega)
    rw [hbody, sequence_checks_eq]
    have hmin : ¬ ((flags &&& (UTF8CHK_BAN_OVERLONG ||| UTF8CHK_BAN_OVERLONG_EXCEPT_NULL) ≠ 0 ∧
        u < u_min) ∧ (flags &&& UTF8CHK_BAN_OVERLONG ≠ 0 ∨ u ≠ 0 ∨ st.length ≠ 2)) := by
      rintro ⟨⟨hf, hlt⟩, -⟩
      rcases hov with h3 | h0
      · subst h3
        rcases hs with ⟨h, -⟩ | ⟨-, -, -, -, rfl⟩ | ⟨h, -⟩
        · omega
        · omega
        · omega
      · exact hf h0
    have hislow : u &&& 0x400 ≠ 0 := by
      intro h0
      have := (and_400_eq_zero_iff u).mp h0
      omega
    rw [if_neg (by unfold UNICODE_MAX; omega), if_neg hmin, if_pos ⟨by omega, by omega⟩,
      if_neg (not_not.mpr hban), if_pos hchk, if_pos ⟨hislow, he⟩]
  · intro hprev
    obtain ⟨h1, h2, h3⟩ := surrogate_inv_of_scan string length flags st hreach
    rcases hprev with h0 | ⟨hp1, hp2⟩
    · exact h2 h0
    · by_contra he
      have he1 : st.expect_low_surrogate = true := by simpa using he
      rcases (h3 he1).2 with e | e
      · exact hp1 e
      · exact hp2 e

/-- After the 2-byte sequence `C3 A9` the scan is at offset 2, at the low
surrogate `ED B0 80`. -/
theorem C4_low_surrogate_without_high_witness :
    utf8chk [0xC3, 0xA9, 0xED, 0xB0, 0x80] 5 UTF8CHK_CESU8
      = .ok ⟨UTF8CHK_ERR_SURROGATE_LOW, ((2 : Nat) : Int), 3⟩ :=
  (C4_low_surrogate_without_high [0xC3, 0xA9, 0xED, 0xB0, 0x80] 5 UTF8CHK_CESU8
    { p := 2, length := 3, expect_low_surrogate := false, u_cache := 0, n := 2, n_prev := 2 }
    3 0xDC00 (by decide) (by decide)
    (Reaches.step _ _ _ (by decide) rfl (Reaches.refl _)) (by decide) rfl (by decide)
    (Or.inl rfl)).1 rfl

/-- Claim C4 as stated fails: under CESU-8 flags the first sequence
`F0 8D B0 80` decodes to the low surrogate U+DC00 and has no high surrogate
before it, yet the result is `UTF8CHK_ERR_OVERLONG`, not
`UTF8CHK_ERR_SURROGATE_LOW`: the overlong check comes first. -/
theorem C4_overlong_low_surrogate_is_overlong :
    UTF8CHK_CESU8 &&& UTF8CHK_CHECK_SURROGATES ≠ 0 ∧
    UTF8CHK_CESU8 &&& UTF8CHK_BAN_SURROGATES = 0 ∧
    decode_seq [0xF0, 0x8D, 0xB0, 0x80] 0 = some (4, 0xDC00) ∧
    utf8chk [0xF0, 0x8D, 0xB0, 0x80] 4 UTF8CHK_CESU8 = .ok ⟨UTF8CHK_ERR_OVERLONG, 0, 4⟩ ∧
    utf8chk [0xF0, 0x8D, 0xB0, 0x80] 4 UTF8CHK_CESU8
      ≠ .ok ⟨UTF8CHK_ERR_SURROGATE_LOW, 0, 4⟩ :=
  ⟨by decide, by decide, rfl, rfl, by
    intro h
    have h1 : utf8chk [0xF0, 0x8D, 0xB0, 0x80] 4 UTF8CHK_CESU8
        = .ok ⟨UTF8CHK_ERR_OVERLONG, 0, 4⟩ := rfl
    rw [h1] at h
    simp at h⟩

/-- Claim C5 at the failing input: under CESU-8 flags, a high surrogate
followed by the ASCII byte `61` at the end of a 4-byte buffer gives
`UTF8CHK_ERR_SURROGATE_TRUNC` with offset 3 (the ASCII byte), and validating
the same buffer with explicit length 3 does not give `UTF8CHK_OK`. -/
theorem C5_restart_after_surrogate_trunc_fails :
    utf8chk [0xED, 0xA0, 0x81, 0x61] 4 UTF8CHK_CESU8
      = .ok ⟨UTF8CHK_ERR_SURROGATE_TRUNC, 3, 1⟩ ∧
    utf8chk [0xED, 0xA0, 0x81, 0x61] 3 UTF8CHK_CESU8
      = .ok ⟨UTF8CHK_ERR_SURROGATE_TRUNC, 0, 3⟩ :=
  ⟨rfl, rfl⟩

/-- Claim C6 at the failing input: with only `UTF8CHK_BAN_OVERLONG_EXCEPT_NULL`
set (so `UTF8CHK_CHECK_SURROGATES` clear), `A = C0 80` and `B = 41` both
validate, and `A ++ B` is reported as `UTF8CHK_ERR_OVERLONG`. -/
theorem C6_concatenation_of_valid_rejected :
    UTF8CHK_BAN_OVERLONG_EXCEPT_NULL &&& UTF8CHK_CHECK_SURROGATES = 0 ∧
    utf8chk [0xC0, 0x80] 2 UTF8CHK_BAN_OVERLONG_EXCEPT_NULL = .ok ⟨UTF8CHK_OK, 2, 0⟩ ∧
    utf8chk [0x41] 1 UTF8CHK_BAN_OVERLONG_EXCEPT_NULL = .ok ⟨UTF8CHK_OK, 1, 0⟩ ∧
    utf8chk ([0xC0, 0x80] ++ [0x41]) (2 + 1) UTF8CHK_BAN_OVERLONG_EXCEPT_NULL
      = .ok ⟨UTF8CHK_ERR_OVERLONG, 0, 2⟩ :=
  ⟨rfl, rfl, rfl, rfl⟩

/-- Claim C7: whenever `utf8chk` returns an error, the reported position
satisfies `0 ≤ offset ≤ N` and `offset + length ≤ N`, where `N` is the length
passed in; the back-pointing positions `p - n_prev` and `p - n` are computed
as integers here and never fall below 0. -/
theorem C7_error_position_within_length (string : List Byte) (N flags : Nat) (r : Result)
    (h : utf8chk string N flags = .ok r) (he : r.err ≠ UTF8CHK_OK) :
    0 ≤ r.error_at ∧ r.error_at ≤ (N : Int) ∧ r.error_at + (r.error_len : Int) ≤ (N : Int) := by
  refine utf8chk_loop_rule string flags (decide (N = UTF8CHK_CSTRING))
    (fun st => st.p + st.length = N ∧ st.n_prev ≤ st.p ∧ st.n = st.n_prev)
    (fun r => r.err ≠ UTF8CHK_OK →
      0 ≤ r.error_at ∧ r.error_at ≤ (N : Int) ∧ r.error_at + (r.error_len : Int) ≤ (N : Int))
    ?_ ?_ ?_ ?_ N _ ⟨by simp, le_refl _, rfl⟩ r h he
  · intro st ⟨h1, h2, h3⟩ _ hne
    unfold after_loop at hne ⊢
    split_ifs at hne ⊢
    · simp only
      omega
    · exact absurd rfl hne
  · intro st ⟨h1, h2, h3⟩ _ _ hne
    unfold after_loop at hne ⊢
    split_ifs at hne ⊢
    · simp only
      omega
    · exact absurd rfl hne
  · intro st r1 ⟨h1, h2, h3⟩ hl hb _
    obtain ⟨-, ⟨-, e1, e2, e3⟩ | ⟨-, -, e1, e2⟩⟩ := loop_body_ret _ _ _ _ _ hb hl
    · rw [e1]; omega
    · rw [e1, e2]; omega
  · intro st st1 ⟨h1, h2, h3⟩ hl hb
    obtain ⟨n, n1, n4, nl, ⟨a1, a2, a3, a4⟩, -, -⟩ := loop_body_next _ _ _ _ _ hb hl
    exact ⟨by omega, by omega, by omega⟩

/-- At an input where the position points back to the high surrogate. -/
theorem C7_error_position_within_length_witness :
    utf8chk [0xED, 0xA0, 0x81, 0xED, 0xB0] 5 UTF8CHK_CESU8
        = .ok ⟨UTF8CHK_ERR_SURROGATE_TRUNC, 0, 3⟩ ∧
      ((0 : Int) ≤ 0 ∧ (0 : Int) ≤ ((5 : Nat) : Int) ∧
        (0 : Int) + ((3 : Nat) : Int) ≤ ((5 : Nat) : Int)) :=
  ⟨rfl, C7_error_position_within_length [0xED, 0xA0, 0x81, 0xED, 0xB0] 5 UTF8CHK_CESU8
    ⟨UTF8CHK_ERR_SURROGATE_TRUNC, 0, 3⟩ rfl (by decide)⟩

/-- Claim C8: when `utf8chk` returns `UTF8CHK_OK` the error length is 0 and
the position is the end of the scan: the length `N` in explicit-length mode,
and in sentinel mode (for a buffer shorter than `SIZE_MAX` bytes) the index of
the first zero byte of the buffer. -/
theorem C8_ok_position_is_end_of_scan (string : List Byte) (length flags : Nat) (r : Result)
    (h : utf8chk string length flags = .ok r) (hok : r.err = UTF8CHK_OK) :
    r.error_len = 0 ∧
    (length ≠ UTF8CHK_CSTRING → r.error_at = (length : Int)) ∧
    (length = UTF8CHK_CSTRING → string.length < SIZE_MAX →
      ∃ k : Nat, r.error_at = (k : Int) ∧ string[k]? = some (0 : Byte) ∧
        ∀ j, j < k → ∃ b : Byte, string[j]? = some b ∧ b.val ≠ 0) := by
  refine utf8chk_loop_rule string flags (decide (length = UTF8CHK_CSTRING))
    (fun st => st.p + st.length = length ∧
      (length = UTF8CHK_CSTRING → ∀ j, j < st.p → ∃ b : Byte, string[j]? = some b ∧ b.val ≠ 0))
    (fun r => r.err = UTF8CHK_OK → r.error_len = 0 ∧
      (length ≠ UTF8CHK_CSTRING → r.error_at = (length : Int)) ∧
      (length = UTF8CHK_CSTRING → string.length < SIZE_MAX →
        ∃ k : Nat, r.error_at = (k : Int) ∧ string[k]? = some (0 : Byte) ∧
          ∀ j, j < k → ∃ b : Byte, string[j]? = some b ∧ b.val ≠ 0))
    ?_ ?_ ?_ ?_ length _ ⟨by simp, fun _ j hj => absurd hj (by simp)⟩ r h hok
  · intro st ⟨h1, h2⟩ h0 hok1
    unfold after_loop at hok1 ⊢
    split_ifs at hok1 ⊢
    refine ⟨rfl, fun _ => by simp only; omega, fun hc hfit => ?_⟩
    exfalso
    have hp : st.p = SIZE_MAX := by
      have : UTF8CHK_CSTRING = SIZE_MAX := rfl
      omega
    have hpos : 0 < SIZE_MAX := by decide
    obtain ⟨b, hb, -⟩ := h2 hc (st.p - 1) (by omega)
    have := (List.getElem?_eq_some.mp hb).1
    omega
  · intro st ⟨h1, h2⟩ h0 hb hok1
    obtain ⟨hnt, b, hb1, hb2⟩ := loop_body_brk _ _ _ _ hb
    have hc : length = UTF8CHK_CSTRING := by simpa using hnt
    unfold after_loop at hok1 ⊢
    split_ifs at hok1 ⊢
    refine ⟨rfl, fun hne => absurd hc hne, fun _ _ => ⟨st.p, rfl, ?_, h2 hc⟩⟩
    rw [hb1]
    congr 1
    exact Fin.ext hb2
  · intro st r1 _ hl hb hok1
    exact absurd hok1 (loop_body_ret _ _ _ _ _ hb hl).1
  · intro st st1 ⟨h1, h2⟩ hl hb
    obtain ⟨n, n1, n4, nl, ⟨a1, a2, a3, a4⟩, hbytes, -⟩ := loop_body_next _ _ _ _ _ hb hl
    refine ⟨by omega, fun hc j hj => ?_⟩
    by_cases hjp : j < st.p
    · exact h2 hc j hjp
    · obtain ⟨b, hb1, hb2⟩ := hbytes (j - st.p) (by omega)
      have e : st.p + (j - st.p) = j := by omega
      rw [e] at hb1
      exact ⟨b, hb1, hb2 (by simpa using hc)⟩

/-- In sentinel mode on `"foo"` followed by a zero and one more byte the
position is index 3, the first zero; with explicit length 2 on `"bar"` it is
2. -/
theorem C8_ok_position_is_end_of_scan_witness :
    (utf8chk [0x66, 0x6F, 0x6F, 0x00, 0x41] UTF8CHK_CSTRING UTF8CHK_UTF8
        = .ok ⟨UTF8CHK_OK, 3, 0⟩ ∧
      ∃ k : Nat, (3 : Int) = (k : Int) ∧
        ([0x66, 0x6F, 0x6F, 0x00, 0x41] : List Byte)[k]? = some (0 : Byte) ∧
        ∀ j, j < k → ∃ b : Byte,
          ([0x66, 0x6F, 0x6F, 0x00, 0x41] : List Byte)[j]? = some b ∧ b.val ≠ 0) ∧
    (utf8chk [0x62, 0x61, 0x72] 2 UTF8CHK_UTF8 = .ok ⟨UTF8CHK_OK, 2, 0⟩ ∧
      (2 : Int) = ((2 : Nat) : Int)) :=
  ⟨⟨rfl, (C8_ok_position_is_end_of_scan [0x66, 0x6F, 0x6F, 0x00, 0x41] UTF8CHK_CSTRING
      UTF8CHK_UTF8 ⟨UTF8CHK_OK, 3, 0⟩ rfl rfl).2.2 rfl (by decide)⟩,
    ⟨rfl, (C8_ok_position_is_end_of_scan [0x62, 0x61, 0x72] 2 UTF8CHK_UTF8
      ⟨UTF8CHK_OK, 2, 0⟩ rfl rfl).2.1 (by decide)⟩⟩

/-- Claim C9 at the failing input: the first zero byte of `C0 80 00` is at
index 2; under MUTF-8 flags the sentinel-mode call reports
`UTF8CHK_ERR_OVERLONG` while the call with explicit length 2 returns
`UTF8CHK_OK`. -/
theorem C9_length_modes_disagree :
    utf8chk [0xC0, 0x80, 0x00] UTF8CHK_CSTRING UTF8CHK_MUTF8
      = .ok ⟨UTF8CHK_ERR_OVERLONG, 0, 2⟩ ∧
    utf8chk [0xC0, 0x80, 0x00] 2 UTF8CHK_MUTF8 = .ok ⟨UTF8CHK_OK, 2, 0⟩ :=
  ⟨rfl, rfl⟩

/-- Claim C10, as amended: whenever `utf8chk` returns `SURROGATE_TRUNC`,
`SURROGATE_TRUNC2` or `SURROGATE_TRUNC3` with a reported length other than 1,
the reported offset is the first byte of a complete sequence that decodes to
a high surrogate (U+D800..U+DBFF) and the reported length is the length of
that sequence: 3, or 4 (an overlong 4-byte form) when neither
`UTF8CHK_BAN_OVERLONG` nor `UTF8CHK_BAN_OVERLONG_EXCEPT_NULL` is set. -/
theorem C10_surrogate_trunc_position (string : List Byte) (length flags : Nat) (r : Result)
    (h : utf8chk string length flags = .ok r) (ht : is_surrogate_trunc r.err = true)
    (hlen : r.error_len ≠ 1) :
    ∃ off : Nat, r.error_at = (off : Int) ∧ high_surrogate_at string off r.error_len ∧
      (r.error_len = 3 ∨ (r.error_len = 4 ∧
        flags &&& (UTF8CHK_BAN_OVERLONG ||| UTF8CHK_BAN_OVERLONG_EXCEPT_NULL) = 0)) := by
  refine utf8chk_loop_rule string flags (decide (length = UTF8CHK_CSTRING))
    (fun st => st.n = st.n_prev ∧ st.n_prev ≤ st.p ∧
      (st.expect_low_surrogate = true → flags &&& UTF8CHK_CHECK_SURROGATES ≠ 0 ∧
        (st.n_prev = 1 ∨ (high_surrogate_at string (st.p - st.n_prev) st.n_prev ∧
          (st.n_prev = 3 ∨ (st.n_prev = 4 ∧
            flags &&& (UTF8CHK_BAN_OVERLONG ||| UTF8CHK_BAN_OVERLONG_EXCEPT_NULL) = 0))))))
    (fun r => is_surrogate_trunc r.err = true → r.error_len ≠ 1 →
      ∃ off : Nat, r.error_at = (off : Int) ∧ high_surrogate_at string off r.error_len ∧
        (r.error_len = 3 ∨ (r.error_len = 4 ∧
          flags &&& (UTF8CHK_BAN_OVERLONG ||| UTF8CHK_BAN_OVERLONG_EXCEPT_NULL) = 0)))
    ?_ ?_ ?_ ?_ length _ ⟨rfl, le_refl _, fun he => by simp at he⟩ r h ht hlen
  · intro st ⟨h1, h2, h3⟩ _ ht1 hl1
    unfold after_loop at ht1 hl1 ⊢
    split_ifs at ht1 hl1 ⊢ with hc
    · simp only at hl1 ⊢
      rw [h1] at hl1 ⊢
      rcases (h3 hc.2).2 with e | ⟨e1, e2⟩
      · exact absurd e hl1
      · exact ⟨st.p - st.n_prev, by omega, e1, e2⟩
    · simp [is_surrogate_trunc] at ht1
  · intro st ⟨h1, h2, h3⟩ _ _ ht1 hl1
    unfold after_loop at ht1 hl1 ⊢
    split_ifs at ht1 hl1 ⊢ with hc
    · simp only at hl1 ⊢
      rw [h1] at hl1 ⊢
      rcases (h3 hc.2).2 with e | ⟨e1, e2⟩
      · exact absurd e hl1
      · exact ⟨st.p - st.n_prev, by omega, e1, e2⟩
    · simp [is_surrogate_trunc] at ht1
  · intro st r1 ⟨h1, h2, h3⟩ hl hb ht1 hl1
    obtain ⟨-, ⟨e0, -⟩ | ⟨-, he, e1, e2⟩⟩ := loop_body_ret _ _ _ _ _ hb hl
    · rw [e0] at ht1
      exact absurd ht1 (by decide)
    · rw [e2] at hl1 ⊢
      rcases (h3 he).2 with e | ⟨e3, e4⟩
      · exact absurd e hl1
      · exact ⟨st.p - st.n_prev, by rw [e1]; omega, e3, e4⟩
  · intro st st1 ⟨h1, h2, h3⟩ hl hb
    obtain ⟨n, n1, n4, nl, ⟨a1, a2, a3, a4⟩, -, hexp⟩ := loop_body_next _ _ _ _ _ hb hl
    refine ⟨by omega, by omega, fun he => ?_⟩
    rcases hexp he with ⟨e1, e2⟩ | ⟨e1, -, e3, e4⟩
    · refine ⟨(h3 e1).1, ?_⟩
      rcases e2 with e2 | e2
      · left; omega
      · exact absurd e2 (h3 e1).1
    · refine ⟨e1, Or.inr ?_⟩
      have e : st1.p - st1.n_prev = st.p := by omega
      rw [e, a4]
      exact ⟨e3, e4⟩

/-- At the test input "Low surrogate truncated by two bytes". -/
theorem C10_surrogate_trunc_position_witness :
    utf8chk [0xED, 0xA0, 0x81, 0xED] 4 UTF8CHK_CESU8
        = .ok ⟨UTF8CHK_ERR_SURROGATE_TRUNC2, 0, 3⟩ ∧
      ∃ off : Nat, (0 : Int) = (off : Int) ∧
        high_surrogate_at [0xED, 0xA0, 0x81, 0xED] off 3 ∧
        ((3 : Nat) = 3 ∨ ((3 : Nat) = 4 ∧
          UTF8CHK_CESU8 &&& (UTF8CHK_BAN_OVERLONG ||| UTF8CHK_BAN_OVERLONG_EXCEPT_NULL) = 0)) :=
  ⟨rfl, C10_surrogate_trunc_position [0xED, 0xA0, 0x81, 0xED] 4 UTF8CHK_CESU8
    ⟨UTF8CHK_ERR_SURROGATE_TRUNC2, 0, 3⟩ rfl rfl (by decide)⟩

/-- Claim C10 as stated fails: with only `UTF8CHK_CHECK_SURROGATES` set the
overlong form `F0 8D A0 80` of U+D800 is taken as a high surrogate, and the
reported length of the orphaned high surrogate is 4, not 3. -/
theorem C10_length_not_always_three :
    utf8chk [0xF0, 0x8D, 0xA0, 0x80] 4 UTF8CHK_CHECK_SURROGATES
        = .ok ⟨UTF8CHK_ERR_SURROGATE_TRUNC, 0, 4⟩ ∧
      decode_seq [0xF0, 0x8D, 0xA0, 0x80] 0 = some (4, 0xD800) ∧
      ¬ ((⟨UTF8CHK_ERR_SURROGATE_TRUNC, 0, 4⟩ : Result).error_len = 3) :=
  ⟨rfl, rfl, by decide⟩

/-- Claim C11: when the scan, with `expect_low_surrogate` clear (no pending
high surrogate), reaches at the cursor a start byte signalling an `n`-byte
sequence, `n` in 2..4, and only `r < n` bytes remain (`r` is the remaining
`length`), `utf8chk` returns `UTF8CHK_ERR_TRUNC` if `n - r = 1`,
`UTF8CHK_ERR_TRUNC2` if `n - r = 2`, `UTF8CHK_ERR_TRUNC3` if `n - r = 3`, with
offset the cursor and length `r`, whatever the bytes after the start byte
are. -/
theorem C11_explicit_length_truncation (string : List Byte) (length flags : Nat) (st : State)
    (b : Byte) (n : Nat) (hreach : scan_reaches string length flags st) (hl : st.length ≠ 0)
    (he : st.expect_low_surrogate = false) (hget : string[st.p]? = some b)
    (hn : signalled_length b.val = n) (h2 : 2 ≤ n) (hr : st.length < n) :
    ∃ e, utf8chk string length flags = .ok ⟨e, st.p, st.length⟩ ∧
      (n - st.length = 1 → e = UTF8CHK_ERR_TRUNC) ∧
      (n - st.length = 2 → e = UTF8CHK_ERR_TRUNC2) ∧
      (n - st.length = 3 → e = UTF8CHK_ERR_TRUNC3) := by
  obtain ⟨u0, u_min, hs⟩ := start_byte_of_signalled_length b.val n hn h2
  have hn4 := (signalled_length_of_start_byte _ _ _ _ hs).2.2
  have hb := loop_body_truncated string flags (decide (length = UTF8CHK_CSTRING)) st b n u0
    u_min hget hs hr
  rw [if_neg (by rw [he]; decide)] at hb
  have hmod : st.length % 2 ^ 32 = st.length := Nat.mod_eq_of_lt (by omega)
  rw [hmod] at hb
  refine ⟨_, utf8chk_of_scan_ret string length flags st _ hreach hl hb, ?_, ?_, ?_⟩
  · intro h; rw [h]; rfl
  · intro h; rw [h]; rfl
  · intro h; rw [h]; rfl

/-- After the ASCII byte `61` the scan is at offset 1, at the start byte `E2`
of a 3-byte sequence with 2 bytes remaining. -/
theorem C11_explicit_length_truncation_witness :
    ∃ e, utf8chk [0x61, 0xE2, 0x41] 3 UTF8CHK_UTF8 = .ok ⟨e, ((1 : Nat) : Int), 2⟩ ∧
      (3 - 2 = 1 → e = UTF8CHK_ERR_TRUNC) ∧
      (3 - 2 = 2 → e = UTF8CHK_ERR_TRUNC2) ∧
      (3 - 2 = 3 → e = UTF8CHK_ERR_TRUNC3) :=
  C11_explicit_length_truncation [0x61, 0xE2, 0x41] 3 UTF8CHK_UTF8
    { p := 1, length := 2, expect_low_surrogate := false, u_cache := 0, n := 1, n_prev := 1 }
    0xE2 3 (Reaches.step _ _ _ (by decide) rfl (Reaches.refl _)) (by decide) rfl rfl
    (by decide) (by decide) (by decide)

/-- Claim C12: when at least `n` bytes remain at an `n`-byte start byte at the
cursor, and the first following byte that is not of the form `10xxxxxx` is at
index `i`, `1 ≤ i < n`, and is not a zero byte in sentinel mode, `utf8chk`
returns `UTF8CHK_ERR_EXPECTED_CONT` if `n - i = 1`, `..._CONT2` if
`n - i = 2`, `..._CONT3` if `n - i = 3`, with offset the cursor and length
`i`; nothing is assumed about `expect_low_surrogate`. -/
theorem C12_expected_continuation (string : List Byte) (length flags : Nat) (st : State)
    (b c : Byte) (n i : Nat) (hreach : scan_reaches string length flags st)
    (hget : string[st.p]? = some b) (hn : signalled_length b.val = n) (h2 : 2 ≤ n)
    (hfit : n ≤ st.length) (hi1 : 1 ≤ i) (hin : i < n)
    (hcont : ∀ j, 1 ≤ j → j < i →
      ∃ x : Byte, string[st.p + j]? = some x ∧ 0x80 ≤ x.val ∧ x.val < 0xC0)
    (hc : string[st.p + i]? = some c) (hnc : ¬ (0x80 ≤ c.val ∧ c.val < 0xC0))
    (hz : ¬ (c.val = 0 ∧ length = UTF8CHK_CSTRING)) :
    ∃ e, utf8chk string length flags = .ok ⟨e, st.p, i⟩ ∧
      (n - i = 1 → e = UTF8CHK_ERR_EXPECTED_CONT) ∧
      (n - i = 2 → e = UTF8CHK_ERR_EXPECTED_CONT2) ∧
      (n - i = 3 → e = UTF8CHK_ERR_EXPECTED_CONT3) := by
  have hb := loop_body_broken_sequence string flags (decide (length = UTF8CHK_CSTRING)) st b c
    n i hget hn h2 hfit hi1 hin hcont hc hnc
  rw [if_neg (fun h => hz ⟨h.1, by simpa using h.2⟩)] at hb
  refine ⟨_, utf8chk_of_scan_ret string length flags st _ hreach (by omega) hb, ?_, ?_, ?_⟩
  · intro h; rw [h]; rfl
  · intro h; rw [h]; rfl
  · intro h; rw [h]; rfl

/-- A high surrogate is pending at offset 3, where `F0 90 62 62` breaks at
index 2. -/
theorem C12_expected_continuation_witness :
    ∃ e, utf8chk [0xED, 0xA0, 0x81, 0xF0, 0x90, 0x62, 0x62] 7 UTF8CHK_CESU8
        = .ok ⟨e, ((3 : Nat) : Int), 2⟩ ∧
      (4 - 2 = 1 → e = UTF8CHK_ERR_EXPECTED_CONT) ∧
      (4 - 2 = 2 → e = UTF8CHK_ERR_EXPECTED_CONT2) ∧
      (4 - 2 = 3 → e = UTF8CHK_ERR_EXPECTED_CONT3) :=
  C12_expected_continuation [0xED, 0xA0, 0x81, 0xF0, 0x90, 0x62, 0x62] 7 UTF8CHK_CESU8
    { p := 3, length := 4, expect_low_surrogate := true, u_cache := 0x10400, n := 3,
      n_prev := 3 }
    0xF0 0x62 4 2 (Reaches.step _ _ _ (by decide) rfl (Reaches.refl _)) rfl rfl (by decide)
    (by decide) (by decide) (by decide)
    (fun j h1 h2 => by
      have hj : j = 1 := by omega
      subst hj
      exact ⟨0x90, rfl, by decide, by decide⟩)
    rfl (by decide) (by decide)

/-- Claim C13: in sentinel mode (on a buffer of at most `SIZE_MAX - 3` bytes),
when the zero terminator is met at index `i`, `1 ≤ i < n`, of an `n`-byte
sequence starting at the cursor, after `i - 1` bytes of the form `10xxxxxx`,
`utf8chk` reports truncation: with `expect_low_surrogate` clear it returns
`UTF8CHK_ERR_TRUNC`, `..._TRUNC2` or `..._TRUNC3` selected by `n - i`, with
offset the cursor and length `i`; with `expect_low_surrogate` set it returns
`UTF8CHK_ERR_SURROGATE_TRUNC`, `..._TRUNC2` or `..._TRUNC3` selected by
`n - i`, with offset `cursor - n_prev` and length `n_prev`. -/
theorem C13_sentinel_truncation (string : List Byte) (flags : Nat) (st : State)
    (b : Byte) (n i : Nat) (hreach : scan_reaches string UTF8CHK_CSTRING flags st)
    (hsize : string.length + 3 ≤ SIZE_MAX)
    (hget : string[st.p]? = some b) (hn : signalled_length b.val = n) (h2 : 2 ≤ n)
    (hi1 : 1 ≤ i) (hin : i < n)
    (hcont : ∀ j, 1 ≤ j → j < i →
      ∃ x : Byte, string[st.p + j]? = some x ∧ 0x80 ≤ x.val ∧ x.val < 0xC0)
    (hz : string[st.p + i]? = some (0 : Byte)) :
    (st.expect_low_surrogate = false →
      ∃ e, utf8chk string UTF8CHK_CSTRING flags = .ok ⟨e, st.p, i⟩ ∧
        (n - i = 1 → e = UTF8CHK_ERR_TRUNC) ∧
        (n - i = 2 → e = UTF8CHK_ERR_TRUNC2) ∧
        (n - i = 3 → e = UTF8CHK_ERR_TRUNC3)) ∧
    (st.expect_low_surrogate = true →
      ∃ e, utf8chk string UTF8CHK_CSTRING flags
          = .ok ⟨e, (st.p : Int) - (st.n_prev : Int), st.n_prev⟩ ∧
        (n - i = 1 → e = UTF8CHK_ERR_SURROGATE_TRUNC) ∧
        (n - i = 2 → e = UTF8CHK_ERR_SURROGATE_TRUNC2) ∧
        (n - i = 3 → e = UTF8CHK_ERR_SURROGATE_TRUNC3)) := by
  obtain ⟨u0, u_min, hs⟩ := start_byte_of_signalled_length b.val n hn h2
  have hn4 := (signalled_length_of_start_byte _ _ _ _ hs).2.2
  have hpos := (scan_reaches_position string UTF8CHK_CSTRING flags st hreach).1
  have hplt := (List.getElem?_eq_some.mp hget).1
  have hcs : UTF8CHK_CSTRING = SIZE_MAX := rfl
  have hfit : n ≤ st.length := by omega
  have hb := loop_body_broken_sequence string flags (decide (UTF8CHK_CSTRING = UTF8CHK_CSTRING))
    st b 0 n i hget hn h2 hfit hi1 hin hcont hz (by decide)
  rw [if_pos ⟨rfl, by simp⟩] at hb
  constructor
  · intro he
    rw [if_neg (by rw [he]; decide)] at hb
    refine ⟨_, utf8chk_of_scan_ret string _ flags st _ hreach (by omega) hb, ?_, ?_, ?_⟩
    · intro h; rw [h]; rfl
    · intro h; rw [h]; rfl
    · intro h; rw [h]; rfl
  · intro he
    rw [if_pos he] at hb
    refine ⟨_, utf8chk_of_scan_ret string _ flags st _ hreach (by omega) hb, ?_, ?_, ?_⟩
    · intro h; rw [h]; rfl
    · intro h; rw [h]; rfl
    · intro h; rw [h]; rfl

/-- In sentinel mode: `E2 82` then the terminator, and the same after a high
surrogate. -/
theorem C13_sentinel_truncation_witness :
    (∃ e, utf8chk [0xE2, 0x82, 0x00] UTF8CHK_CSTRING UTF8CHK_UTF8
        = .ok ⟨e, ((0 : Nat) : Int), 2⟩ ∧
      (3 - 2 = 1 → e = UTF8CHK_ERR_TRUNC) ∧
      (3 - 2 = 2 → e = UTF8CHK_ERR_TRUNC2) ∧
      (3 - 2 = 3 → e = UTF8CHK_ERR_TRUNC3)) ∧
    (∃ e, utf8chk [0xED, 0xA0, 0x81, 0xED, 0x00] UTF8CHK_CSTRING UTF8CHK_CESU8
        = .ok ⟨e, ((3 : Nat) : Int) - ((3 : Nat) : Int), 3⟩ ∧
      (3 - 1 = 1 → e = UTF8CHK_ERR_SURROGATE_TRUNC) ∧
      (3 - 1 = 2 → e = UTF8CHK_ERR_SURROGATE_TRUNC2) ∧
      (3 - 1 = 3 → e = UTF8CHK_ERR_SURROGATE_TRUNC3)) :=
  ⟨(C13_sentinel_truncation [0xE2, 0x82, 0x00] UTF8CHK_UTF8
      { p := 0, length := UTF8CHK_CSTRING, expect_low_surrogate := false, u_cache := 0, n := 0,
        n_prev := 0 }
      0xE2 3 2 (Reaches.refl _) (by decide) rfl rfl (by decide) (by decide) (by decide)
      (fun j h1 h2 => by
        have hj : j = 1 := by omega
        subst hj
        exact ⟨0x82, rfl, by decide, by decide⟩)
      rfl).1 rfl,
    (C13_sentinel_truncation [0xED, 0xA0, 0x81, 0xED, 0x00] UTF8CHK_CESU8
      { p := 3, length := UTF8CHK_CSTRING - 3, expect_low_surrogate := true, u_cache := 0x10400,
        n := 3, n_prev := 3 }
      0xED 3 1 (Reaches.step _ _ _ (by decide) rfl (Reaches.refl _)) (by decide) rfl rfl
      (by decide) (by decide) (by decide)
      (fun j h1 h2 => by omega)
      rfl).2 rfl⟩

/-- Claim C14: under `UTF8CHK_LAX` (no flags) and an explicit length `N`
within the buffer, when the first `N` bytes are a concatenation of sequences,
each a start byte in 0x00..0xF7 followed by exactly the continuation bytes
(0x80..0xBF) it signals, with a code point of at most U+10FFFF, `utf8chk`
returns `UTF8CHK_OK` at offset `N`: overlong forms, surrogates, noncharacters
and zero bytes are accepted. -/
theorem C14_lax_accepts_structural (string : List Byte) (N : Nat) (seqs : List (List Nat))
    (hN : N ≤ string.length) (hx : N ≠ UTF8CHK_CSTRING)
    (hseqs : ∀ s ∈ seqs, lax_sequence s)
    (hbuf : (string.take N).map Fin.val = seqs.flatten) :
    utf8chk string N UTF8CHK_LAX = .ok ⟨UTF8CHK_OK, N, 0⟩ := by
  have hd : decide (N = UTF8CHK_CSTRING) = false := decide_eq_false hx
  have hlenN : seqs.flatten.length = N := by
    rw [← hbuf, List.length_map, List.length_take]
    omega
  obtain ⟨st1, hr, h1, h2, h3⟩ := reaches_of_sequences string UTF8CHK_LAX false lax_sequence
    (fun st s hs he hlen hb => loop_body_lax string st s hs he hlen hb) seqs
    { p := 0, length := N, expect_low_surrogate := false, u_cache := 0, n := 0, n_prev := 0 }
    [] hseqs rfl (by show 0 + N ≤ string.length; omega)
    (by rw [List.append_nil, ← hbuf]; exact (take_map_val_eq_bytes_from string N).symm)
  have hreach : scan_reaches string N UTF8CHK_LAX st1 := by
    unfold scan_reaches
    rw [hd]
    exact hr
  have hl0 : st1.length = 0 := by
    rw [h2, hlenN]
    show N - N = 0
    omega
  rw [utf8chk_of_scan_end string N UTF8CHK_LAX st1 hreach hl0, after_loop_expect_clear _ _ h3,
    h1, hlenN]
  show Except.ok (⟨UTF8CHK_OK, ((0 + N : Nat) : Int), 0⟩ : Result) = _
  rw [Nat.zero_add]

/-- The buffer `00 C0 80 ED A0 80 EF BF BF F4 8F BF BF`: a zero byte, an
overlong form, a surrogate, a noncharacter and U+10FFFF. -/
theorem C14_lax_accepts_structural_witness :
    utf8chk [0x00, 0xC0, 0x80, 0xED, 0xA0, 0x80, 0xEF, 0xBF, 0xBF, 0xF4, 0x8F, 0xBF, 0xBF] 13
      UTF8CHK_LAX = .ok ⟨UTF8CHK_OK, 13, 0⟩ :=
  C14_lax_accepts_structural
    [0x00, 0xC0, 0x80, 0xED, 0xA0, 0x80, 0xEF, 0xBF, 0xBF, 0xF4, 0x8F, 0xBF, 0xBF] 13
    [[0x00], [0xC0, 0x80], [0xED, 0xA0, 0x80], [0xEF, 0xBF, 0xBF], [0xF4, 0x8F, 0xBF, 0xBF]]
    (by decide) (by decide)
    (by
      intro s hs
      simp only [List.mem_cons, List.mem_singleton, List.not_mem_nil, or_false] at hs
      rcases hs with rfl | rfl | rfl | rfl | rfl
      · exact ⟨Or.inl ⟨_, rfl, by decide⟩, by decide⟩
      · exact ⟨Or.inr (Or.inl ⟨_, _, rfl, by decide, by decide, by decide, by decide⟩),
          by decide⟩
      · exact ⟨Or.inr (Or.inr (Or.inl ⟨_, _, _, rfl, by decide, by decide,
          ⟨by decide, by decide⟩, ⟨by decide, by decide⟩⟩)), by decide⟩
      · exact ⟨Or.inr (Or.inr (Or.inl ⟨_, _, _, rfl, by decide, by decide,
          ⟨by decide, by decide⟩, ⟨by decide, by decide⟩⟩)), by decide⟩
      · exact ⟨Or.inr (Or.inr (Or.inr ⟨_, _, _, _, rfl, by decide, by decide,
          ⟨by decide, by decide⟩, ⟨by decide, by decide⟩, ⟨by decide, by decide⟩⟩)),
          by decide⟩)
    rfl

/-- Claim C15: for every buffer and explicit length `N` within it, with flags
`UTF8CHK_UTF8 ||| UTF8CHK_BAN_NONCHARACTERS`: `utf8chk` returns `UTF8CHK_OK`
if and only if the first `N` bytes are the concatenation of the shortest-form
encodings of Unicode scalar values none of which is a noncharacter
(U+FDD0..U+FDEF, U+nFFFE, U+nFFFF for n = 0..16); and when the bytes are such
a concatenation followed by the encoding of a noncharacter `x` (and anything
after it), `utf8chk` returns `UTF8CHK_ERR_NONCHARACTER` with offset at the
first byte of that encoding and length its sequence length, while under
`UTF8CHK_UTF8` alone the same buffer is accepted when what follows `x` is
well-formed. -/
theorem C15_noncharacters (string : List Byte) (N : Nat) (hN : N ≤ string.length)
    (hx : N ≠ UTF8CHK_CSTRING) :
    ((∃ r, utf8chk string N (UTF8CHK_UTF8 ||| UTF8CHK_BAN_NONCHARACTERS) = .ok r ∧
        r.err = UTF8CHK_OK) ↔
      ∃ us : List Nat, (∀ u ∈ us, is_scalar_value u ∧ ¬ is_noncharacter u) ∧
        (string.take N).map Fin.val = (us.map utf8_encode).flatten) ∧
    (∀ (us : List Nat) (x : Nat) (rest : List Nat),
      (∀ u ∈ us, is_scalar_value u ∧ ¬ is_noncharacter u) → is_noncharacter x →
      (string.take N).map Fin.val = (us.map utf8_encode).flatten ++ utf8_encode x ++ rest →
      utf8chk string N (UTF8CHK_UTF8 ||| UTF8CHK_BAN_NONCHARACTERS)
        = .ok ⟨UTF8CHK_ERR_NONCHARACTER, (((us.map utf8_encode).flatten.length : Nat) : Int),
            (utf8_encode x).length⟩ ∧
      (well_formed_utf8 rest →
        ∃ r, utf8chk string N UTF8CHK_UTF8 = .ok r ∧ r.err = UTF8CHK_OK)) := by
  have hd : decide (N = UTF8CHK_CSTRING) = false := decide_eq_false hx
  have key := utf8chk_loop_utf8_iff string N
    { p := 0, length := N, expect_low_surrogate := false, u_cache := 0, n := 0, n_prev := 0 }
    rfl (by show 0 + N ≤ string.length; omega) (le_refl _)
  have hbf : bytes_from string 0 N = (string.take N).map Fin.val :=
    (take_map_val_eq_bytes_from string N).symm
  refine ⟨⟨?_, ?_⟩, ?_⟩
  · rintro ⟨r, hr, hok⟩
    have hr0 := hr
    unfold utf8chk at hr
    rw [hd] at hr
    obtain ⟨us, hus, hbytes⟩ := key.mp (utf8chk_loop_utf8_of_nonchar_ok string N _ ⟨r, hr, hok⟩)
    refine ⟨us, fun u hu => ⟨hus u hu, fun hnc => ?_⟩, by rw [← hbf]; exact hbytes⟩
    obtain ⟨pre, x, post, e, hpre, hxn⟩ := exists_first_of_exists is_noncharacter us ⟨u, hu, hnc⟩
    have hbuf : (string.take N).map Fin.val
        = (pre.map utf8_encode).flatten ++ utf8_encode x ++ (post.map utf8_encode).flatten := by
      rw [← hbf]
      show bytes_from string 0 N = _
      have hb2 : bytes_from string 0 N = (us.map utf8_encode).flatten := hbytes
      rw [hb2, e, List.map_append, List.flatten_append, List.map_cons, List.flatten_cons,
        List.append_assoc]
    have hres := utf8chk_first_noncharacter string N hN hx pre x _
      (fun y hy => ⟨hus y (by rw [e]; exact List.mem_append_left _ hy), hpre y hy⟩) hxn hbuf
    rw [hres] at hr0
    simp only [Except.ok.injEq] at hr0
    rw [← hr0] at hok
    exact absurd hok (by simp)
  · rintro ⟨us, hus, hbuf⟩
    obtain ⟨st1, hr, h1, h2, h3⟩ := reaches_of_sequences string
      (UTF8CHK_UTF8 ||| UTF8CHK_BAN_NONCHARACTERS) false
      (fun s => ∃ u, (is_scalar_value u ∧ ¬ is_noncharacter u) ∧ s = utf8_encode u)
      (fun st s hs he hlen hb => loop_body_utf8_nonchar_accept string st s hs he hlen hb)
      (us.map utf8_encode)
      { p := 0, length := N, expect_low_surrogate := false, u_cache := 0, n := 0, n_prev := 0 }
      []
      (fun s hs => by
        obtain ⟨u, hu, rfl⟩ := List.mem_map.mp hs
        exact ⟨u, hus u hu, rfl⟩)
      rfl (by show 0 + N ≤ string.length; omega)
      (by rw [List.append_nil, hbf, hbuf])
    have hlenN : (us.map utf8_encode).flatten.length = N := by
      rw [← hbuf, List.length_map, List.length_take]
      omega
    have hreach : scan_reaches string N (UTF8CHK_UTF8 ||| UTF8CHK_BAN_NONCHARACTERS) st1 := by
      unfold scan_reaches
      rw [hd]
      exact hr
    have hl0 : st1.length = 0 := by
      rw [h2, hlenN]
      show N - N = 0
      omega
    refine ⟨_, utf8chk_of_scan_end string N _ st1 hreach hl0, ?_⟩
    rw [after_loop_expect_clear _ _ h3]
  · intro us x rest hus hxn hbuf
    refine ⟨utf8chk_first_noncharacter string N hN hx us x rest hus hxn hbuf, fun hwf => ?_⟩
    unfold utf8chk
    rw [hd]
    apply key.mpr
    obtain ⟨vs, hvs, hrest⟩ := hwf
    refine ⟨us ++ x :: vs, ?_, ?_⟩
    · intro y hy
      rcases List.mem_append.mp hy with hy | hy
      · exact (hus y hy).1
      · rcases List.mem_cons.mp hy with rfl | hy
        · exact (is_noncharacter_scalar _ hxn).1
        · exact hvs y hy
    · show bytes_from string 0 N = _
      rw [hbf, hbuf, hrest, List.map_append, List.flatten_append, List.map_cons,
        List.flatten_cons, List.append_assoc]

/-- The buffer `41 EF B7 90`: the letter A, then U+FDD0. -/
theorem C15_noncharacters_witness :
    utf8chk [0x41, 0xEF, 0xB7, 0x90] 4 (UTF8CHK_UTF8 ||| UTF8CHK_BAN_NONCHARACTERS)
        = .ok ⟨UTF8CHK_ERR_NONCHARACTER,
            (((([0x41] : List Nat).map utf8_encode).flatten.length : Nat) : Int),
            (utf8_encode 0xFDD0).length⟩ ∧
      (well_formed_utf8 [] →
        ∃ r, utf8chk [0x41, 0xEF, 0xB7, 0x90] 4 UTF8CHK_UTF8 = .ok r ∧ r.err = UTF8CHK_OK) :=
  (C15_noncharacters [0x41, 0xEF, 0xB7, 0x90] 4 (by decide) (by decide)).2 [0x41] 0xFDD0 []
    (fun u hu => by
      have e : u = 0x41 := by simpa using hu
      subst e
      exact ⟨Or.inl (by decide), fun h => by
        have := (is_noncharacter_iff 0x41 (by decide)).mp h
        omega⟩)
    (Or.inl ⟨by decide, by decide⟩) rfl

/-- Claim C16, as amended: with `UTF8CHK_CHECK_SURROGATES` and
`UTF8CHK_BAN_NONCHARACTERS` set and `UTF8CHK_BAN_SURROGATES` clear, when the
scan reaches, with `expect_low_surrogate` clear, a 3-byte sequence decoding to
a high surrogate `H` immediately followed by a sequence of `nL` bytes
decoding to a low surrogate `L` (both within the remaining length, the second
passing the overlong check: 3 bytes, or 4 bytes when no overlong flag is
set), the scan comes to the low surrogate in a state `stL` where the code
point handed to the noncharacter check is `u_cache ||| (L &&& 0x3FF)`, which
equals the UTF-16 decoding `0x10000 + ((H - 0xD800) <<< 10) + (L - 0xDC00)`;
and `utf8chk` returns `UTF8CHK_ERR_NONCHARACTER` with the offset and length of
the low surrogate's sequence exactly when that code point is U+nFFFE or
U+nFFFF. -/
theorem C16_noncharacter_across_surrogate_pair (string : List Byte) (length flags : Nat)
    (st : State) (H L nL : Nat)
    (hchk : flags &&& UTF8CHK_CHECK_SURROGATES ≠ 0)
    (hnc : flags &&& UTF8CHK_BAN_NONCHARACTERS ≠ 0)
    (hban : flags &&& UTF8CHK_BAN_SURROGATES = 0)
    (hreach : scan_reaches string length flags st) (he : st.expect_low_surrogate = false)
    (hH : decode_seq string st.p = some (3, H)) (h1 : 0xD800 ≤ H) (h2 : H ≤ 0xDBFF)
    (hL : decode_seq string (st.p + 3) = some (nL, L)) (l1 : 0xDC00 ≤ L) (l2 : L ≤ 0xDFFF)
    (hlen : 3 + nL ≤ st.length)
    (hov : nL = 3 ∨ flags &&& (UTF8CHK_BAN_OVERLONG ||| UTF8CHK_BAN_OVERLONG_EXCEPT_NULL) = 0) :
    ∃ stL : State, scan_reaches string length flags stL ∧ stL.p = st.p + 3 ∧
      stL.u_cache ||| (L &&& 0x3FF) = utf16_decode H L ∧
      loop_body string flags (decide (length = UTF8CHK_CSTRING)) stL =
        noncharacter_check flags { stL with expect_low_surrogate := false } nL
          (stL.u_cache ||| (L &&& 0x3FF)) ∧
      (utf8chk string length flags
          = .ok ⟨UTF8CHK_ERR_NONCHARACTER, ((st.p + 3 : Nat) : Int), nL⟩ ↔
        (utf16_decode H L % 0x10000 = 0xFFFE ∨ utf16_decode H L % 0x10000 = 0xFFFF)) := by
  have hnL := decode_seq_length_pos string (st.p + 3) nL L hL
  -- the high surrogate
  obtain ⟨b, u0, u_min, hget, hs, hr, hbody⟩ :=
    loop_body_of_decode_seq string flags (decide (length = UTF8CHK_CSTRING)) st 3 H hH
      (by omega) (by omega)
  have hmin3 : u_min = 0x800 := by
    rcases hs with ⟨h, -⟩ | ⟨-, -, -, -, h⟩ | ⟨h, -⟩
    · omega
    · exact h
    · omega
  have hHigh : H &&& 0x400 = 0 := (and_400_eq_zero_iff H).mpr (by omega)
  have hstep : loop_body string flags (decide (length = UTF8CHK_CSTRING)) st =
      .next (no_output { st with expect_low_surrogate := true,
                                 u_cache := 0x10000 + ((H &&& 0x3FF) <<< 10) } 3) := by
    rw [hbody, sequence_checks_eq, if_neg (by unfold UNICODE_MAX; omega),
      if_neg (fun h => by have := h.1.2; omega), if_pos ⟨h1, by omega⟩,
      if_neg (not_not.mpr hban), if_pos hchk, if_neg (fun h => h.1 hHigh),
      if_neg (fun h => by rw [he] at h; exact absurd h.2 (by decide)), if_pos hHigh]
  obtain ⟨stL, hstL⟩ : ∃ stL : State, stL = no_output
      { st with expect_low_surrogate := true, u_cache := 0x10000 + ((H &&& 0x3FF) <<< 10) } 3 :=
    ⟨_, rfl⟩
  rw [← hstL] at hstep
  have hp : stL.p = st.p + 3 := by rw [hstL]; rfl
  have hlL : stL.length = st.length - 3 := by rw [hstL]; rfl
  have heL : stL.expect_low_surrogate = true := by rw [hstL]; rfl
  have hcache : stL.u_cache = 0x10000 + ((H &&& 0x3FF) <<< 10) := by rw [hstL]; rfl
  have hreachL : scan_reaches string length flags stL :=
    reaches_snoc _ _ _ _ _ _ hreach (by omega) hstep
  have hU : stL.u_cache ||| (L &&& 0x3FF) = utf16_decode H L := by
    rw [hcache]; exact cache_or_low H L h1 h2 l1 l2
  obtain ⟨bL, v0, v_min, hgetL, hsL, hrL, hbodyL⟩ :=
    loop_body_of_decode_seq string flags (decide (length = UTF8CHK_CSTRING)) stL nL L
      (by rw [hp]; exact hL) (by omega) (by omega)
  have hminL : ¬ ((flags &&& (UTF8CHK_BAN_OVERLONG ||| UTF8CHK_BAN_OVERLONG_EXCEPT_NULL) ≠ 0 ∧
      L < v_min) ∧ (flags &&& UTF8CHK_BAN_OVERLONG ≠ 0 ∨ L ≠ 0 ∨ stL.length ≠ 2)) := by
    rintro ⟨⟨hf, hlt⟩, -⟩
    rcases hov with h3 | h0
    · subst h3
      rcases hsL with ⟨h, -⟩ | ⟨-, -, -, -, rfl⟩ | ⟨h, -⟩
      · omega
      · omega
      · omega
    · exact hf h0
  have hLow : L &&& 0x400 ≠ 0 := by
    intro h0
    have := (and_400_eq_zero_iff L).mp h0
    omega
  have hchecks : loop_body string flags (decide (length = UTF8CHK_CSTRING)) stL =
      noncharacter_check flags { stL with expect_low_surrogate := false } nL
        (stL.u_cache ||| (L &&& 0x3FF)) := by
    rw [hbodyL, sequence_checks_eq, if_neg (by unfold UNICODE_MAX; omega), if_neg hminL,
      if_pos ⟨by omega, l2⟩, if_neg (not_not.mpr hban), if_pos hchk,
      if_neg (fun h => by rw [heL] at h; exact absurd h.2 (by decide)),
      if_neg (fun h => hLow h.1), if_neg hLow]
  refine ⟨stL, hreachL, hp, hU, hchecks, ?_⟩
  · have hUge : 0x10000 ≤ utf16_decode H L := by unfold utf16_decode; omega
    rw [hU] at hchecks
    unfold noncharacter_check at hchecks
    rw [if_pos hnc] at hchecks
    constructor
    · intro hres
      by_contra hnon
      have hn1 : ¬ (utf16_decode H L &&& 0xFFFE = 0xFFFE) := by
        rw [and_FFFE_eq_iff]; omega
      rw [if_neg hn1, if_neg (by omega)] at hchecks
      have hafter := utf8chk_result_after string length flags _ _
        (reaches_snoc _ _ _ _ _ _ hreachL (by omega) hchecks) hres rfl
      have hp2 : (no_output { stL with expect_low_surrogate := false } nL).p = stL.p + nL := rfl
      rw [hp2, hp] at hafter
      have hat : (⟨UTF8CHK_ERR_NONCHARACTER, ((st.p + 3 : Nat) : Int), nL⟩ : Result).error_at
          = ((st.p + 3 : Nat) : Int) := rfl
      rw [hat] at hafter
      omega
    · intro hnon
      have hy : utf16_decode H L &&& 0xFFFE = 0xFFFE := by
        rw [and_FFFE_eq_iff]; omega
      rw [if_pos hy] at hchecks
      have hres := utf8chk_of_scan_ret string length flags stL _ hreachL (by omega) hchecks
      rw [hres]
      show Except.ok (⟨UTF8CHK_ERR_NONCHARACTER, (stL.p : Int), nL⟩ : Result) = _
      rw [hp]

/-- Under CESU-8 flags with `UTF8CHK_BAN_NONCHARACTERS`, the pair
`ED A0 BF ED BF BE` (U+D83F, U+DFFE) is U+1FFFE: the error is at offset 3. -/
theorem C16_noncharacter_across_surrogate_pair_witness :
    ∃ stL : State,
      scan_reaches [0xED, 0xA0, 0xBF, 0xED, 0xBF, 0xBE] 6
        (UTF8CHK_CESU8 ||| UTF8CHK_BAN_NONCHARACTERS) stL ∧
      stL.p = 0 + 3 ∧
      stL.u_cache ||| (0xDFFE &&& 0x3FF) = utf16_decode 0xD83F 0xDFFE ∧
      loop_body [0xED, 0xA0, 0xBF, 0xED, 0xBF, 0xBE]
          (UTF8CHK_CESU8 ||| UTF8CHK_BAN_NONCHARACTERS) (decide (6 = UTF8CHK_CSTRING)) stL =
        noncharacter_check (UTF8CHK_CESU8 ||| UTF8CHK_BAN_NONCHARACTERS)
          { stL with expect_low_surrogate := false } 3 (stL.u_cache ||| (0xDFFE &&& 0x3FF)) ∧
      (utf8chk [0xED, 0xA0, 0xBF, 0xED, 0xBF, 0xBE] 6
          (UTF8CHK_CESU8 ||| UTF8CHK_BAN_NONCHARACTERS)
          = .ok ⟨UTF8CHK_ERR_NONCHARACTER, ((0 + 3 : Nat) : Int), 3⟩ ↔
        (utf16_decode 0xD83F 0xDFFE % 0x10000 = 0xFFFE ∨
          utf16_decode 0xD83F 0xDFFE % 0x10000 = 0xFFFF)) :=
  C16_noncharacter_across_surrogate_pair [0xED, 0xA0, 0xBF, 0xED, 0xBF, 0xBE] 6
    (UTF8CHK_CESU8 ||| UTF8CHK_BAN_NONCHARACTERS)
    { p := 0, length := 6, expect_low_surrogate := false, u_cache := 0, n := 0, n_prev := 0 }
    0xD83F 0xDFFE 3 (by decide) (by decide) (by decide) (Reaches.refl _) rfl rfl (by decide)
    (by decide) rfl (by decide) (by decide) (by decide) (Or.inl rfl)

/-- Claim C16 as stated fails: under CESU-8 flags with
`UTF8CHK_BAN_NONCHARACTERS`, in `ED A0 BF F0 8D BF BE` the 3-byte high
surrogate U+D83F is immediately followed by the sequence `F0 8D BF BE`, which
decodes to the low surrogate U+DFFE; the pair is the noncharacter U+1FFFE, yet
the result is `UTF8CHK_ERR_OVERLONG` at the low surrogate, not
`UTF8CHK_ERR_NONCHARACTER`: the overlong check comes first. -/
theorem C16_overlong_low_surrogate_is_overlong :
    (UTF8CHK_CESU8 ||| UTF8CHK_BAN_NONCHARACTERS) &&& UTF8CHK_CHECK_SURROGATES ≠ 0 ∧
    (UTF8CHK_CESU8 ||| UTF8CHK_BAN_NONCHARACTERS) &&& UTF8CHK_BAN_NONCHARACTERS ≠ 0 ∧
    (UTF8CHK_CESU8 ||| UTF8CHK_BAN_NONCHARACTERS) &&& UTF8CHK_BAN_SURROGATES = 0 ∧
    decode_seq [0xED, 0xA0, 0xBF, 0xF0, 0x8D, 0xBF, 0xBE] 0 = some (3, 0xD83F) ∧
    decode_seq [0xED, 0xA0, 0xBF, 0xF0, 0x8D, 0xBF, 0xBE] 3 = some (4, 0xDFFE) ∧
    utf16_decode 0xD83F 0xDFFE = 0x1FFFE ∧
    utf8chk [0xED, 0xA0, 0xBF, 0xF0, 0x8D, 0xBF, 0xBE] 7
        (UTF8CHK_CESU8 ||| UTF8CHK_BAN_NONCHARACTERS)
      = .ok ⟨UTF8CHK_ERR_OVERLONG, 3, 4⟩ ∧
    utf8chk [0xED, 0xA0, 0xBF, 0xF0, 0x8D, 0xBF, 0xBE] 7
        (UTF8CHK_CESU8 ||| UTF8CHK_BAN_NONCHARACTERS)
      ≠ .ok ⟨UTF8CHK_ERR_NONCHARACTER, 3, 4⟩ :=
  ⟨by decide, by decide, by decide, rfl, rfl, by decide, rfl, by
    intro h
    have h1 : utf8chk [0xED, 0xA0, 0xBF, 0xF0, 0x8D, 0xBF, 0xBE] 7
        (UTF8CHK_CESU8 ||| UTF8CHK_BAN_NONCHARACTERS)
        = .ok ⟨UTF8CHK_ERR_OVERLONG, 3, 4⟩ := rfl
    rw [h1] at h
    simp at h⟩

/-- Claim C17: for every buffer and explicit length `N`: with
`UTF8CHK_BAN_NULL_BYTE` set, `utf8chk` does not return `UTF8CHK_OK` when one
of the first `N` bytes is zero, and when the scan reaches a zero byte at the
start of a sequence it returns `UTF8CHK_ERR_NULL_BYTE` with offset at that
byte and length 1; with `UTF8CHK_BAN_NULL_BYTE` clear, the loop body at a zero
byte advances the cursor by one byte without an error, exactly as it does on
any other byte below 0x80. -/
theorem C17_null_byte_ban (string : List Byte) (N flags : Nat) (hx : N ≠ UTF8CHK_CSTRING) :
    (flags &&& UTF8CHK_BAN_NULL_BYTE ≠ 0 →
      (∀ z : Nat, z < N → string[z]? = some (0 : Byte) →
        ¬ ∃ r, utf8chk string N flags = .ok r ∧ r.err = UTF8CHK_OK) ∧
      (∀ st : State, scan_reaches string N flags st → st.length ≠ 0 →
        string[st.p]? = some (0 : Byte) →
        utf8chk string N flags = .ok ⟨UTF8CHK_ERR_NULL_BYTE, st.p, 1⟩)) ∧
    (flags &&& UTF8CHK_BAN_NULL_BYTE = 0 →
      ∀ st : State, string[st.p]? = some (0 : Byte) →
        loop_body string flags (decide (N = UTF8CHK_CSTRING)) st = .next (no_output st 1) ∧
        ∀ (other : List Byte) (b : Byte), other[st.p]? = some b → b.val < 0x80 →
          loop_body other flags (decide (N = UTF8CHK_CSTRING)) st
            = loop_body string flags (decide (N = UTF8CHK_CSTRING)) st) := by
  have hd : decide (N = UTF8CHK_CSTRING) = false := decide_eq_false hx
  rw [hd]
  have hnt : ∀ b : Byte, ¬ (b.val = 0 ∧ false = true) := fun _ hh => Bool.noConfusion hh.2
  refine ⟨fun hflag => ⟨?_, ?_⟩, fun hflag st hget => ?_⟩
  · rintro z hz hzero ⟨r, hr, hok⟩
    unfold utf8chk at hr
    rw [hd] at hr
    refine utf8chk_loop_rule string flags false
      (fun st => st.p + st.length = N ∧ ∀ j, j < st.p → string[j]? ≠ some (0 : Byte))
      (fun r => r.err ≠ UTF8CHK_OK) ?_ ?_ ?_ ?_ _ _ ⟨by simp, fun j hj => by simp at hj⟩ r hr
      hok
    · rintro st ⟨h1, h2⟩ h0
      exact absurd hzero (h2 z (by omega))
    · intro st _ _ hb
      exact absurd (loop_body_brk _ _ _ _ hb).1 (by decide)
    · intro st r1 _ hl hb
      exact (loop_body_ret _ _ _ _ _ hb hl).1
    · rintro st st1 ⟨h1, h2⟩ hl hb
      obtain ⟨n, n1, n4, nl, ⟨a1, a2, a3, a4⟩, -, -⟩ := loop_body_next _ _ _ _ _ hb hl
      obtain ⟨m, m1, m2⟩ := loop_body_next_nonzero _ _ _ _ _ (Or.inr hflag) hb
      refine ⟨by omega, fun j hj => ?_⟩
      by_cases hjp : j < st.p
      · exact h2 j hjp
      · obtain ⟨b, hb1, hb2⟩ := m2 (j - st.p) (by omega)
        have he : st.p + (j - st.p) = j := by omega
        rw [he] at hb1
        rw [hb1]
        intro h0
        simp only [Option.some.injEq] at h0
        rw [h0] at hb2
        exact hb2 rfl
  · intro st hreach hl hget
    apply utf8chk_of_scan_ret string N flags st _ hreach hl
    rw [hd, loop_body_some _ _ _ _ _ hget, if_neg (hnt _), if_pos ⟨rfl, hflag⟩]
  · have h2 : ∀ b : Byte, ¬ (b.val = 0 ∧ flags &&& UTF8CHK_BAN_NULL_BYTE ≠ 0) :=
      fun _ hh => hh.2 hflag
    have hz : loop_body string flags false st = .next (no_output st 1) := by
      rw [loop_body_some _ _ _ _ _ hget, if_neg (hnt _), if_neg (h2 _), if_pos (by decide)]
    refine ⟨hz, fun other b hb hlt => ?_⟩
    rw [hz, loop_body_some _ _ _ _ _ hb, if_neg (hnt _), if_neg (h2 _), if_pos hlt]

/-- The test input `61 00` with explicit length 2: the zero byte at offset 1
is an error under `UTF8CHK_BAN_NULL_BYTE`. -/
theorem C17_null_byte_ban_witness :
    (¬ ∃ r, utf8chk [0x61, 0x00] 2 (UTF8CHK_UTF8 ||| UTF8CHK_BAN_NULL_BYTE) = .ok r ∧
      r.err = UTF8CHK_OK) ∧
    utf8chk [0x61, 0x00] 2 (UTF8CHK_UTF8 ||| UTF8CHK_BAN_NULL_BYTE)
      = .ok ⟨UTF8CHK_ERR_NULL_BYTE, ((1 : Nat) : Int), 1⟩ :=
  ⟨((C17_null_byte_ban [0x61, 0x00] 2 (UTF8CHK_UTF8 ||| UTF8CHK_BAN_NULL_BYTE)
      (by decide)).1 (by decide)).1 1 (by decide) rfl,
    ((C17_null_byte_ban [0x61, 0x00] 2 (UTF8CHK_UTF8 ||| UTF8CHK_BAN_NULL_BYTE)
      (by decide)).1 (by decide)).2
      { p := 1, length := 1, expect_low_surrogate := false, u_cache := 0, n := 1, n_prev := 1 }
      (Reaches.step _ _ _ (by decide) rfl (Reaches.refl _)) (by decide) rfl⟩

/-- Claim C18: in sentinel mode (length `UTF8CHK_CSTRING`), on every buffer
that holds a zero byte and for every flag set `F`, `utf8chk` returns a result,
it returns the same result with `F ||| UTF8CHK_BAN_NULL_BYTE`, and the result
is not `UTF8CHK_ERR_NULL_BYTE`. -/
theorem C18_sentinel_ignores_ban_null_byte (string : List Byte) (F : Nat)
    (hz : ∃ z : Nat, string[z]? = some (0 : Byte)) :
    ∃ r, utf8chk string UTF8CHK_CSTRING F = .ok r ∧
      utf8chk string UTF8CHK_CSTRING (F ||| UTF8CHK_BAN_NULL_BYTE) = .ok r ∧
      r.err ≠ UTF8CHK_ERR_NULL_BYTE := by
  obtain ⟨r, hr⟩ := utf8chk_sentinel_returns string F hz
  refine ⟨r, hr, ?_, utf8chk_sentinel_ne_null_byte string F r hr⟩
  rw [← hr]
  unfold utf8chk
  rw [decide_eq_true (rfl : UTF8CHK_CSTRING = UTF8CHK_CSTRING)]
  have hseq : ∀ (st : State) (n v u_min : Nat),
      sequence_checks (F ||| UTF8CHK_BAN_NULL_BYTE) st n v u_min
        = sequence_checks F st n v u_min := fun st n v u_min =>
    sequence_checks_congr _ _ st n v u_min
      (or_and_of_and_eq_zero _ _ _ (by decide)) (or_and_of_and_eq_zero _ _ _ (by decide))
      (or_and_of_and_eq_zero _ _ _ (by decide))
      (Or.inl (or_and_of_and_eq_zero _ _ _ (by decide)))
      (or_and_of_and_eq_zero _ _ _ (by decide))
  exact utf8chk_loop_congr string _ _ true (fun _ => True)
    (fun st _ _ => loop_body_congr string _ _ true st (Or.inl rfl) (hseq st))
    (fun st _ => by
      unfold after_loop
      rw [or_and_of_and_eq_zero _ _ _ (by decide)])
    (fun _ _ _ _ _ => trivial) _ _ trivial

/-- Under all flags, on `61 00 C3`: the scan stops at the terminator with
`UTF8CHK_OK` at offset 1, with and without `UTF8CHK_BAN_NULL_BYTE`. -/
theorem C18_sentinel_ignores_ban_null_byte_witness :
    ∃ r, utf8chk [0x61, 0x00, 0xC3] UTF8CHK_CSTRING UTF8CHK_UTF8 = .ok r ∧
      utf8chk [0x61, 0x00, 0xC3] UTF8CHK_CSTRING (UTF8CHK_UTF8 ||| UTF8CHK_BAN_NULL_BYTE)
        = .ok r ∧
      r.err ≠ UTF8CHK_ERR_NULL_BYTE :=
  C18_sentinel_ignores_ban_null_byte [0x61, 0x00, 0xC3] UTF8CHK_UTF8 ⟨1, rfl⟩

/-- Claim C19: for every buffer, every `length` (explicit or
`UTF8CHK_CSTRING`) and every flag set `F` with `UTF8CHK_BAN_SURROGATES`,
`utf8chk` with `F ||| UTF8CHK_CHECK_SURROGATES` gives the same result as with
`F`; when the scan reaches a sequence within the remaining length that decodes
to U+D800..U+DFFF and passes the overlong check (3 bytes, or 4 bytes when no
overlong flag is set) the result is `UTF8CHK_ERR_SURROGATE` with offset the
cursor and length `n`; and no result is `UTF8CHK_ERR_SURROGATE_LOW`,
`UTF8CHK_ERR_SURROGATE_HIGH` or one of `UTF8CHK_ERR_SURROGATE_TRUNC*`. -/
theorem C19_ban_surrogates_overrules_check (string : List Byte) (length F : Nat)
    (hban : F &&& UTF8CHK_BAN_SURROGATES ≠ 0) :
    utf8chk string length (F ||| UTF8CHK_CHECK_SURROGATES) = utf8chk string length F ∧
    (∀ (st : State) (n u : Nat), scan_reaches string length F st →
      decode_seq string st.p = some (n, u) → n ≤ st.length → 0xD800 ≤ u → u ≤ 0xDFFF →
      (n = 3 ∨ F &&& (UTF8CHK_BAN_OVERLONG ||| UTF8CHK_BAN_OVERLONG_EXCEPT_NULL) = 0) →
      utf8chk string length F = .ok ⟨UTF8CHK_ERR_SURROGATE, st.p, n⟩) ∧
    (∀ r, utf8chk string length F = .ok r →
      r.err ≠ UTF8CHK_ERR_SURROGATE_LOW ∧ r.err ≠ UTF8CHK_ERR_SURROGATE_HIGH ∧
        is_surrogate_trunc r.err = false) := by
  have h2 : (F ||| UTF8CHK_CHECK_SURROGATES) &&& UTF8CHK_BAN_SURROGATES
      = F &&& UTF8CHK_BAN_SURROGATES := or_and_of_and_eq_zero _ _ _ (by decide)
  refine ⟨?_, ?_, fun r h => utf8chk_ban_surrogates_kinds string length F r hban h⟩
  · unfold utf8chk
    have hseq : ∀ (st : State) (n v u_min : Nat),
        sequence_checks (F ||| UTF8CHK_CHECK_SURROGATES) st n v u_min
          = sequence_checks F st n v u_min := fun st n v u_min =>
      sequence_checks_congr _ _ st n v u_min
        (or_and_of_and_eq_zero _ _ _ (by decide)) (or_and_of_and_eq_zero _ _ _ (by decide))
        h2 (Or.inr hban) (or_and_of_and_eq_zero _ _ _ (by decide))
    exact utf8chk_loop_congr string _ _ _ (fun st => st.expect_low_surrogate = false)
      (fun st _ _ => loop_body_congr string _ _ _ st
        (Or.inr (or_and_of_and_eq_zero _ _ _ (by decide))) (hseq st))
      (fun st he => by
        rw [after_loop_expect_clear _ st he, after_loop_expect_clear _ st he])
      (fun st st1 he hl hb =>
        expect_low_clear_next string _ _ st st1 (by rw [h2]; exact hban) he hl hb)
      _ _ rfl
  · intro st n u hreach hdec hl hu1 hu2 hov
    obtain ⟨b, u0, u_min, hget, hs, hr, hbody⟩ :=
      loop_body_of_decode_seq string F (decide (length = UTF8CHK_CSTRING)) st n u hdec
        (by omega) hl
    have hn := decode_seq_length_pos string st.p n u hdec
    apply utf8chk_of_scan_ret string length F st _ hreach (by omega)
    have hmin : ¬ ((F &&& (UTF8CHK_BAN_OVERLONG ||| UTF8CHK_BAN_OVERLONG_EXCEPT_NULL) ≠ 0 ∧
        u < u_min) ∧ (F &&& UTF8CHK_BAN_OVERLONG ≠ 0 ∨ u ≠ 0 ∨ st.length ≠ 2)) := by
      rintro ⟨⟨hf, hlt⟩, -⟩
      rcases hov with h3 | h0
      · subst h3
        rcases hs with ⟨h, -⟩ | ⟨-, -, -, -, rfl⟩ | ⟨h, -⟩
        · omega
        · omega
        · omega
      · exact hf h0
    rw [hbody, sequence_checks_eq, if_neg (by unfold UNICODE_MAX; omega), if_neg hmin,
      if_pos ⟨hu1, hu2⟩, if_pos hban]

/-- The test input `ED A0 81 ED B0 80` under `UTF8CHK_UTF8`, with and without
`UTF8CHK_CHECK_SURROGATES`. -/
theorem C19_ban_surrogates_overrules_check_witness :
    utf8chk [0xED, 0xA0, 0x81, 0xED, 0xB0, 0x80] 6 (UTF8CHK_UTF8 ||| UTF8CHK_CHECK_SURROGATES)
      = utf8chk [0xED, 0xA0, 0x81, 0xED, 0xB0, 0x80] 6 UTF8CHK_UTF8 ∧
    utf8chk [0xED, 0xA0, 0x81, 0xED, 0xB0, 0x80] 6 UTF8CHK_UTF8
      = .ok ⟨UTF8CHK_ERR_SURROGATE, ((0 : Nat) : Int), 3⟩ :=
  ⟨(C19_ban_surrogates_overrules_check [0xED, 0xA0, 0x81, 0xED, 0xB0, 0x80] 6 UTF8CHK_UTF8
      (by decide)).1,
    (C19_ban_surrogates_overrules_check [0xED, 0xA0, 0x81, 0xED, 0xB0, 0x80] 6 UTF8CHK_UTF8
      (by decide)).2.1
      { p := 0, length := 6, expect_low_surrogate := false, u_cache := 0, n := 0, n_prev := 0 }
      3 0xD801 (Reaches.refl _) rfl (by decide) (by decide) (by decide) (Or.inl rfl)⟩

/-- Claim C20: with `UTF8CHK_BAN_OVERLONG_EXCEPT_NULL` set (whether or not
`UTF8CHK_BAN_OVERLONG` is), when the scan reaches a structurally complete
sequence of `n` bytes, `n` in 2..4, within the remaining length, whose decoded
code point is below the minimum for its length (`u < 0x80` for 2 bytes,
`u < 0x800` for 3 bytes, `u < 0x10000` for 4 bytes) and which is not the two
bytes `C0 80`, `utf8chk` returns `UTF8CHK_ERR_OVERLONG` with offset at the
first byte of the sequence and length `n`. -/
theorem C20_c0_80_exemption_singleton (string : List Byte) (length flags : Nat) (st : State)
    (n u : Nat) (hflag : flags &&& UTF8CHK_BAN_OVERLONG_EXCEPT_NULL ≠ 0)
    (hreach : scan_reaches string length flags st)
    (hdec : decode_seq string st.p = some (n, u)) (hl : n ≤ st.length)
    (hmin : (n = 2 ∧ u < 0x80) ∨ (n = 3 ∧ u < 0x800) ∨ (n = 4 ∧ u < 0x10000))
    (hne : ¬ (string[st.p]? = some (0xC0 : Byte) ∧ string[st.p + 1]? = some (0x80 : Byte))) :
    utf8chk string length flags = .ok ⟨UTF8CHK_ERR_OVERLONG, st.p, n⟩ := by
  have hn : 2 ≤ n := by omega
  obtain ⟨b, u0, u_min, hget, hs, hr, hbody⟩ :=
    loop_body_of_decode_seq_multi string flags (decide (length = UTF8CHK_CSTRING)) st n u hdec
      hn hl
  apply utf8chk_of_scan_ret string length flags st _ hreach (by omega)
  have hlt : u < u_min := by
    rcases hs with ⟨h, -, -, -, rfl⟩ | ⟨h, -, -, -, rfl⟩ | ⟨h, -, -, -, rfl⟩ <;> omega
  have hor : flags &&& UTF8CHK_BAN_OVERLONG ≠ 0 ∨ u ≠ 0 ∨ st.length ≠ 2 := by
    by_cases hu : u = 0
    · by_cases hl2 : st.length = 2
      · exfalso
        have hn2 : n = 2 := by omega
        subst hn2
        rcases hs with ⟨-, s1, s2, rfl, -⟩ | ⟨h, -⟩ | ⟨h, -⟩
        · obtain ⟨b1, g1, l1, l2, hr1⟩ := read_continuation_ok_step _ _ _ _ 0 _ _ _ hr
          rw [read_continuation_zero] at hr1
          simp only [Except.ok.injEq] at hr1
          rw [and_1F] at hr1
          have e0 : b = (0xC0 : Byte) := Fin.ext (by show b.val = 0xC0; omega)
          have e1 : b1 = (0x80 : Byte) := Fin.ext (by show b1.val = 0x80; omega)
          rw [e0] at hget
          rw [e1] at g1
          exact hne ⟨hget, g1⟩
        · omega
        · omega
      · exact Or.inr (Or.inr hl2)
    · exact Or.inr (Or.inl hu)
  rw [hbody, sequence_checks_eq, if_neg (by unfold UNICODE_MAX; omega),
    if_pos ⟨⟨overlong_flags_of_except_null flags hflag, hlt⟩, hor⟩]

/-- Under MUTF-8 flags: `C0 81` after an ASCII byte, `E0 80 80` and
`F0 80 80 80`. -/
theorem C20_c0_80_exemption_singleton_witness :
    utf8chk [0x41, 0xC0, 0x81] 3 UTF8CHK_MUTF8
      = .ok ⟨UTF8CHK_ERR_OVERLONG, ((1 : Nat) : Int), 2⟩ ∧
    utf8chk [0xE0, 0x80, 0x80] 3 UTF8CHK_MUTF8
      = .ok ⟨UTF8CHK_ERR_OVERLONG, ((0 : Nat) : Int), 3⟩ ∧
    utf8chk [0xF0, 0x80, 0x80, 0x80] 4 UTF8CHK_MUTF8
      = .ok ⟨UTF8CHK_ERR_OVERLONG, ((0 : Nat) : Int), 4⟩ :=
  ⟨C20_c0_80_exemption_singleton [0x41, 0xC0, 0x81] 3 UTF8CHK_MUTF8
      { p := 1, length := 2, expect_low_surrogate := false, u_cache := 0, n := 1, n_prev := 1 }
      2 1 (by decide) (Reaches.step _ _ _ (by decide) rfl (Reaches.refl _)) rfl (by decide)
      (by decide) (by decide),
    C20_c0_80_exemption_singleton [0xE0, 0x80, 0x80] 3 UTF8CHK_MUTF8
      { p := 0, length := 3, expect_low_surrogate := false, u_cache := 0, n := 0, n_prev := 0 }
      3 0 (by decide) (Reaches.refl _) rfl (by decide) (by decide) (by decide),
    C20_c0_80_exemption_singleton [0xF0, 0x80, 0x80, 0x80] 4 UTF8CHK_MUTF8
      { p := 0, length := 4, expect_low_surrogate := false, u_cache := 0, n := 0, n_prev := 0 }
      4 0 (by decide) (Reaches.refl _) rfl (by decide) (by decide) (by decide)⟩

/-- Claim C21: for every buffer, every `length` (explicit or
`UTF8CHK_CSTRING`) and every flag set `F` with `UTF8CHK_BAN_OVERLONG`,
`utf8chk` with `F ||| UTF8CHK_BAN_OVERLONG_EXCEPT_NULL` gives the same result
as with `F`; and under `UTF8CHK_STRICT`, when the scan reaches the bytes
`C0 80` with at least two bytes remaining, the result is
`UTF8CHK_ERR_OVERLONG` with offset the cursor and length 2. -/
theorem C21_ban_overlong_overrules_except_null (string : List Byte) (length F : Nat)
    (hF : F &&& UTF8CHK_BAN_OVERLONG ≠ 0) :
    utf8chk string length (F ||| UTF8CHK_BAN_OVERLONG_EXCEPT_NULL) = utf8chk string length F ∧
    (∀ st : State, scan_reaches string length UTF8CHK_STRICT st → 2 ≤ st.length →
      string[st.p]? = some (0xC0 : Byte) → string[st.p + 1]? = some (0x80 : Byte) →
      utf8chk string length UTF8CHK_STRICT = .ok ⟨UTF8CHK_ERR_OVERLONG, st.p, 2⟩) := by
  constructor
  · unfold utf8chk
    exact utf8chk_loop_congr string _ _ _ (fun _ => True)
      (fun st _ _ => loop_body_congr string _ _ _ st
        (Or.inr (or_and_of_and_eq_zero _ _ _ (by decide)))
        (fun n v u_min => sequence_checks_except_null_overruled F st n v u_min hF))
      (fun st _ => by
        unfold after_loop
        rw [or_and_of_and_eq_zero _ _ _ (by decide)])
      (fun _ _ _ _ _ => trivial) _ _ trivial
  · intro st hreach hl h0 h1
    apply utf8chk_of_scan_ret string length _ st _ hreach (by omega)
    rw [loop_body_two_bytes string _ _ st 0xC0 0x80 (getElem?_map_val_of_eq _ _ _ h0)
      (getElem?_map_val_of_eq _ _ _ h1) (by decide) (by decide) ⟨by decide, by decide⟩ hl,
      sequence_checks_eq, if_neg (by decide),
      if_pos ⟨⟨by decide, by decide⟩, Or.inl (by decide)⟩]

/-- The test input `C0 80` with explicit length 2, under
`UTF8CHK_UTF8` with and without `UTF8CHK_BAN_OVERLONG_EXCEPT_NULL`, and under
`UTF8CHK_STRICT`. -/
theorem C21_ban_overlong_overrules_except_null_witness :
    utf8chk [0xC0, 0x80] 2 (UTF8CHK_UTF8 ||| UTF8CHK_BAN_OVERLONG_EXCEPT_NULL)
      = utf8chk [0xC0, 0x80] 2 UTF8CHK_UTF8 ∧
    utf8chk [0xC0, 0x80] 2 UTF8CHK_STRICT
      = .ok ⟨UTF8CHK_ERR_OVERLONG, ((0 : Nat) : Int), 2⟩ :=
  ⟨(C21_ban_overlong_overrules_except_null [0xC0, 0x80] 2 UTF8CHK_UTF8 (by decide)).1,
    (C21_ban_overlong_overrules_except_null [0xC0, 0x80] 2 UTF8CHK_UTF8 (by decide)).2
      { p := 0, length := 2, expect_low_surrogate := false, u_cache := 0, n := 0, n_prev := 0 }
      (Reaches.refl _) (by decide) rfl rfl⟩

/-- Claim C22: for every flag set and every `length`, when the scan reaches a
start byte in 0xF0..0xF7 followed by three continuation bytes (0x80..0xBF),
all within the remaining length, whose decoded value exceeds 0x10FFFF,
`utf8chk` returns `UTF8CHK_ERR_RANGE` with offset at the start byte and length
4; and every result `UTF8CHK_ERR_RANGE` has length 4, so that no 2- or 3-byte
sequence gives it. -/
theorem C22_range_check_flag_independent (string : List Byte) (length flags : Nat) :
    (∀ (st : State) (b0 b1 b2 b3 : Nat), scan_reaches string length flags st →
      4 ≤ st.length →
      (string[st.p]?).map Fin.val = some b0 → (string[st.p + 1]?).map Fin.val = some b1 →
      (string[st.p + 2]?).map Fin.val = some b2 → (string[st.p + 3]?).map Fin.val = some b3 →
      0xF0 ≤ b0 → b0 ≤ 0xF7 → is_continuation_byte b1 → is_continuation_byte b2 →
      is_continuation_byte b3 → 0x10FFFF < lax_code_point [b0, b1, b2, b3] →
      utf8chk string length flags = .ok ⟨UTF8CHK_ERR_RANGE, st.p, 4⟩) ∧
    (∀ r, utf8chk string length flags = .ok r → r.err = UTF8CHK_ERR_RANGE →
      r.error_len = 4) := by
  constructor
  · intro st b0 b1 b2 b3 hreach hl g0 g1 g2 g3 r1 r2 c1 c2 c3 hu
    apply utf8chk_of_scan_ret string length _ st _ hreach (by omega)
    rw [loop_body_four_bytes string _ _ st b0 b1 b2 b3 g0 g1 g2 g3 r1 r2 c1 c2 c3 hl,
      sequence_checks_eq, if_pos (by unfold UNICODE_MAX; exact hu)]
  · intro r h hk
    unfold utf8chk at h
    have hafter : ∀ st : State, (after_loop flags st).err = UTF8CHK_ERR_RANGE →
        (after_loop flags st).error_len = 4 := by
      intro st hk1
      rcases after_loop_err flags st with k | ⟨k, -⟩ <;> rw [k] at hk1 <;>
        exact absurd hk1 (by decide)
    exact utf8chk_loop_rule string flags _ (fun _ => True)
      (fun r => r.err = UTF8CHK_ERR_RANGE → r.error_len = 4)
      (fun st _ _ => hafter st) (fun st _ _ _ => hafter st)
      (fun st r1 _ _ hb => loop_body_ret_range string flags _ st r1 hb)
      (fun _ _ _ _ _ => trivial) _ _ trivial r h hk

/-- After the ASCII byte `61`, the test input `F4 90 80 80` (U+110000) under
no flags at all. -/
theorem C22_range_check_flag_independent_witness :
    utf8chk [0x61, 0xF4, 0x90, 0x80, 0x80] 5 UTF8CHK_LAX
      = .ok ⟨UTF8CHK_ERR_RANGE, ((1 : Nat) : Int), 4⟩ :=
  (C22_range_check_flag_independent [0x61, 0xF4, 0x90, 0x80, 0x80] 5 UTF8CHK_LAX).1
    { p := 1, length := 4, expect_low_surrogate := false, u_cache := 0, n := 1, n_prev := 1 }
    0xF4 0x90 0x80 0x80 (Reaches.step _ _ _ (by decide) rfl (Reaches.refl _)) (by decide)
    rfl rfl rfl rfl (by decide) (by decide) ⟨by decide, by decide⟩ ⟨by decide, by decide⟩
    ⟨by decide, by decide⟩ (by decide)

/-- Claim C23: for every flag set and every `length`, when the scan reaches a
byte in 0x80..0xBF at the start of a sequence `utf8chk` returns
`UTF8CHK_ERR_UNEXPECTED_CONT`, and when it reaches a byte in 0xF8..0xFF it
returns `UTF8CHK_ERR_INVALID_START_BYTE`, both with offset at that byte and
length 1, whatever `expect_low_surrogate` and the remaining length are. -/
theorem C23_leading_byte_errors (string : List Byte) (length flags : Nat) (st : State)
    (b : Byte) (hreach : scan_reaches string length flags st) (hl : st.length ≠ 0)
    (hget : string[st.p]? = some b) :
    (0x80 ≤ b.val ∧ b.val ≤ 0xBF →
      utf8chk string length flags = .ok ⟨UTF8CHK_ERR_UNEXPECTED_CONT, st.p, 1⟩) ∧
    (0xF8 ≤ b.val →
      utf8chk string length flags = .ok ⟨UTF8CHK_ERR_INVALID_START_BYTE, st.p, 1⟩) := by
  constructor
  · intro hb
    apply utf8chk_of_scan_ret string length _ st _ hreach hl
    have n1 : ¬ (b.val = 0 ∧ decide (length = UTF8CHK_CSTRING) = true) := fun h => by omega
    have n2 : ¬ (b.val = 0 ∧ flags &&& UTF8CHK_BAN_NULL_BYTE ≠ 0) := fun h => by omega
    rw [loop_body_some _ _ _ _ b hget, if_neg n1, if_neg n2, if_neg (by omega),
      if_pos (by omega)]
  · intro hb
    apply utf8chk_of_scan_ret string length _ st _ hreach hl
    have n1 : ¬ (b.val = 0 ∧ decide (length = UTF8CHK_CSTRING) = true) := fun h => by omega
    have n2 : ¬ (b.val = 0 ∧ flags &&& UTF8CHK_BAN_NULL_BYTE ≠ 0) := fun h => by omega
    rw [loop_body_some _ _ _ _ b hget, if_neg n1, if_neg n2, if_neg (by omega),
      if_neg (by omega), if_neg (by omega), if_neg (by omega), if_neg (by omega)]

/-- A high surrogate is pending at offset 3 with one byte left: `BF` gives
`UTF8CHK_ERR_UNEXPECTED_CONT`, `F8` gives `UTF8CHK_ERR_INVALID_START_BYTE`. -/
theorem C23_leading_byte_errors_witness :
    utf8chk [0xED, 0xA0, 0x81, 0xBF] 4 UTF8CHK_CESU8
      = .ok ⟨UTF8CHK_ERR_UNEXPECTED_CONT, ((3 : Nat) : Int), 1⟩ ∧
    utf8chk [0xED, 0xA0, 0x81, 0xF8] 4 UTF8CHK_CESU8
      = .ok ⟨UTF8CHK_ERR_INVALID_START_BYTE, ((3 : Nat) : Int), 1⟩ :=
  ⟨(C23_leading_byte_errors [0xED, 0xA0, 0x81, 0xBF] 4 UTF8CHK_CESU8
      { p := 3, length := 1, expect_low_surrogate := true, u_cache := 0x10400, n := 3,
        n_prev := 3 }
      0xBF (Reaches.step _ _ _ (by decide) rfl (Reaches.refl _)) (by decide) rfl).1
      ⟨by decide, by decide⟩,
    (C23_leading_byte_errors [0xED, 0xA0, 0x81, 0xF8] 4 UTF8CHK_CESU8
      { p := 3, length := 1, expect_low_surrogate := true, u_cache := 0x10400, n := 3,
        n_prev := 3 }
      0xF8 (Reaches.step _ _ _ (by decide) rfl (Reaches.refl _)) (by decide) rfl).2
      (by decide)⟩

/-- Claim C24, as amended: with `UTF8CHK_CHECK_SURROGATES` set and
`UTF8CHK_BAN_SURROGATES` clear, when the scan reaches a sequence decoding to a
high surrogate (U+D800..U+DBFF), goes past it, and the sequence that follows,
within the remaining length, decodes to a high surrogate and passes the
overlong check (3 bytes, or 4 bytes when no overlong flag is set), `utf8chk`
returns `UTF8CHK_ERR_SURROGATE_HIGH` with offset at the first byte of the
second high surrogate and length equal to its sequence length. -/
theorem C24_high_surrogate_after_high (string : List Byte) (length flags : Nat)
    (st0 st : State) (n0 H0 n H : Nat)
    (hchk : flags &&& UTF8CHK_CHECK_SURROGATES ≠ 0)
    (hban : flags &&& UTF8CHK_BAN_SURROGATES = 0)
    (hreach : scan_reaches string length flags st0) (hl0 : st0.length ≠ 0)
    (hfirst : decode_seq string st0.p = some (n0, H0)) (f1 : 0xD800 ≤ H0) (f2 : H0 ≤ 0xDBFF)
    (hstep : loop_body string flags (decide (length = UTF8CHK_CSTRING)) st0 = .next st)
    (hsecond : decode_seq string (st0.p + n0) = some (n, H)) (s1 : 0xD800 ≤ H)
    (s2 : H ≤ 0xDBFF) (hlen : n ≤ st.length)
    (hov : n = 3 ∨ flags &&& (UTF8CHK_BAN_OVERLONG ||| UTF8CHK_BAN_OVERLONG_EXCEPT_NULL) = 0) :
    utf8chk string length flags
      = .ok ⟨UTF8CHK_ERR_SURROGATE_HIGH, ((st0.p + n0 : Nat) : Int), n⟩ := by
  obtain ⟨he, hp, -, -⟩ := loop_body_next_high _ _ _ _ _ _ _ hchk hban hfirst f1 f2 hstep
  have hreach1 : scan_reaches string length flags st :=
    reaches_snoc _ _ _ _ _ _ hreach hl0 hstep
  have hn := decode_seq_length_pos string (st0.p + n0) n H hsecond
  obtain ⟨b, u0, u_min, hget, hs, hr, hbody⟩ :=
    loop_body_of_decode_seq string flags (decide (length = UTF8CHK_CSTRING)) st n H
      (by rw [hp]; exact hsecond) (by omega) hlen
  have hmin : ¬ ((flags &&& (UTF8CHK_BAN_OVERLONG ||| UTF8CHK_BAN_OVERLONG_EXCEPT_NULL) ≠ 0 ∧
      H < u_min) ∧ (flags &&& UTF8CHK_BAN_OVERLONG ≠ 0 ∨ H ≠ 0 ∨ st.length ≠ 2)) := by
    rintro ⟨⟨hf, hlt⟩, -⟩
    rcases hov with h3 | h0
    · subst h3
      rcases hs with ⟨h, -⟩ | ⟨-, -, -, -, rfl⟩ | ⟨h, -⟩
      · omega
      · omega
      · omega
    · exact hf h0
  have hHigh : H &&& 0x400 = 0 := (and_400_eq_zero_iff H).mpr (by omega)
  have c6 : ¬ (H &&& 0x400 ≠ 0 ∧ st.expect_low_surrogate = false) := fun hh => hh.1 hHigh
  have hres := utf8chk_of_scan_ret string length flags st
    ⟨UTF8CHK_ERR_SURROGATE_HIGH, st.p, n⟩ hreach1 (by omega)
    (by rw [hbody, sequence_checks_eq, if_neg (by unfold UNICODE_MAX; omega), if_neg hmin,
      if_pos ⟨s1, by omega⟩, if_neg (not_not.mpr hban), if_pos hchk, if_neg c6,
      if_pos ⟨hHigh, he⟩])
  rw [hres, hp]

/-- The test input `ED A0 81 ED A0 81` under CESU-8 flags. -/
theorem C24_high_surrogate_after_high_witness :
    utf8chk [0xED, 0xA0, 0x81, 0xED, 0xA0, 0x81] 6 UTF8CHK_CESU8
      = .ok ⟨UTF8CHK_ERR_SURROGATE_HIGH, ((0 + 3 : Nat) : Int), 3⟩ :=
  C24_high_surrogate_after_high [0xED, 0xA0, 0x81, 0xED, 0xA0, 0x81] 6 UTF8CHK_CESU8
    { p := 0, length := 6, expect_low_surrogate := false, u_cache := 0, n := 0, n_prev := 0 }
    { p := 3, length := 3, expect_low_surrogate := true, u_cache := 0x10400, n := 3,
      n_prev := 3 }
    3 0xD801 3 0xD801 (by decide) (by decide) (Reaches.refl _) (by decide) rfl (by decide)
    (by decide) rfl rfl (by decide) (by decide) (by decide) (Or.inl rfl)

/-- Claim C24 as stated fails: under CESU-8 flags, in `ED A0 80 F0 8D A0 80`
the sequence `F0 8D A0 80` decodes to the high surrogate U+D800 and follows
the high surrogate `ED A0 80`, yet the result is `UTF8CHK_ERR_OVERLONG`, not
`UTF8CHK_ERR_SURROGATE_HIGH`: the overlong check comes first. -/
theorem C24_overlong_high_surrogate_is_overlong :
    UTF8CHK_CESU8 &&& UTF8CHK_CHECK_SURROGATES ≠ 0 ∧
    UTF8CHK_CESU8 &&& UTF8CHK_BAN_SURROGATES = 0 ∧
    decode_seq [0xED, 0xA0, 0x80, 0xF0, 0x8D, 0xA0, 0x80] 0 = some (3, 0xD800) ∧
    decode_seq [0xED, 0xA0, 0x80, 0xF0, 0x8D, 0xA0, 0x80] 3 = some (4, 0xD800) ∧
    utf8chk [0xED, 0xA0, 0x80, 0xF0, 0x8D, 0xA0, 0x80] 7 UTF8CHK_CESU8
      = .ok ⟨UTF8CHK_ERR_OVERLONG, 3, 4⟩ ∧
    utf8chk [0xED, 0xA0, 0x80, 0xF0, 0x8D, 0xA0, 0x80] 7 UTF8CHK_CESU8
      ≠ .ok ⟨UTF8CHK_ERR_SURROGATE_HIGH, 3, 4⟩ :=
  ⟨by decide, by decide, rfl, rfl, rfl, by
    intro h
    have h1 : utf8chk [0xED, 0xA0, 0x80, 0xF0, 0x8D, 0xA0, 0x80] 7 UTF8CHK_CESU8
        = .ok ⟨UTF8CHK_ERR_OVERLONG, 3, 4⟩ := rfl
    rw [h1] at h
    simp at h⟩

/-- Claim C25: for every buffer, every `length` and every flag set, a result
`UTF8CHK_ERR_OVERLONG` needs `UTF8CHK_BAN_OVERLONG` or
`UTF8CHK_BAN_OVERLONG_EXCEPT_NULL`, `UTF8CHK_ERR_NONCHARACTER` needs
`UTF8CHK_BAN_NONCHARACTERS`, `UTF8CHK_ERR_NULL_BYTE` needs
`UTF8CHK_BAN_NULL_BYTE`, `UTF8CHK_ERR_SURROGATE` needs
`UTF8CHK_BAN_SURROGATES`, and `UTF8CHK_ERR_SURROGATE_LOW`,
`UTF8CHK_ERR_SURROGATE_HIGH` and `UTF8CHK_ERR_SURROGATE_TRUNC*` need
`UTF8CHK_CHECK_SURROGATES` set and `UTF8CHK_BAN_SURROGATES` clear; under
`UTF8CHK_WTF8` and `UTF8CHK_LAX` no result is a surrogate error, and with an
explicit length a buffer of surrogates in 3-byte form, in any order, returns
`UTF8CHK_OK`. -/
theorem C25_flag_gated_errors (string : List Byte) (length flags : Nat) :
    (∀ r, utf8chk string length flags = .ok r → FlagGated flags r.err) ∧
    (∀ r, utf8chk string length UTF8CHK_WTF8 = .ok r → is_surrogate_error r.err = false) ∧
    (∀ r, utf8chk string length UTF8CHK_LAX = .ok r → is_surrogate_error r.err = false) ∧
    (∀ us : List Nat, length ≤ string.length → length ≠ UTF8CHK_CSTRING →
      (∀ u ∈ us, 0xD800 ≤ u ∧ u ≤ 0xDFFF) →
      (string.take length).map Fin.val = (us.map utf8_encode).flatten →
      utf8chk string length UTF8CHK_WTF8 = .ok ⟨UTF8CHK_OK, length, 0⟩ ∧
      utf8chk string length UTF8CHK_LAX = .ok ⟨UTF8CHK_OK, length, 0⟩) :=
  ⟨fun r h => utf8chk_flag_gated string length flags r h,
    fun r h => flag_gated_not_surrogate_error _ _ (by decide) (by decide)
      (utf8chk_flag_gated string length _ r h),
    fun r h => flag_gated_not_surrogate_error _ _ (by decide) (by decide)
      (utf8chk_flag_gated string length _ r h),
    fun us hN hx hus hbuf =>
      ⟨utf8chk_surrogates_unchecked string length _ us (by decide) (by decide) (by decide)
        hN hx hus hbuf,
      utf8chk_surrogates_unchecked string length _ us (by decide) (by decide) (by decide)
        hN hx hus hbuf⟩⟩

/-- The test input `ED B0 80 ED A0 81` (low surrogate, then high surrogate)
under `UTF8CHK_WTF8` and `UTF8CHK_LAX`. -/
theorem C25_flag_gated_errors_witness :
    utf8chk [0xED, 0xB0, 0x80, 0xED, 0xA0, 0x81] 6 UTF8CHK_WTF8 = .ok ⟨UTF8CHK_OK, 6, 0⟩ ∧
    utf8chk [0xED, 0xB0, 0x80, 0xED, 0xA0, 0x81] 6 UTF8CHK_LAX = .ok ⟨UTF8CHK_OK, 6, 0⟩ :=
  (C25_flag_gated_errors [0xED, 0xB0, 0x80, 0xED, 0xA0, 0x81] 6 UTF8CHK_CESU8).2.2.2
    [0xDC00, 0xD801] (by decide) (by decide)
    (fun u hu => by
      simp only [List.mem_cons, List.mem_singleton, List.not_mem_nil, or_false] at hu
      rcases hu with rfl | rfl <;> exact ⟨by decide, by decide⟩)
    rfl

/-- Claim C26: for every buffer and every flag set, `utf8chk` returns a
result for every explicit length `N` within the buffer, and in sentinel mode
when the buffer holds a zero byte; and every iteration of the loop that does
not return takes between 1 and 4 bytes, not more than the remaining length,
which strictly decreases. -/
theorem C26_totality (string : List Byte) (flags : Nat) :
    (∀ N, N ≤ string.length → ∃ r, utf8chk string N flags = .ok r) ∧
    ((∃ z : Nat, string[z]? = some (0 : Byte)) →
      ∃ r, utf8chk string UTF8CHK_CSTRING flags = .ok r) ∧
    (∀ (nt : Bool) (st st1 : State), st.length ≠ 0 →
      loop_body string flags nt st = .next st1 →
      ∃ n, 1 ≤ n ∧ n ≤ 4 ∧ n ≤ st.length ∧ st1.p = st.p + n ∧
        st1.length = st.length - n ∧ st1.length < st.length) := by
  refine ⟨fun N hN => utf8chk_explicit_returns string N flags hN,
    fun hz => utf8chk_sentinel_returns string flags hz, fun nt st st1 hl hb => ?_⟩
  obtain ⟨n, n1, n4, nl, ⟨a1, a2, -, -⟩, -, -⟩ := loop_body_next _ _ _ _ _ hb hl
  exact ⟨n, n1, n4, nl, a1, a2, by omega⟩

/-- The buffer `61 E2 82 AC 00`, with explicit length 4 and in sentinel
mode. -/
theorem C26_totality_witness :
    (∃ r, utf8chk [0x61, 0xE2, 0x82, 0xAC, 0x00] 4 UTF8CHK_STRICT = .ok r) ∧
    (∃ r, utf8chk [0x61, 0xE2, 0x82, 0xAC, 0x00] UTF8CHK_CSTRING UTF8CHK_STRICT = .ok r) :=
  ⟨(C26_totality [0x61, 0xE2, 0x82, 0xAC, 0x00] UTF8CHK_STRICT).1 4 (by decide),
    (C26_totality [0x61, 0xE2, 0x82, 0xAC, 0x00] UTF8CHK_STRICT).2.1 ⟨4, rfl⟩⟩

/-- Claim C27: for every flag set with `UTF8CHK_BAN_OVERLONG` (whatever
`UTF8CHK_BAN_SURROGATES` and `UTF8CHK_CHECK_SURROGATES` are), when the scan
reaches a structurally complete 4-byte sequence within the remaining length
that decodes to a code point in U+D800..U+DFFF, `utf8chk` returns
`UTF8CHK_ERR_OVERLONG` with offset the cursor and length 4, hence none of
`UTF8CHK_ERR_SURROGATE`, `UTF8CHK_ERR_SURROGATE_LOW` and
`UTF8CHK_ERR_SURROGATE_HIGH`. -/
theorem C27_overlong_precedes_surrogate (string : List Byte) (length flags : Nat) (st : State)
    (u : Nat) (hF : flags &&& UTF8CHK_BAN_OVERLONG ≠ 0)
    (hreach : scan_reaches string length flags st)
    (hdec : decode_seq string st.p = some (4, u)) (hl : 4 ≤ st.length)
    (hu1 : 0xD800 ≤ u) (hu2 : u ≤ 0xDFFF) :
    utf8chk string length flags = .ok ⟨UTF8CHK_ERR_OVERLONG, st.p, 4⟩ ∧
    ∀ r, utf8chk string length flags = .ok r →
      r.err ≠ UTF8CHK_ERR_SURROGATE ∧ r.err ≠ UTF8CHK_ERR_SURROGATE_LOW ∧
        r.err ≠ UTF8CHK_ERR_SURROGATE_HIGH := by
  obtain ⟨b, u0, u_min, hget, hs, hr, hbody⟩ :=
    loop_body_of_decode_seq string flags (decide (length = UTF8CHK_CSTRING)) st 4 u hdec
      (by omega) hl
  have hmin : u_min = 0x10000 := by
    rcases hs with ⟨h, -⟩ | ⟨h, -⟩ | ⟨-, -, -, -, h⟩
    · omega
    · omega
    · exact h
  have hres : utf8chk string length flags = .ok ⟨UTF8CHK_ERR_OVERLONG, st.p, 4⟩ := by
    apply utf8chk_of_scan_ret string length flags st _ hreach (by omega)
    rw [hbody, sequence_checks_eq, if_neg (by unfold UNICODE_MAX; omega),
      if_pos ⟨⟨overlong_flags_of_ban_overlong flags hF, by omega⟩, Or.inl hF⟩]
  refine ⟨hres, fun r h => ?_⟩
  rw [hres] at h
  simp only [Except.ok.injEq] at h
  rw [← h]
  exact ⟨by simp, by simp, by simp⟩

/-- Under CESU-8 flags, after a high surrogate: the 4-byte form `F0 8D A0 80`
of U+D800 is overlong. -/
theorem C27_overlong_precedes_surrogate_witness :
    utf8chk [0xED, 0xA0, 0x81, 0xF0, 0x8D, 0xA0, 0x80] 7 UTF8CHK_CESU8
        = .ok ⟨UTF8CHK_ERR_OVERLONG, ((3 : Nat) : Int), 4⟩ ∧
    ∀ r, utf8chk [0xED, 0xA0, 0x81, 0xF0, 0x8D, 0xA0, 0x80] 7 UTF8CHK_CESU8 = .ok r →
      r.err ≠ UTF8CHK_ERR_SURROGATE ∧ r.err ≠ UTF8CHK_ERR_SURROGATE_LOW ∧
        r.err ≠ UTF8CHK_ERR_SURROGATE_HIGH :=
  C27_overlong_precedes_surrogate [0xED, 0xA0, 0x81, 0xF0, 0x8D, 0xA0, 0x80] 7 UTF8CHK_CESU8
    { p := 3, length := 4, expect_low_surrogate := true, u_cache := 0x10400, n := 3,
      n_prev := 3 }
    0xD800 (by decide) (Reaches.step _ _ _ (by decide) rfl (Reaches.refl _)) rfl (by decide)
    (by decide) (by decide)

/-- Claim C28: at the start of every iteration the cursor plus the remaining
length is the length passed in (`N` in explicit-length mode); an iteration
that does not return takes `n` bytes with `1 ≤ n ≤ remaining`, so the
subtraction `length -= n` does not wrap; and in sentinel mode the cursor only
moves forward and does not pass a zero byte of the buffer, in particular not
the first one. -/
theorem C28_loop_invariant (string : List Byte) (flags : Nat) :
    (∀ (N : Nat) (st : State), scan_reaches string N flags st → st.p + st.length = N) ∧
    (∀ (N : Nat) (st st1 : State), scan_reaches string N flags st → st.length ≠ 0 →
      loop_body string flags (decide (N = UTF8CHK_CSTRING)) st = .next st1 →
      ∃ n, 1 ≤ n ∧ n ≤ st.length ∧ st1.p = st.p + n ∧ st1.length = st.length - n ∧
        st1.p + st1.length = N) ∧
    (∀ st st1 : State, scan_reaches string UTF8CHK_CSTRING flags st →
      Reaches string flags true st st1 → st.p ≤ st1.p) ∧
    (∀ (st : State) (z : Nat), scan_reaches string UTF8CHK_CSTRING flags st →
      string[z]? = some (0 : Byte) → st.p ≤ z) := by
  refine ⟨fun N st h => (scan_reaches_position string N flags st h).1,
    fun N st st1 h hl hb => ?_, fun st st1 _ h => reaches_p_le string flags true st st1 h,
    fun st z h hz => scan_reaches_sentinel_le_zero string flags st z hz h⟩
  have hpos := (scan_reaches_position string N flags st h).1
  obtain ⟨n, n1, -, nl, ⟨a1, a2, -, -⟩, -, -⟩ := loop_body_next _ _ _ _ _ hb hl
  exact ⟨n, n1, nl, a1, a2, by omega⟩

/-- On `61 C3 A9 00 41`: with explicit length 4 the scan is, after `61`, at
offset 1 with 3 bytes remaining; in sentinel mode the scan comes to offset 3,
the index of the zero byte, and not beyond. -/
theorem C28_loop_invariant_witness :
    scan_reaches [0x61, 0xC3, 0xA9, 0x00, 0x41] 4 UTF8CHK_UTF8
      { p := 1, length := 3, expect_low_surrogate := false, u_cache := 0, n := 1, n_prev := 1 } ∧
    (1 : Nat) + 3 = 4 ∧
    scan_reaches [0x61, 0xC3, 0xA9, 0x00, 0x41] UTF8CHK_CSTRING UTF8CHK_UTF8
      { p := 3, length := UTF8CHK_CSTRING - 3, expect_low_surrogate := false, u_cache := 0,
        n := 2, n_prev := 2 } ∧
    (3 : Nat) ≤ 3 :=
  ⟨Reaches.step _ _ _ (by decide) rfl (Reaches.refl _),
    (C28_loop_invariant [0x61, 0xC3, 0xA9, 0x00, 0x41] UTF8CHK_UTF8).1 4
      { p := 1, length := 3, expect_low_surrogate := false, u_cache := 0, n := 1, n_prev := 1 }
      (Reaches.step _ _ _ (by decide) rfl (Reaches.refl _)),
    Reaches.step _ _ _ (by decide) rfl (Reaches.step _ _ _ (by decide) rfl (Reaches.refl _)),
    (C28_loop_invariant [0x61, 0xC3, 0xA9, 0x00, 0x41] UTF8CHK_UTF8).2.2.2
      { p := 3, length := UTF8CHK_CSTRING - 3, expect_low_surrogate := false, u_cache := 0,
        n := 2, n_prev := 2 }
      3 (Reaches.step _ _ _ (by decide) rfl (Reaches.step _ _ _ (by decide) rfl (Reaches.refl _)))
      rfl⟩

/-- Claim C29: every byte `utf8chk` reads lies within the buffer.  In
explicit-length mode with `N` bytes the run returns a result, and it returns
the same result on the buffer cut off after `N` bytes and on every other
buffer with the same bytes at the indices below `N`: no index `N` or above is
read.  In sentinel mode with a zero byte at index `z` the run returns a
result, and it returns the same result on the buffer cut off after index `z`
and on every other buffer with the same bytes at the indices up to `z`: no
index above `z` is read.  A read outside the buffer would end the run with
`Fault.out_of_bounds` instead. -/
theorem C29_reads_in_bounds (string : List Byte) (flags : Nat) :
    (∀ N, N ≤ string.length →
      ∃ r, utf8chk string N flags = .ok r ∧ utf8chk (string.take N) N flags = .ok r ∧
        ∀ other : List Byte, (∀ j, j < N → other[j]? = string[j]?) →
          utf8chk other N flags = .ok r) ∧
    (∀ z : Nat, string[z]? = some (0 : Byte) →
      ∃ r, utf8chk string UTF8CHK_CSTRING flags = .ok r ∧
        utf8chk (string.take (z + 1)) UTF8CHK_CSTRING flags = .ok r ∧
        ∀ other : List Byte, (∀ j, j ≤ z → other[j]? = string[j]?) →
          utf8chk other UTF8CHK_CSTRING flags = .ok r) := by
  constructor
  · intro N hN
    obtain ⟨r, hr⟩ := utf8chk_explicit_returns string N flags hN
    refine ⟨r, hr, ?_, fun other hag => ?_⟩
    · rw [utf8chk_agree_below string (string.take N) N flags
        (fun j hj => getElem?_take_of_lt string N j hj)]
      exact hr
    · rw [utf8chk_agree_below string other N flags hag]
      exact hr
  · intro z hz
    obtain ⟨r, hr⟩ := utf8chk_sentinel_returns string flags ⟨z, hz⟩
    refine ⟨r, hr, ?_, fun other hag => ?_⟩
    · rw [utf8chk_agree_sentinel string (string.take (z + 1)) flags z hz
        (fun j hj => getElem?_take_of_lt string (z + 1) j (by omega))]
      exact hr
    · rw [utf8chk_agree_sentinel string other flags z hz hag]
      exact hr

/-- On `E2 82 AC 00 C3` with explicit length 3 the run returns a result, the
same on the buffer cut off after 3 bytes; in sentinel mode, with the zero
byte at index 3, the same on the buffer cut off after index 3. -/
theorem C29_reads_in_bounds_witness :
    (∃ r, utf8chk [0xE2, 0x82, 0xAC, 0x00, 0xC3] 3 UTF8CHK_STRICT = .ok r ∧
      utf8chk (List.take 3 [0xE2, 0x82, 0xAC, 0x00, 0xC3]) 3 UTF8CHK_STRICT = .ok r ∧
      ∀ other : List Byte,
        (∀ j, j < 3 → other[j]? = ([0xE2, 0x82, 0xAC, 0x00, 0xC3] : List Byte)[j]?) →
          utf8chk other 3 UTF8CHK_STRICT = .ok r) ∧
    (∃ r, utf8chk [0xE2, 0x82, 0xAC, 0x00, 0xC3] UTF8CHK_CSTRING UTF8CHK_STRICT = .ok r ∧
      utf8chk (List.take (3 + 1) [0xE2, 0x82, 0xAC, 0x00, 0xC3]) UTF8CHK_CSTRING UTF8CHK_STRICT
        = .ok r ∧
      ∀ other : List Byte,
        (∀ j, j ≤ 3 → other[j]? = ([0xE2, 0x82, 0xAC, 0x00, 0xC3] : List Byte)[j]?) →
          utf8chk other UTF8CHK_CSTRING UTF8CHK_STRICT = .ok r) :=
  ⟨(C29_reads_in_bounds [0xE2, 0x82, 0xAC, 0x00, 0xC3] UTF8CHK_STRICT).1 3 (by decide),
    (C29_reads_in_bounds [0xE2, 0x82, 0xAC, 0x00, 0xC3] UTF8CHK_STRICT).2 3 rfl⟩

/-- Claim C30: the flags only add checks.  When `utf8chk` returns
`UTF8CHK_OK` for a string under the flags `F`, it returns `UTF8CHK_OK` with
the same offset (and length 0) under every subset `G` of `F`, a subset being
a flag word whose bits are all in `F`: `G &&& F = G`. -/
theorem C30_flag_monotone (string : List Byte) (length F G : Nat) (r : Result)
    (hsub : G &&& F = G) (hok : utf8chk string length F = .ok r)
    (herr : r.err = UTF8CHK_OK) : utf8chk string length G = .ok r :=
  utf8chk_loop_mono string F G _ hsub length _ _ r
    ⟨rfl, rfl, fun _ => ⟨rfl, rfl⟩⟩ hok herr

/-- The surrogate pair `ED A0 81 ED B0 80` is `UTF8CHK_OK` at offset 6 under
`UTF8CHK_CESU8`, hence under its subset `UTF8CHK_WTF8`. -/
theorem C30_flag_monotone_witness :
    UTF8CHK_WTF8 &&& UTF8CHK_CESU8 = UTF8CHK_WTF8 ∧
    utf8chk [0xED, 0xA0, 0x81, 0xED, 0xB0, 0x80] 6 UTF8CHK_CESU8 = .ok ⟨UTF8CHK_OK, 6, 0⟩ ∧
    utf8chk [0xED, 0xA0, 0x81, 0xED, 0xB0, 0x80] 6 UTF8CHK_WTF8 = .ok ⟨UTF8CHK_OK, 6, 0⟩ :=
  ⟨by decide, rfl,
    C30_flag_monotone [0xED, 0xA0, 0x81, 0xED, 0xB0, 0x80] 6 UTF8CHK_CESU8 UTF8CHK_WTF8
      ⟨UTF8CHK_OK, 6, 0⟩ (by decide) rfl rfl⟩


end Utf8chk
